import Mathlib

/-!
# Aether obfuscator: a shallow embedding of the transformation core

The C++ sources under `obfuscator/` are embedded as pure Lean functions.

* A `std::string` is a list of bytes (`Str`); a byte is its unsigned bit
  pattern `0..255`, so a `char` and a `uint8_t` share one representation.
* C++ `int` values are `Int`; where the source narrows an `int` to a `char`
  the narrowing is written out (`toByte`, reduction modulo `2^8`).
* A thrown exception is the `error` side of `Except`.
* The process-wide `RandomGenerator` singleton becomes an explicit generator
  state threaded through every function that draws from it. Where the replay
  of a seed is concerned the generator is the object itself, with its two data
  members: the engine, and the distribution object `m_doubleDist`, which
  `setSeed` does not touch.
* A `size_t` is a `Nat`; strings and vectors are shorter than `2^31`, so that
  the conversions between `size_t` and `int` in the source are exact.
* A pattern of `std::regex` is a list of items, matched by backtracking.
* The files of the batch mode are an explicit state (`FileSystem`), and the
  condition of a generated `if` is read as a C expression (`CExpr`) that is
  evaluated in 32-bit signed arithmetic.
* A `std::stringstream` is the text written so far together with its
  formatting state (`OStream`): the base flag set by `std::hex` and `std::dec`
  stays until it is changed, the width set by `std::setw` holds for the next
  insertion only.
* In `NameGenerator` the differences of `size_t` values are written with their
  wrap-around modulo `2^64` (`size_sub`), and `std::string::reserve` throws
  `std::length_error` above `max_size()`.
* The text of a generated dispatcher is read as a state machine
  (`DispatchCase`, `dispatchStep`).
-/

namespace Aether

/-! ## Text -/

/-- One `char` / `uint8_t`, as its unsigned bit pattern. -/
abbrev Byte := Fin 256

/-- The contents of a `std::string`. -/
abbrev Str := List Byte

/-- The bytes of an ASCII literal of the source. -/
def ascii (s : String) : Str :=
  s.toList.map (fun c => Fin.ofNat c.toNat)

/-- Narrowing conversion of an `int` to a `char`: the low eight bits. -/
def toByte (z : Int) : Byte :=
  ⟨(z % 256).toNat, by
    have h1 : 0 ≤ z % 256 := Int.emod_nonneg z (by decide)
    have h2 : z % 256 < 256 := Int.emod_lt_of_pos z (by decide)
    omega⟩

/-- The operator `^` on two bytes (`c ^= key` keeps the low eight bits). -/
def bxor (a b : Byte) : Byte :=
  ⟨(a.val ^^^ b.val) % 256, Nat.mod_lt _ (by decide)⟩

/-! ## CryptoUtils (`src/utils/random_utils.cpp`) -/

/-- The exceptions the core throws: `std::invalid_argument` and
`std::length_error`, with the text of `what()`. -/
inductive Error where
  | invalidArgument (what : String)
  | lengthError (what : String)
  deriving DecidableEq, Repr

namespace CryptoUtils

/-- Source: `CryptoUtils::xorEncrypt(const std::string&, uint8_t)`: every character of
a copy of `data` is XOR-ed with `key`. -/
def xorEncrypt (data : Str) (key : Byte) : Str :=
  data.map (fun c => bxor c key)

/-- The loop of the cyclic-key `xorEncrypt`, from index `i` on:
`result[i] ^= key[i % keyLen]`. -/
def xorLoop (key : List Byte) (hk : 0 < key.length) : Nat → Str → Str
  | _, [] => []
  | i, c :: rest =>
    bxor c (key.get ⟨i % key.length, Nat.mod_lt i hk⟩) :: xorLoop key hk (i + 1) rest

/-- Source: `CryptoUtils::xorEncrypt(const std::string&, const std::vector<uint8_t>&)`:
throws `std::invalid_argument` on an empty key, otherwise XOR-s the `i`-th
character with `key[i % key.size()]`. -/
def xorEncryptKey (data : Str) (key : List Byte) : Except Error Str :=
  if hk : key.length = 0 then
    .error (.invalidArgument "Key cannot be empty")
  else
    .ok (xorLoop key (Nat.pos_of_ne_zero hk) 0 data)

/-- The body of the loop of `substitutionEncrypt` on one character. The
arithmetic is that of `int` (`%` truncates towards zero, `Int.tmod`); the
result is narrowed back to `char`. The `int` expression `c - 'a' + shift`
does not overflow for `-2^31 <= shift < 2^31 - 25`. -/
def substChar (shift : Int) (c : Byte) : Byte :=
  if 97 ≤ c.val ∧ c.val ≤ 122 then
    toByte (97 + Int.tmod ((c.val : Int) - 97 + shift) 26)
  else if 65 ≤ c.val ∧ c.val ≤ 90 then
    toByte (65 + Int.tmod ((c.val : Int) - 65 + shift) 26)
  else
    c

/-- Source: `CryptoUtils::substitutionEncrypt`. -/
def substitutionEncrypt (data : Str) (shift : Int) : Str :=
  data.map (substChar shift)

end CryptoUtils

/-! ## std::string and std::getline -/

/-- The scan of `std::string::find`: `s` is the part of the string that starts
at index `i`; the result is the first index at which `pat` occurs, `none` for
`npos`. -/
def findAt : Str → Str → Nat → Option Nat
  | [], pat, i => if pat.isEmpty then some i else none
  | c :: cs, pat, i => if pat.isPrefixOf (c :: cs) then some i else findAt cs pat (i + 1)

/-- The call `s.find(pat)`. -/
def find (s pat : Str) : Option Nat :=
  findAt s pat 0

/-- One call `std::getline(ss, line)` on the unread part of the stream: it
fails at end of input, otherwise it returns the characters before the first
newline and consumes that newline too. -/
def getline : Str → Option (Str × Str)
  | [] => none
  | c :: cs =>
    some ((c :: cs).takeWhile (fun x => x != 10), ((c :: cs).dropWhile (fun x => x != 10)).drop 1)

/-- The loop `while (std::getline(ss, line)) lines.push_back(line);`, with a
bound on the number of iterations. -/
def readLines : Nat → Str → List Str
  | 0, _ => []
  | fuel + 1, s =>
    match getline s with
    | none => []
    | some (line, rest) => line :: readLines fuel rest

/-- The lines of a text, as the `getline` loop collects them. Every successful
`getline` consumes a character, so `s.length` iterations exhaust the text. -/
def splitLines (s : Str) : List Str :=
  readLines s.length s

/-- The call `std::to_string(n)` on an `int`. -/
def to_string (n : Int) : Str :=
  ascii (toString n)

/-! ## RandomGenerator (`src/utils/random_utils.cpp`) -/

/-- The standard-library engine behind `RandomGenerator`, over its state `G`:
the two distributions the generator draws from. A `double` is the rational
number it denotes. -/
structure StdRandom (G : Type) where
  /-- The draw `std::uniform_int_distribution<int>(a, b)(m_engine)`. -/
  uniformInt : Int → Int → G → Int × G
  /-- The draw `m_doubleDist(m_engine)`, `m_doubleDist` being the uniform real
  distribution on `[0.0, 1.0)`. -/
  uniformReal : G → ℚ × G

/-- The contract of `std::uniform_int_distribution`: a draw on `[a, b]` with
`a <= b` lies in `[a, b]`. -/
def StdRandom.IntInRange {G : Type} (R : StdRandom G) : Prop :=
  ∀ a b g, a ≤ b → a ≤ (R.uniformInt a b g).1 ∧ (R.uniformInt a b g).1 ≤ b

/-- The contract of `std::uniform_real_distribution<double>(0.0, 1.0)`: a draw
lies in `[0, 1)`. -/
def StdRandom.RealInUnit {G : Type} (R : StdRandom G) : Prop :=
  ∀ g, 0 ≤ (R.uniformReal g).1 ∧ (R.uniformReal g).1 < 1

/-- The step of a linear congruential engine. -/
def lcgNext (g : Nat) : Nat :=
  (g * 1103515245 + 12345) % 2147483648

/-- A concrete engine (a linear congruential one) on which the development
can be evaluated. -/
def lcg : StdRandom Nat where
  uniformInt a b g := (a + (lcgNext g : Int) % (b - a + 1), lcgNext g)
  uniformReal g := ((lcgNext g : ℚ) / 2147483648, lcgNext g)

namespace RandomGenerator

variable {G : Type}

/-- Source: `RandomGenerator::randomInt`: the bounds are swapped when `min > max`. -/
def randomInt (R : StdRandom G) (min max : Int) (g : G) : Int × G :=
  if min > max then R.uniformInt max min g else R.uniformInt min max g

/-- Source: `RandomGenerator::randomDouble`. -/
def randomDouble (R : StdRandom G) (g : G) : ℚ × G :=
  R.uniformReal g

/-- Source: `RandomGenerator::randomBool`: `randomDouble() < probability`. -/
def randomBool (R : StdRandom G) (probability : ℚ) (g : G) : Bool × G :=
  (decide ((randomDouble R g).1 < probability), (randomDouble R g).2)

end RandomGenerator

/-! ## Strategies (`include/strategy/obfuscation_strategy.h`,
`src/strategy/obfuscation_strategy.cpp`) -/

/-- An object behind a pointer to the base class `ObfuscationStrategy`.
`apply` is the virtual method: it reads the object's level, the input, the
previous contents of the caller's output string and the generator state, and
returns its status, the new contents of the output string and the new
generator state. -/
structure ObfuscationStrategy (G : Type) where
  getName : Str
  getDescription : Str
  m_level : Int := 2
  m_enabled : Bool := true
  apply : Int → Str → Str → G → Bool × Str × G

namespace ObfuscationStrategy

variable {G : Type}

/-- Source: `ObfuscationStrategy::setLevel`. -/
def setLevel (s : ObfuscationStrategy G) (level : Int) : ObfuscationStrategy G :=
  { s with m_level := level }

/-- Source: `ObfuscationStrategy::setEnabled`. -/
def setEnabled (s : ObfuscationStrategy G) (enabled : Bool) : ObfuscationStrategy G :=
  { s with m_enabled := enabled }

end ObfuscationStrategy

/-- The data members of a `JunkInstructionStrategy`. The `float` default
`0.3f` is the rational `5033165 / 16777216`. -/
structure JunkInstructionStrategy where
  m_level : Int := 2
  m_enabled : Bool := true
  m_density : ℚ := 5033165 / 16777216
  m_maxPerBlock : Int := 5

namespace JunkInstructionStrategy

variable {G : Type}

/-- Source: `JunkInstructionStrategy::setDensity`. -/
def setDensity (J : JunkInstructionStrategy) (density : ℚ) : JunkInstructionStrategy :=
  { J with m_density := density }

/-- Source: `JunkInstructionStrategy::setMaxPerBlock`. -/
def setMaxPerBlock (J : JunkInstructionStrategy) (max : Int) : JunkInstructionStrategy :=
  { J with m_maxPerBlock := max }

/-- One iteration of the loop of `generateJunkInstructions`: the statements
pushed for one group, and the generator state after its draws. -/
def junkGroup (R : StdRandom G) (g : G) : List Str × G :=
  let t := RandomGenerator.randomInt R 0 6 g
  if t.1 = 0 then
    let var := RandomGenerator.randomInt R 0 999 t.2
    let val := RandomGenerator.randomInt R 1 100 var.2
    ([ascii "    int __junk_" ++ to_string var.1 ++ ascii " = " ++ to_string val.1 ++ ascii ";",
      ascii "    __junk_" ++ to_string var.1 ++ ascii " += " ++ to_string (val.1 * 2) ++ ascii ";",
      ascii "    __junk_" ++ to_string var.1 ++ ascii " -= " ++ to_string (val.1 * 2) ++ ascii ";"],
     val.2)
  else if t.1 = 1 then
    let var := RandomGenerator.randomInt R 0 999 t.2
    ([ascii "    volatile int __tmp_" ++ to_string var.1 ++ ascii " = 0;",
      ascii "    __tmp_" ++ to_string var.1 ++ ascii " ^= __tmp_" ++ to_string var.1 ++ ascii ";"],
     var.2)
  else if t.1 = 2 then
    let a := RandomGenerator.randomInt R 0 100 t.2
    let b := RandomGenerator.randomInt R 0 100 a.2
    ([ascii "    if (" ++ to_string a.1 ++ ascii " < " ++ to_string b.1 ++
        ascii ") \x7b volatile int x = 0; \x7d"],
     b.2)
  else if t.1 = 3 then
    ([ascii "    for (volatile int __i = 0; __i < 0; __i++) \x7b\x7d"], t.2)
  else if t.1 = 4 then
    ([ascii "    void* __ptr_tmp = (void*)0;", ascii "    __ptr_tmp = __ptr_tmp;"], t.2)
  else if t.1 = 5 then
    let x := RandomGenerator.randomInt R 1 10 t.2
    ([ascii "    volatile int __expr = (" ++ to_string x.1 ++ ascii " * " ++ to_string x.1 ++
        ascii " - " ++ to_string (x.1 * x.1) ++ ascii ");"],
     x.2)
  else if t.1 = 6 then
    ([ascii "    \x7b volatile char __stack_tmp[8]; __stack_tmp[0] = 0; \x7d"], t.2)
  else
    ([], t.2)

/-- The loop `for (int i = 0; i < count; ++i)` of `generateJunkInstructions`,
with `n` iterations left. -/
def junkLoop (R : StdRandom G) : Nat → List Str → G → List Str × G
  | 0, instructions, g => (instructions, g)
  | n + 1, instructions, g =>
    junkLoop R n (instructions ++ (junkGroup R g).1) (junkGroup R g).2

/-- Source: `JunkInstructionStrategy::generateJunkInstructions`. -/
def generateJunkInstructions (R : StdRandom G) (count : Int) (g : G) : List Str × G :=
  junkLoop R count.toNat [] g

/-- The inner loop of `apply`: `result << junk << "\n"` for every statement. -/
def emitJunk (result : Str) (junkInstructions : List Str) : Str :=
  junkInstructions.foldl (fun r junk => r ++ junk ++ ascii "\n") result

/-- The test of `apply` on a line: not empty, not starting with `#`, and
containing none of `//`, `/*`, `:`. -/
def insertable (currentLine : Str) : Bool :=
  !currentLine.isEmpty &&
  currentLine.head? != some 35 &&
  find currentLine (ascii "//") == none &&
  find currentLine (ascii "/*") == none &&
  find currentLine (ascii ":") == none

/-- The loop `for (const auto& currentLine : lines)` of `apply`, on the lines
left, the text written to `result` so far and the generator state. -/
def applyLoop (R : StdRandom G) (J : JunkInstructionStrategy) : List Str → Str → G → Str × G
  | [], result, g => (result, g)
  | currentLine :: rest, result, g =>
    let result1 := result ++ currentLine ++ ascii "\n"
    let b := RandomGenerator.randomBool R J.m_density g
    if b.1 then
      if insertable currentLine then
        let count := RandomGenerator.randomInt R 1 J.m_maxPerBlock b.2
        let junk := generateJunkInstructions R count.1 count.2
        applyLoop R J rest (emitJunk result1 junk.1) junk.2
      else
        applyLoop R J rest result1 b.2
    else
      applyLoop R J rest result1 b.2

/-- Source: `JunkInstructionStrategy::apply`: the status, the output text and the
generator state. -/
def apply (R : StdRandom G) (J : JunkInstructionStrategy) (input : Str) (g : G) :
    Bool × Str × G :=
  (true, applyLoop R J (splitLines input) [] g)

/-- A `JunkInstructionStrategy` seen through a pointer to its base class. -/
def toStrategy (R : StdRandom G) (J : JunkInstructionStrategy) : ObfuscationStrategy G where
  getName := ascii "JunkInstructions"
  getDescription := ascii "Insert meaningless but legal instructions"
  m_level := J.m_level
  m_enabled := J.m_enabled
  apply := fun _ input _ g => apply R J input g

end JunkInstructionStrategy

/-! ## ObfuscationEngine (`src/engine/obfuscation_engine.cpp`) -/

/-- Source: `ObfuscationEngine::Statistics`. The two `double` fields hold the rational
value of the expression that the source assigns to them. -/
structure Statistics where
  originalSize : Nat := 0
  obfuscatedSize : Nat := 0
  sizeIncrease : ℚ := 0
  strategiesApplied : Int := 0
  timeTaken : ℚ := 0
  deriving DecidableEq

/-- The data members of an `ObfuscationEngine` (the instrumentation engine it
owns is never used by the methods below). -/
structure ObfuscationEngine (G : Type) where
  m_strategies : List (ObfuscationStrategy G) := []
  m_obfuscationLevel : Int := 2
  m_preserveDebugInfo : Bool := false
  m_verbose : Bool := false
  m_stats : Statistics := {}

/-- What a call of `obfuscate` leaves behind: the returned status, the
caller's output string, the engine and the generator state. -/
structure ObfuscateResult (G : Type) where
  ret : Bool
  outputCode : Str
  engine : ObfuscationEngine G
  gen : G

namespace ObfuscationEngine

variable {G : Type}

/-- Source: `ObfuscationEngine::addStrategy`; `none` is the null pointer. -/
def addStrategy (E : ObfuscationEngine G) (strategy : Option (ObfuscationStrategy G)) :
    ObfuscationEngine G :=
  match strategy with
  | none => E
  | some s => { E with m_strategies := E.m_strategies ++ [s.setLevel E.m_obfuscationLevel] }

/-- Source: `ObfuscationEngine::removeStrategy`: `std::remove_if` on the name, then
`erase`. -/
def removeStrategy (E : ObfuscationEngine G) (name : Str) : ObfuscationEngine G :=
  { E with m_strategies := E.m_strategies.filter (fun strategy => !(strategy.getName == name)) }

/-- Source: `ObfuscationEngine::setObfuscationLevel`. -/
def setObfuscationLevel (E : ObfuscationEngine G) (level : Int) : ObfuscationEngine G :=
  if level < 1 ∨ level > 4 then
    { E with m_obfuscationLevel := 2 }
  else
    { E with
      m_obfuscationLevel := level
      m_strategies := E.m_strategies.map (fun strategy => strategy.setLevel level) }

/-- Source: `ObfuscationEngine::validateInput`. -/
def validateInput (code : Str) : Bool :=
  !code.isEmpty

/-- The loop `for (auto& strategy : m_strategies)` of `applyStrategies`, on
the strategies left, with the locals `currentCode` and `nextCode`, the counter
`m_stats.strategiesApplied` and the generator state. -/
def applyStrategiesLoop :
    List (ObfuscationStrategy G) → Str → Str → Int → G → Str × Str × Int × G
  | [], currentCode, nextCode, applied, g => (currentCode, nextCode, applied, g)
  | strategy :: rest, currentCode, nextCode, applied, g =>
    if !strategy.m_enabled then
      applyStrategiesLoop rest currentCode nextCode applied g
    else
      let r := strategy.apply strategy.m_level currentCode nextCode g
      if r.1 then
        applyStrategiesLoop rest r.2.1 r.2.1 (applied + 1) r.2.2
      else
        applyStrategiesLoop rest currentCode r.2.1 applied r.2.2

/-- Source: `ObfuscationEngine::applyStrategies`: the counter is reset, the loop runs
from `currentCode = input` and an empty `nextCode`, and the final
`currentCode` is assigned to `output`. -/
def applyStrategies (E : ObfuscationEngine G) (input : Str) (g : G) : ObfuscateResult G :=
  let r := applyStrategiesLoop E.m_strategies input [] 0 g
  { ret := true
    outputCode := r.1
    engine := { E with m_stats := { E.m_stats with strategiesApplied := r.2.2.1 } }
    gen := r.2.2.2 }

/-- Source: `ObfuscationEngine::obfuscate`. `outputCode` is the caller's string as it
is when the call is made; `elapsed` is the reading of the clock,
`endTime - startTime` in seconds. -/
def obfuscate (E : ObfuscationEngine G) (inputCode outputCode : Str) (g : G) (elapsed : ℚ) :
    ObfuscateResult G :=
  if !validateInput inputCode then
    { ret := false, outputCode := outputCode, engine := E, gen := g }
  else
    let r := applyStrategies E inputCode g
    if !r.ret then
      { r with ret := false }
    else
      { r with
        ret := true
        engine :=
          { r.engine with
            m_stats :=
              { r.engine.m_stats with
                originalSize := inputCode.length
                obfuscatedSize := r.outputCode.length
                sizeIncrease := ((r.outputCode.length : ℚ) / (inputCode.length : ℚ) - 1) * 100
                timeTaken := elapsed } } }

/-- A call of one of the three configuration methods of the engine. -/
inductive Call (G : Type) where
  | addStrategy (strategy : Option (ObfuscationStrategy G))
  | removeStrategy (name : Str)
  | setObfuscationLevel (level : Int)

/-- The engine after one configuration call. -/
def call (E : ObfuscationEngine G) : Call G → ObfuscationEngine G
  | .addStrategy strategy => E.addStrategy strategy
  | .removeStrategy name => E.removeStrategy name
  | .setObfuscationLevel level => E.setObfuscationLevel level

/-- The engine after a sequence of configuration calls, oldest first. -/
def calls (E : ObfuscationEngine G) (cs : List (Call G)) : ObfuscationEngine G :=
  cs.foldl call E

/-- The levels of the held strategies, in order. -/
def strategyLevels (E : ObfuscationEngine G) : List Int :=
  E.m_strategies.map (fun strategy => strategy.m_level)

end ObfuscationEngine

/-! ## The pipeline as the specification words it -/

/-- The state the specification's fold carries: the current text, the output
string handed to the strategies, and the generator state. -/
structure PipeState (G : Type) where
  current : Str
  scratch : Str
  gen : G

namespace Pipeline

variable {G : Type}

/-- Whether a strategy, met in state `st`, is enabled and reports success. -/
def succeeds (st : PipeState G) (s : ObfuscationStrategy G) : Bool :=
  s.m_enabled && (s.apply s.m_level st.current st.scratch st.gen).1

/-- One step of the fold: a disabled strategy is skipped; an enabled strategy
that reports success replaces the current text with its output; an enabled
strategy that reports failure leaves the current text unchanged. -/
def step (st : PipeState G) (s : ObfuscationStrategy G) : PipeState G :=
  if s.m_enabled then
    if succeeds st s then
      { current := (s.apply s.m_level st.current st.scratch st.gen).2.1
        scratch := (s.apply s.m_level st.current st.scratch st.gen).2.1
        gen := (s.apply s.m_level st.current st.scratch st.gen).2.2 }
    else
      { current := st.current
        scratch := (s.apply s.m_level st.current st.scratch st.gen).2.1
        gen := (s.apply s.m_level st.current st.scratch st.gen).2.2 }
  else
    st

/-- The left fold over the strategies in insertion order. -/
def run (strategies : List (ObfuscationStrategy G)) (st : PipeState G) : PipeState G :=
  strategies.foldl step st

/-- The number of enabled strategies that report success, each one met in the
state the fold has reached before it. -/
def successes : List (ObfuscationStrategy G) → PipeState G → Nat
  | [], _ => 0
  | s :: rest, st => (if succeeds st s then 1 else 0) + successes rest (step st s)

end Pipeline

/-! ## RandomGenerator: seeding, choice, shuffle, bytes and strings
(`include/utils/random_utils.h`, `src/utils/random_utils.cpp`) -/

/-- The standard-library engine with the two further operations the generator
uses: seeding and `std::shuffle`. -/
structure StdEngine (G : Type) extends StdRandom G where
  /-- The state after `m_engine.seed(seed)`, for a `uint32_t` seed. -/
  seed : Nat → G
  /-- The call `std::shuffle(first, last, m_engine)` on `n` elements: the list
  of the source positions of the elements, in their new order, and the new
  state. The algorithm looks at positions only, never at the elements. -/
  shufflePositions : Nat → G → List Nat × G

/-- The sample engine `lcg` with a seeding and a shuffle (a rotation). -/
def lcgEngine : StdEngine Nat where
  toStdRandom := lcg
  seed := fun s => s
  shufflePositions := fun n g => ((List.range n).rotate (lcgNext g % (n + 1)), lcgNext g)

/-- The standard library as the generator object uses it: besides the engine,
the distribution object behind `m_doubleDist`, whose state is a `D`. -/
structure StdLibrary (G D : Type) extends StdEngine G where
  /-- The object that `m_doubleDist(0.0, 1.0)` constructs. -/
  unitDist : D
  /-- The call `d(m_engine)` on a distribution object `d`: the value drawn, the
  object after the call and the engine after it. -/
  realDraw : D → G → ℚ × D × G

/-- What is known of `std::uniform_real_distribution`: it keeps nothing from
one draw to the next (its `reset()` has nothing to reset), so that a draw from
the object constructed on `[0.0, 1.0)` is the draw `uniformReal` and leaves the
object as it was constructed. -/
def StdLibrary.RealStateless {G D : Type} (L : StdLibrary G D) : Prop :=
  ∀ g, L.realDraw L.unitDist g = ((L.uniformReal g).1, L.unitDist, (L.uniformReal g).2)

/-- The sample engine with a distribution object that holds its two bounds and
scales the draw on `[0, 1)` by them. -/
def lcgLibrary : StdLibrary Nat (ℚ × ℚ) where
  toStdEngine := lcgEngine
  unitDist := (0, 1)
  realDraw := fun d g => (d.1 + (d.2 - d.1) * (lcg.uniformReal g).1, d, (lcg.uniformReal g).2)

/-- A library whose distribution object keeps a value back on every other
draw, as `std::normal_distribution` does; the generator is not built against
such a one. A draw from the empty object advances the engine and saves half
the value; a draw from the full one hands the saved value out and leaves the
engine alone. -/
def cachingLibrary : StdLibrary Nat (Option ℚ) where
  toStdEngine := lcgEngine
  unitDist := none
  realDraw := fun d g =>
    match d with
    | none => ((lcg.uniformReal g).1, some ((lcg.uniformReal g).1 / 2), (lcg.uniformReal g).2)
    | some saved => (saved, none, g)

/-- The object `RandomGenerator`: its two data members. -/
structure RandomGenerator (G D : Type) where
  m_engine : G
  m_doubleDist : D

namespace RandomGenerator

variable {G D : Type}

/-- Source: the constructor `RandomGenerator::RandomGenerator`, `device` being
the value of `std::random_device{}()`. -/
def create (L : StdLibrary G D) (device : Nat) : RandomGenerator G D :=
  { m_engine := L.seed device, m_doubleDist := L.unitDist }

/-- Source: `RandomGenerator::setSeed`: `m_engine.seed(seed)`. The engine is
re-seeded, whatever its state was; `m_doubleDist` is left alone. -/
def setSeed (L : StdLibrary G D) (seed : Nat) (self : RandomGenerator G D) :
    RandomGenerator G D :=
  { self with m_engine := L.seed seed }

/-- Source: `RandomGenerator::randomChoice`: throws on an empty vector,
otherwise reads `choices[index]` at the drawn index. A read outside the vector
(undefined behaviour in the source) is `none`. The conversion of
`choices.size() - 1` to `int` is exact for vectors shorter than `2^31`. -/
def randomChoice {α : Type} (R : StdRandom G) (choices : List α) (g : G) :
    Except Error (Option α × G) :=
  if choices.isEmpty then
    .error (.invalidArgument "Cannot choose from empty vector")
  else
    let index := randomInt R 0 ((choices.length : Int) - 1) g
    .ok (if index.1 < 0 then none else choices.get? index.1.toNat, index.2)

/-- Source: `RandomGenerator::shuffle`: the vector after `std::shuffle`. -/
def shuffle {α : Type} (R : StdEngine G) (vec : List α) (g : G) : List α × G :=
  let r := R.shufflePositions vec.length g
  (r.1.filterMap (fun i => vec.get? i), r.2)

/-- The loop of `randomBytes`, with `n` iterations left: a draw on `[0, 255]`
narrowed to `uint8_t` is appended. -/
def randomBytesLoop (R : StdRandom G) : Nat → List Byte → G → List Byte × G
  | 0, bytes, g => (bytes, g)
  | n + 1, bytes, g =>
    randomBytesLoop R n (bytes ++ [toByte (R.uniformInt 0 255 g).1]) (R.uniformInt 0 255 g).2

/-- Source: `RandomGenerator::randomBytes`. -/
def randomBytes (R : StdRandom G) (count : Nat) (g : G) : List Byte × G :=
  randomBytesLoop R count [] g

/-- The array `charset` of `randomString`, without its terminator. -/
def charset : Str :=
  ascii "abcdefghijklmnopqrstuvwxyzABCDEFGHIJKLMNOPQRSTUVWXYZ0123456789"

/-- The array `hexChars` of `randomHexString`, without its terminator. -/
def hexChars : Str :=
  ascii "0123456789abcdef"

/-- The read `table[index]` of a character array by an `int` index. The byte 0
stands for a read outside the array, which does not arise when the draw keeps
to its range. -/
def charAt (table : Str) (index : Int) : Byte :=
  if index < 0 then 0 else table.getD index.toNat 0

/-- The loop of `randomString` and of `randomHexString`, with `n` iterations
left: `result += table[randomInt(0, table size - 1)]`. -/
def randomCharsLoop (R : StdRandom G) (table : Str) : Nat → Str → G → Str × G
  | 0, result, g => (result, g)
  | n + 1, result, g =>
    randomCharsLoop R table n
      (result ++ [charAt table (randomInt R 0 ((table.length : Int) - 1) g).1])
      (randomInt R 0 ((table.length : Int) - 1) g).2

/-- Source: `RandomGenerator::randomString`. -/
def randomString (R : StdRandom G) (length : Nat) (g : G) : Str × G :=
  randomCharsLoop R charset length [] g

/-- Source: `RandomGenerator::randomHexString`. -/
def randomHexString (R : StdRandom G) (length : Nat) (g : G) : Str × G :=
  randomCharsLoop R hexChars length [] g

/-- A call of one of the generator's drawing methods, with its arguments. -/
inductive Op where
  | randomInt (min max : Int)
  | randomDouble
  | randomBool (probability : ℚ)
  | randomChoice (choices : List Str)
  | shuffle (vec : List Str)
  | randomBytes (count : Nat)
  | randomString (length : Nat)
  | randomHexString (length : Nat)

/-- What a call hands back to its caller. -/
inductive Output where
  | int (v : Int)
  | real (v : ℚ)
  | bool (b : Bool)
  | thrown (e : Error)
  | choice (c : Option Str)
  | strings (vec : List Str)
  | bytes (b : List Byte)
  | string (s : Str)
  deriving DecidableEq

/-- One call on the generator object: its output and the object after it.
Six of the methods draw from `m_engine` alone; `randomDouble`, and `randomBool`
through it, call `m_doubleDist(m_engine)`, which may change both members. A
call of `randomChoice` that throws has drawn nothing. -/
def perform (L : StdLibrary G D) (self : RandomGenerator G D) : Op → Output × RandomGenerator G D
  | .randomInt min max =>
    (.int (randomInt L.toStdRandom min max self.m_engine).1,
      { self with m_engine := (randomInt L.toStdRandom min max self.m_engine).2 })
  | .randomDouble =>
    (.real (L.realDraw self.m_doubleDist self.m_engine).1,
      { m_engine := (L.realDraw self.m_doubleDist self.m_engine).2.2
        m_doubleDist := (L.realDraw self.m_doubleDist self.m_engine).2.1 })
  | .randomBool probability =>
    (.bool (decide ((L.realDraw self.m_doubleDist self.m_engine).1 < probability)),
      { m_engine := (L.realDraw self.m_doubleDist self.m_engine).2.2
        m_doubleDist := (L.realDraw self.m_doubleDist self.m_engine).2.1 })
  | .randomChoice choices =>
    match randomChoice L.toStdRandom choices self.m_engine with
    | .error e => (.thrown e, self)
    | .ok r => (.choice r.1, { self with m_engine := r.2 })
  | .shuffle vec =>
    (.strings (shuffle L.toStdEngine vec self.m_engine).1,
      { self with m_engine := (shuffle L.toStdEngine vec self.m_engine).2 })
  | .randomBytes count =>
    (.bytes (randomBytes L.toStdRandom count self.m_engine).1,
      { self with m_engine := (randomBytes L.toStdRandom count self.m_engine).2 })
  | .randomString length =>
    (.string (randomString L.toStdRandom length self.m_engine).1,
      { self with m_engine := (randomString L.toStdRandom length self.m_engine).2 })
  | .randomHexString length =>
    (.string (randomHexString L.toStdRandom length self.m_engine).1,
      { self with m_engine := (randomHexString L.toStdRandom length self.m_engine).2 })

/-- The outputs of a sequence of drawing calls on the object, in order. -/
def outputs (L : StdLibrary G D) : RandomGenerator G D → List Op → List Output
  | _, [] => []
  | self, op :: ops => (perform L self op).1 :: outputs L (perform L self op).2 ops

/-- A call on the generator object: a re-seeding or one of the drawing
methods. -/
inductive Call where
  | setSeed (seed : Nat)
  | draw (op : Op)

/-- The object after one call. -/
def step (L : StdLibrary G D) (self : RandomGenerator G D) : Call → RandomGenerator G D
  | .setSeed seed => setSeed L seed self
  | .draw op => (perform L self op).2

/-- The object after a sequence of calls, oldest first. -/
def after (L : StdLibrary G D) (self : RandomGenerator G D) (calls : List Call) :
    RandomGenerator G D :=
  calls.foldl (step L) self

end RandomGenerator

/-! ## More of std::string -/

/-- The call `s.find(pat, pos)`: the search starts at index `pos`, and fails
when `pos` is beyond the end of `s`. -/
def findFrom (s pat : Str) (pos : Nat) : Option Nat :=
  if pos > s.length then none else findAt (s.drop pos) pat pos

/-- The brace-matching loop that `CodeParser::extractFunctionBody` and
`InstrumentationEngine::insertAtFunctionEnd` share,
`while (i < length && braceCount > 0) { count the brace at i; i++; }`, on the
counter, the index `i` and the characters from index `i` on; it returns the
final counter and index. -/
def braceScan : Int → Nat → Str → Int × Nat
  | braceCount, i, [] => (braceCount, i)
  | braceCount, i, c :: rest =>
    if braceCount > 0 then
      braceScan (if c = 123 then braceCount + 1 else if c = 125 then braceCount - 1
        else braceCount) (i + 1) rest
    else
      (braceCount, i)

/-! ## Occurrences and nesting, as the specification words them -/

/-- The text `pat` occurs in `s` at index `i`. -/
def OccursAt (s pat : Str) (i : Nat) : Prop :=
  i ≤ s.length ∧ pat.isPrefixOf (s.drop i) = true

/-- The index `i` is the first one at or after `start` at which `pat` occurs
in `s`. -/
def FirstOccurrence (s pat : Str) (start i : Nat) : Prop :=
  start ≤ i ∧ OccursAt s pat i ∧ ∀ j, start ≤ j → j < i → ¬ OccursAt s pat j

/-- Opening braces minus closing braces of a text. -/
def netBraces (l : Str) : Int :=
  (l.count 123 : Int) - (l.count 125 : Int)

/-- The nesting counter of the brace opened at index `o`, started at 1, after
the character at index `j` has been counted. -/
def nesting (s : Str) (o j : Nat) : Int :=
  1 + netBraces ((s.drop (o + 1)).take (j - o))

/-- The brace opened at index `o` is closed at index `q`: `q` is the first
index after `o` at which the nesting counter returns to zero. -/
def ClosedAt (s : Str) (o q : Nat) : Prop :=
  o < q ∧ q < s.length ∧ nesting s o q = 0 ∧ ∀ j, j < q → o < j → nesting s o j ≠ 0

/-- The brace opened at index `o` is never closed. -/
def NeverClosed (s : Str) (o : Nat) : Prop :=
  ∀ j, j < s.length → o < j → nesting s o j ≠ 0

instance (s : Str) (o q : Nat) : Decidable (ClosedAt s o q) := by
  unfold ClosedAt
  infer_instance

instance (s : Str) (o : Nat) : Decidable (NeverClosed s o) := by
  unfold NeverClosed
  infer_instance

/-! ## InstrumentationEngine (`src/engine/obfuscation_engine.cpp`) -/

/-- The two buffers of an `InstrumentationEngine` (its two position maps are
never written or read). -/
structure InstrumentationEngine where
  m_sourceCode : Str := []
  m_instrumentedCode : Str := []
  deriving DecidableEq

namespace InstrumentationEngine

/-- Source: `InstrumentationEngine::setSourceCode`. -/
def setSourceCode (E : InstrumentationEngine) (code : Str) : InstrumentationEngine :=
  { E with m_sourceCode := code }

/-- Source: `InstrumentationEngine::getInstrumentedCode`. -/
def getInstrumentedCode (E : InstrumentationEngine) : Str :=
  E.m_instrumentedCode

/-- Source: `InstrumentationEngine::insertCode`: the status and the engine
after the call. -/
def insertCode (E : InstrumentationEngine) (code : Str) (position : Nat) :
    Bool × InstrumentationEngine :=
  if E.m_sourceCode.isEmpty then
    (false, E)
  else if position > E.m_sourceCode.length then
    (false, E)
  else
    (true, { E with
      m_instrumentedCode := E.m_sourceCode.take position ++ code ++ E.m_sourceCode.drop position })

/-- Source: `InstrumentationEngine::findBlockPosition`. -/
def findBlockPosition (E : InstrumentationEngine) (blockName : Str) : Option Nat :=
  find E.m_sourceCode blockName

/-- Source: `InstrumentationEngine::findFunctionPosition`: the first
occurrence of the name followed by `(`. -/
def findFunctionPosition (E : InstrumentationEngine) (funcName : Str) : Option Nat :=
  find E.m_sourceCode (funcName ++ ascii "(")

/-- Source: `InstrumentationEngine::insertAtBlockEntry`. -/
def insertAtBlockEntry (E : InstrumentationEngine) (blockName code : Str) :
    Bool × InstrumentationEngine :=
  match E.findBlockPosition blockName with
  | none => (false, E)
  | some pos => E.insertCode code pos

/-- Source: `InstrumentationEngine::insertAtBlockExit`. -/
def insertAtBlockExit (E : InstrumentationEngine) (blockName code : Str) :
    Bool × InstrumentationEngine :=
  match E.findBlockPosition blockName with
  | none => (false, E)
  | some pos =>
    match findFrom E.m_sourceCode (ascii "\x7d") pos with
    | none => (false, E)
    | some endPos => E.insertCode code endPos

/-- Source: `InstrumentationEngine::insertAtFunctionStart`. -/
def insertAtFunctionStart (E : InstrumentationEngine) (funcName code : Str) :
    Bool × InstrumentationEngine :=
  match E.findFunctionPosition funcName with
  | none => (false, E)
  | some pos =>
    match findFrom E.m_sourceCode (ascii "\x7b") pos with
    | none => (false, E)
    | some openBrace => E.insertCode code (openBrace + 1)

/-- Source: `InstrumentationEngine::insertAtFunctionEnd`. -/
def insertAtFunctionEnd (E : InstrumentationEngine) (funcName code : Str) :
    Bool × InstrumentationEngine :=
  match E.findFunctionPosition funcName with
  | none => (false, E)
  | some pos =>
    match findFrom E.m_sourceCode (ascii "\x7b") pos with
    | none => (false, E)
    | some openBrace =>
      let scan := braceScan 1 (openBrace + 1) (E.m_sourceCode.drop (openBrace + 1))
      if scan.1 ≠ 0 then
        (false, E)
      else
        E.insertCode code (scan.2 - 1)

end InstrumentationEngine

/-! ## std::regex, for the patterns of the source

The patterns of the source are sequences of items, each a literal, a group of
alternative literals, or a character class under a greedy `*` or `+`. The
matcher below follows the ECMAScript rules for that fragment: items are
matched left to right, a quantifier first takes as many characters as it can
and gives them back one at a time when the rest of the pattern fails, and the
alternatives of a group are tried in order. -/

namespace Regex

/-- One item of a pattern. -/
inductive Item where
  | lit (s : Str)
  | alts (options : List Str)
  | star (p : Byte → Bool)
  | plus (p : Byte → Bool)

/-- The class `\w`: letters, digits and the underscore. -/
def isWord (c : Byte) : Bool :=
  (48 ≤ c.val && c.val ≤ 57) || (65 ≤ c.val && c.val ≤ 90) || (97 ≤ c.val && c.val ≤ 122) ||
    c.val == 95

/-- The class `\s`: space, tab, newline, vertical tab, form feed and carriage
return. -/
def isSpace (c : Byte) : Bool :=
  c.val == 32 || (9 ≤ c.val && c.val ≤ 13)

/-- A class under `*` followed by the rest of the pattern `k`: the longest run
is tried first. The result is the text the class matched and the pieces of
the rest. -/
def matchStar (p : Byte → Bool) (k : Str → Option (List Str)) : Str → Option (Str × List Str)
  | [] => (k []).map (fun r => ([], r))
  | c :: cs =>
    if p c then
      match matchStar p k cs with
      | some r => some (c :: r.1, r.2)
      | none => (k (c :: cs)).map (fun r => ([], r))
    else
      (k (c :: cs)).map (fun r => ([], r))

/-- A group of alternative literals followed by the rest of the pattern `k`:
the alternatives are tried in order. -/
def matchAlts (k : Str → Option (List Str)) : List Str → Str → Option (Str × List Str)
  | [], _ => none
  | o :: os, s =>
    if o.isPrefixOf s then
      match k (s.drop o.length) with
      | some r => some (o, r)
      | none => matchAlts k os s
    else
      matchAlts k os s

/-- The match of a pattern at the start of a text: the piece of text matched
by each item, in order. -/
def matchItems : List Item → Str → Option (List Str)
  | [], _ => some []
  | .lit l :: items, s =>
    if l.isPrefixOf s then (matchItems items (s.drop l.length)).map (fun r => l :: r) else none
  | .alts options :: items, s =>
    (matchAlts (matchItems items) options s).map (fun r => r.1 :: r.2)
  | .star p :: items, s =>
    (matchStar p (matchItems items) s).map (fun r => r.1 :: r.2)
  | .plus p :: items, s =>
    match s with
    | [] => none
    | c :: cs =>
      if p c then (matchStar p (matchItems items) cs).map (fun r => (c :: r.1) :: r.2) else none

/-- The scan of `std::regex_search` over the start positions of a text, `i`
being the index of the first character of `s`: the position of the leftmost
match and its pieces. -/
def searchAt (items : List Item) : Str → Nat → Option (Nat × List Str)
  | [], i => (matchItems items []).map (fun r => (i, r))
  | c :: cs, i =>
    match matchItems items (c :: cs) with
    | some r => some (i, r)
    | none => searchAt items cs (i + 1)

/-- The call `std::regex_search(searchStart, end, match, pattern)` on the text
from `searchStart` on: `match.position()` (counted from `searchStart`) and the
pieces of the match. -/
def regex_search (items : List Item) (s : Str) : Option (Nat × List Str) :=
  searchAt items s 0

/-- The value of `match.length()`. -/
def matchLength (pieces : List Str) : Nat :=
  pieces.flatten.length

/-- Every match of the pattern takes at least one character. -/
def Consuming (items : List Item) : Prop :=
  ∀ s pieces, matchItems items s = some pieces → 1 ≤ matchLength pieces

/-- The loop `while (std::regex_search(searchStart, end, match, pattern))
{ ...; searchStart = match.suffix().first; }`, with a bound on the number of
iterations: the successive matches. -/
def searchLoop (items : List Item) : Nat → Str → List (Nat × List Str)
  | 0, _ => []
  | fuel + 1, s =>
    match regex_search items s with
    | none => []
    | some m => m :: searchLoop items fuel (s.drop (m.1 + matchLength m.2))

/-- The successive matches of a pattern in a text. Every match of the
patterns below consumes a character, so `s.length + 1` iterations reach the
failing search that ends the loop. -/
def allMatches (items : List Item) (s : Str) : List (Nat × List Str) :=
  searchLoop items (s.length + 1) s

/-- The pattern `(\w+)\s+(\w+)\s*\(([^)]*)\)\s*\{` of `parseFunctions`; the
groups are the pieces 0, 2 and 5. -/
def funcPattern : List Item :=
  [.plus isWord, .plus isSpace, .plus isWord, .star isSpace, .lit (ascii "("),
   .star (fun c => c != 41), .lit (ascii ")"), .star isSpace, .lit (ascii "\x7b")]

/-- The pattern `(int|char|float|double|void\*|long)\s+(\w+)` of
`parseVariables`; the groups are the pieces 0 and 2. -/
def varPattern : List Item :=
  [.alts [ascii "int", ascii "char", ascii "float", ascii "double", ascii "void*", ascii "long"],
   .plus isSpace, .plus isWord]

/-- The pattern `"([^"]*)"` of `parseStringLiterals`; the group is the piece 1. -/
def stringPattern : List Item :=
  [.lit [34], .star (fun c => c != 34), .lit [34]]

end Regex

/-! ## CodeParser (`include/parser/code_parser.h`, `src/parser/code_parser.cpp`) -/

/-- The record `FunctionInfo`. `parseFunctions` leaves the field `complexity`
unset; `none` stands for that indeterminate value. -/
structure FunctionInfo where
  name : Str
  returnType : Str
  parameters : List Str
  body : Str
  startPos : Nat
  endPos : Nat
  complexity : Option Int
  deriving DecidableEq

/-- The data members of a `CodeParser` (`m_ast` is never written or read).
The map `m_variables` is a list of keys with their vectors; the source only
ever uses the key `global`, so the order of the keys plays no part. -/
structure CodeParser where
  m_sourceCode : Str := []
  m_functions : List FunctionInfo := []
  m_variables : List (Str × List Str) := []
  m_stringLiterals : List Str := []
  deriving DecidableEq

namespace CodeParser

/-- One call `std::getline(ss, param, delim)` on the unread part of the
stream. -/
def getlineBy (delim : Byte) : Str → Option (Str × Str)
  | [] => none
  | c :: cs =>
    some ((c :: cs).takeWhile (fun x => x != delim),
      ((c :: cs).dropWhile (fun x => x != delim)).drop 1)

/-- The loop `while (std::getline(ss, param, delim))`, with a bound on the
number of iterations: the fields read. -/
def readFields (delim : Byte) : Nat → Str → List Str
  | 0, _ => []
  | fuel + 1, s =>
    match getlineBy delim s with
    | none => []
    | some (field, rest) => field :: readFields delim fuel rest

/-- The set `" \t"` of `find_first_not_of` and `find_last_not_of`. -/
def isBlank (c : Byte) : Bool :=
  c.val == 32 || c.val == 9

/-- The two `erase` calls on a parameter: the blanks before the first and
after the last non-blank character are removed. -/
def trimBlanks (param : Str) : Str :=
  ((param.dropWhile isBlank).reverse.dropWhile isBlank).reverse

/-- The parameter loop of `parseFunctions`: the text between the parentheses
is split at commas, every field is trimmed, and the non-empty ones are kept. -/
def parseParameters (params : Str) : List Str :=
  if params.isEmpty then []
  else ((readFields 44 params.length params).map trimBlanks).filter (fun param => !param.isEmpty)

/-- Source: `CodeParser::extractFunctionBody` on the source text: the text
from `startPos` up to the brace that closes the one before `startPos`, or the
empty text when the counter does not return to zero. -/
def extractFunctionBody (sourceCode : Str) (startPos : Nat) : Str :=
  if (braceScan 1 startPos (sourceCode.drop startPos)).1 ≠ 0 then
    []
  else
    (sourceCode.drop startPos).take ((braceScan 1 startPos (sourceCode.drop startPos)).2
      - startPos - 1)

/-- The body of the loop of `parseFunctions` on one match: the record pushed.
`startPos` is `match.position() + match.length()`, the position being counted
from the start of the search that found the match. -/
def functionOfMatch (sourceCode : Str) (m : Nat × List Str) : FunctionInfo :=
  { returnType := m.2.getD 0 []
    name := m.2.getD 2 []
    parameters := parseParameters (m.2.getD 5 [])
    startPos := m.1 + Regex.matchLength m.2
    body := extractFunctionBody sourceCode (m.1 + Regex.matchLength m.2)
    endPos := m.1 + Regex.matchLength m.2 +
      (extractFunctionBody sourceCode (m.1 + Regex.matchLength m.2)).length
    complexity := none }

/-- Source: `CodeParser::parseFunctions`: one record is pushed per match. -/
def parseFunctions (P : CodeParser) : CodeParser :=
  { P with
    m_functions := P.m_functions ++
      (Regex.allMatches Regex.funcPattern P.m_sourceCode).map (functionOfMatch P.m_sourceCode) }

/-- The statement `m[key].push_back(v)` on the map. -/
def mapPush (key v : Str) : List (Str × List Str) → List (Str × List Str)
  | [] => [(key, [v])]
  | (k, vs) :: rest => if k == key then (k, vs ++ [v]) :: rest else (k, vs) :: mapPush key v rest

/-- The expression `m[key]` on the map, which creates the key when it is
missing. -/
def mapTouch (key : Str) : List (Str × List Str) → List (Str × List Str)
  | [] => [(key, [])]
  | (k, vs) :: rest => if k == key then (k, vs) :: rest else (k, vs) :: mapTouch key rest

/-- Source: `CodeParser::parseVariables`: the second group of every match is
pushed to `m_variables["global"]`, and the final log line touches that key. -/
def parseVariables (P : CodeParser) : CodeParser :=
  { P with
    m_variables := mapTouch (ascii "global")
      ((Regex.allMatches Regex.varPattern P.m_sourceCode).foldl
        (fun m mt => mapPush (ascii "global") (mt.2.getD 2 []) m) P.m_variables) }

/-- Source: `CodeParser::parseStringLiterals`: the group of every match is
pushed. -/
def parseStringLiterals (P : CodeParser) : CodeParser :=
  { P with
    m_stringLiterals := P.m_stringLiterals ++
      (Regex.allMatches Regex.stringPattern P.m_sourceCode).map (fun mt => mt.2.getD 1 []) }

/-- Source: `CodeParser::parse`: the status and the parser after the call. -/
def parse (P : CodeParser) (sourceCode : Str) : Bool × CodeParser :=
  if sourceCode.isEmpty then
    (false, P)
  else
    (true, parseStringLiterals (parseVariables (parseFunctions
      { P with
        m_sourceCode := sourceCode
        m_functions := []
        m_variables := []
        m_stringLiterals := [] })))

/-- The loop of `getFunction` from index `i` on: the index of the first record
with the given name, and that record. -/
def getFunctionFrom : List FunctionInfo → Str → Nat → Option (Nat × FunctionInfo)
  | [], _, _ => none
  | func :: rest, name, i =>
    if func.name == name then some (i, func) else getFunctionFrom rest name (i + 1)

/-- Source: `CodeParser::getFunction`: the pointer it returns is the index of
the record in `m_functions`, with the record it points to; `none` is the null
pointer. -/
def getFunction (P : CodeParser) (name : Str) : Option (Nat × FunctionInfo) :=
  getFunctionFrom P.m_functions name 0

/-- Source: `CodeParser::getVariables`. -/
def getVariables (P : CodeParser) : List Str :=
  (P.m_variables.map (fun kv => kv.2)).flatten

/-- Source: `CodeParser::getStringLiterals`. -/
def getStringLiterals (P : CodeParser) : List Str :=
  P.m_stringLiterals

/-- The vector `keywords` of `calculateCyclomaticComplexity`. -/
def keywords : List Str :=
  [ascii "if", ascii "while", ascii "for", ascii "case", ascii "&&", ascii "||"]

/-- The loop `while ((pos = body.find(keyword, pos)) != npos)
{ complexity++; pos += keyword.length(); }`, with a bound on the number of
iterations. -/
def countLoop (body keyword : Str) : Nat → Nat → Int → Int
  | 0, _, complexity => complexity
  | fuel + 1, pos, complexity =>
    match findFrom body keyword pos with
    | none => complexity
    | some p => countLoop body keyword fuel (p + keyword.length) (complexity + 1)

/-- The loop over the keywords, from the base complexity 1. Every keyword is
non-empty, so each search loop advances and `body.length + 1` iterations reach
its failing search. -/
def complexityOf (body : Str) : Int :=
  keywords.foldl (fun complexity keyword => countLoop body keyword (body.length + 1) 0 complexity)
    1

/-- Source: `CodeParser::calculateCyclomaticComplexity`: the value returned
and the parser after the call. -/
def calculateCyclomaticComplexity (P : CodeParser) (functionName : Str) : Int × CodeParser :=
  match P.getFunction functionName with
  | none => (0, P)
  | some func =>
    (complexityOf func.2.body,
     { P with
       m_functions :=
         P.m_functions.set func.1 { func.2 with complexity := some (complexityOf func.2.body) } })

end CodeParser

/-- The number of non-overlapping occurrences of `token` in a text, counted
from left to right; `skip` is the number of characters still covered by the
occurrence counted last. -/
def occurrencesFrom (token : Str) : Nat → Str → Nat
  | _, [] => 0
  | skip + 1, _ :: rest => occurrencesFrom token skip rest
  | 0, c :: rest =>
    if token.isPrefixOf (c :: rest) then 1 + occurrencesFrom token (token.length - 1) rest
    else occurrencesFrom token 0 rest

/-- The number of non-overlapping left-to-right occurrences of `token`. -/
def occurrences (token text : Str) : Nat :=
  occurrencesFrom token 0 text

/-- A text whose braces are balanced: no prefix has more closing than opening
braces, and the whole text has as many of each. -/
def Balanced (s : Str) : Prop :=
  (∀ n, n < s.length + 1 → (s.take n).count 125 ≤ (s.take n).count 123) ∧
    s.count 123 = s.count 125

instance (s : Str) : Decidable (Balanced s) := by
  unfold Balanced
  infer_instance

/-! ## Insertion calls on the InstrumentationEngine -/

namespace InstrumentationEngine

/-- A call of one of the five insertion methods, with its arguments. -/
inductive Insertion where
  | insertCode (code : Str) (position : Nat)
  | insertAtBlockEntry (blockName code : Str)
  | insertAtBlockExit (blockName code : Str)
  | insertAtFunctionStart (funcName code : Str)
  | insertAtFunctionEnd (funcName code : Str)
  deriving DecidableEq

/-- The text that an insertion call is asked to insert. -/
def Insertion.code : Insertion → Str
  | .insertCode code _ => code
  | .insertAtBlockEntry _ code => code
  | .insertAtBlockExit _ code => code
  | .insertAtFunctionStart _ code => code
  | .insertAtFunctionEnd _ code => code

/-- The status and the engine after one insertion call. -/
def perform (E : InstrumentationEngine) : Insertion → Bool × InstrumentationEngine
  | .insertCode code position => E.insertCode code position
  | .insertAtBlockEntry blockName code => E.insertAtBlockEntry blockName code
  | .insertAtBlockExit blockName code => E.insertAtBlockExit blockName code
  | .insertAtFunctionStart funcName code => E.insertAtFunctionStart funcName code
  | .insertAtFunctionEnd funcName code => E.insertAtFunctionEnd funcName code

end InstrumentationEngine

/-! ## ControlFlowRewriter (`src/engine/obfuscation_engine.cpp`) -/

/-- The record `ControlFlowRewriter::BasicBlock`. -/
structure BasicBlock where
  label : Str := []
  code : Str := []
  successors : List Str := []
  deriving DecidableEq

namespace ControlFlowRewriter

variable {G : Type}

/-- Source: `ControlFlowRewriter::extractBasicBlocks`: the whole text is one
block labelled `entry`. -/
def extractBasicBlocks (code : Str) : List BasicBlock :=
  [{ label := ascii "entry", code := code }]

/-- The loop `for (size_t i = 0; i < blocks.size(); ++i)` of
`generateSwitchDispatcher`, on the blocks from index `i` on; `size` is
`blocks.size()` and `ss` the text written so far. -/
def dispatcherLoop (size : Nat) : List BasicBlock → Nat → Str → Str
  | [], _, ss => ss
  | block :: rest, i, ss =>
    dispatcherLoop size rest (i + 1)
      (ss ++ ascii "    case " ++ to_string (i : Nat) ++ ascii ":\n"
        ++ block.code ++ ascii "\n"
        ++ ascii "        __dispatcher_state = " ++ to_string (((i + 1) % size : Nat) : Int)
        ++ ascii ";\n"
        ++ ascii "        break;\n")

/-- Source: `ControlFlowRewriter::generateSwitchDispatcher`. -/
def generateSwitchDispatcher (blocks : List BasicBlock) : Str :=
  dispatcherLoop blocks.length blocks 0
      (ascii "int __dispatcher_state = 0;\n"
        ++ ascii "while (1) \x7b\n"
        ++ ascii "    switch (__dispatcher_state) \x7b\n")
    ++ ascii "    default:\n"
    ++ ascii "        goto __exit;\n"
    ++ ascii "    \x7d\n"
    ++ ascii "\x7d\n"
    ++ ascii "__exit:\n"

/-- Source: `ControlFlowRewriter::flattenControlFlow`. -/
def flattenControlFlow (code : Str) : Str :=
  generateSwitchDispatcher (extractBasicBlocks code)

/-- The loop `while (std::getline(iss, line))` of `addFakeBranches`, on the
lines left, the text written so far and the generator state. -/
def fakeBranchLoop (R : StdRandom G) (probability : ℚ) : List Str → Str → G → Str × G
  | [], result, g => (result, g)
  | line :: rest, result, g =>
    if (RandomGenerator.randomBool R probability g).1 then
      fakeBranchLoop R probability rest
        (result ++ line ++ ascii "\n" ++ ascii "    if (0) \x7b volatile int __fake = 1; \x7d\n")
        (RandomGenerator.randomBool R probability g).2
    else
      fakeBranchLoop R probability rest (result ++ line ++ ascii "\n")
        (RandomGenerator.randomBool R probability g).2

/-- Source: `ControlFlowRewriter::addFakeBranches`. -/
def addFakeBranches (R : StdRandom G) (code : Str) (probability : ℚ) (g : G) : Str × G :=
  fakeBranchLoop R probability (splitLines code) [] g

/-- The loop `while (std::getline(iss, line))` of `splitBasicBlocks`, on the
lines left, the local `currentBlock` and the vector `blocks`; it returns both
when the lines are exhausted. -/
def splitLoop : List Str → Str → List Str → Str × List Str
  | [], currentBlock, blocks => (currentBlock, blocks)
  | line :: rest, currentBlock, blocks =>
    if (find line (ascii "\x7d")).isSome then
      splitLoop rest [] (blocks ++ [currentBlock ++ (line ++ ascii "\n")])
    else
      splitLoop rest (currentBlock ++ (line ++ ascii "\n")) blocks

/-- Source: `ControlFlowRewriter::splitBasicBlocks`: after the loop a
non-empty `currentBlock` is pushed too. -/
def splitBasicBlocks (code : Str) : List Str :=
  if !(splitLoop (splitLines code) [] []).1.isEmpty then
    (splitLoop (splitLines code) [] []).2 ++ [(splitLoop (splitLines code) [] []).1]
  else
    (splitLoop (splitLines code) [] []).2

/-- Source: `ControlFlowRewriter::shuffleBasicBlocks`: the blocks are shuffled
and written one after another, each followed by a newline. -/
def shuffleBasicBlocks (R : StdEngine G) (blocks : List Str) (g : G) : Str × G :=
  (((RandomGenerator.shuffle R blocks g).1.map (fun block => block ++ ascii "\n")).flatten,
    (RandomGenerator.shuffle R blocks g).2)

end ControlFlowRewriter

/-! ## ControlFlowFlatteningStrategy, SymbolObfuscationStrategy
(`src/strategy/obfuscation_strategy.cpp`) -/

namespace ControlFlowFlatteningStrategy

/-- Source: `ControlFlowFlatteningStrategy::apply`: the status and the output
text. -/
def apply (input : Str) : Bool × Str :=
  (true, ascii "/* Control Flow Flattening Applied */\n" ++ input)

end ControlFlowFlatteningStrategy

namespace SymbolObfuscationStrategy

/-- Source: `SymbolObfuscationStrategy::apply`: the status and the output
text. -/
def apply (input : Str) : Bool × Str :=
  (true, input)

end SymbolObfuscationStrategy

/-! ## CodeValidator (`src/engine/obfuscation_engine.cpp`) -/

namespace CodeValidator

/-- The three counters of `validateSyntax`. -/
structure Counts where
  braceCount : Int := 0
  parenCount : Int := 0
  bracketCount : Int := 0
  deriving DecidableEq

/-- The `switch` of `validateSyntax` on one character. -/
def countChar (n : Counts) (c : Byte) : Counts :=
  if c = 123 then { n with braceCount := n.braceCount + 1 }
  else if c = 125 then { n with braceCount := n.braceCount - 1 }
  else if c = 40 then { n with parenCount := n.parenCount + 1 }
  else if c = 41 then { n with parenCount := n.parenCount - 1 }
  else if c = 91 then { n with bracketCount := n.bracketCount + 1 }
  else if c = 93 then { n with bracketCount := n.bracketCount - 1 }
  else n

/-- Source: `CodeValidator::validateSyntax`. -/
def validateSyntax (code : Str) : Bool :=
  if code.isEmpty then
    false
  else
    (code.foldl countChar {}).braceCount == 0 && (code.foldl countChar {}).parenCount == 0 &&
      (code.foldl countChar {}).bracketCount == 0

/-- Source: `CodeValidator::validateEquivalence`. -/
def validateEquivalence (_original _obfuscated : Str) : Bool :=
  true

/-- Source: `CodeValidator::checkStackBalance`. -/
def checkStackBalance (_code : Str) : Bool :=
  true

/-- Source: `CodeValidator::checkRegisterUsage`. -/
def checkRegisterUsage (_code : Str) : Bool :=
  true

end CodeValidator

/-- A text in which the delimiters `open` and `close` are properly nested:
every closing delimiter is preceded by a still-unmatched opening one, and no
opening delimiter is left unmatched at the end. -/
def ProperlyNested (opening closing : Byte) (s : Str) : Prop :=
  (∀ n, n < s.length + 1 → (s.take n).count closing ≤ (s.take n).count opening) ∧
    s.count opening = s.count closing

instance (opening closing : Byte) (s : Str) : Decidable (ProperlyNested opening closing s) := by
  unfold ProperlyNested
  infer_instance

/-! ## ObfuscationEngine::obfuscateBatch (`src/engine/obfuscation_engine.cpp`) -/

/-- The files the batch loop can see: the contents of the paths that a
`std::ifstream` can open, and the paths that a `std::ofstream` can open. -/
structure FileSystem where
  contents : Str → Option Str
  writable : Str → Bool

/-- The file system after `outFile << outputCode` on an opened path. -/
def FileSystem.write (fs : FileSystem) (path data : Str) : FileSystem :=
  { fs with contents := fun p => if p = path then some data else fs.contents p }

/-- What a call of `obfuscateBatch` leaves behind: the returned status, the
engine, the files and the generator state. -/
structure BatchResult (G : Type) where
  ret : Bool
  engine : ObfuscationEngine G
  files : FileSystem
  gen : G

namespace ObfuscationEngine

variable {G : Type}

/-- The loop `for (size_t i = 0; i < inputFiles.size(); ++i)` of
`obfuscateBatch`, on the pairs of paths from index `i` on; `clock i` is the
time the clock measures for the call of `obfuscate` of iteration `i`. -/
def batchLoop (clock : Nat → ℚ) :
    List (Str × Str) → Nat → ObfuscationEngine G → FileSystem → G →
      ObfuscationEngine G × FileSystem × G
  | [], _, E, fs, g => (E, fs, g)
  | (inputFile, outputFile) :: rest, i, E, fs, g =>
    match fs.contents inputFile with
    | none => batchLoop clock rest (i + 1) E fs g
    | some inputCode =>
      if !(E.obfuscate inputCode [] g (clock i)).ret then
        batchLoop clock rest (i + 1) (E.obfuscate inputCode [] g (clock i)).engine fs
          (E.obfuscate inputCode [] g (clock i)).gen
      else if !fs.writable outputFile then
        batchLoop clock rest (i + 1) (E.obfuscate inputCode [] g (clock i)).engine fs
          (E.obfuscate inputCode [] g (clock i)).gen
      else
        batchLoop clock rest (i + 1) (E.obfuscate inputCode [] g (clock i)).engine
          (fs.write outputFile (E.obfuscate inputCode [] g (clock i)).outputCode)
          (E.obfuscate inputCode [] g (clock i)).gen

/-- Source: `ObfuscationEngine::obfuscateBatch`. -/
def obfuscateBatch (E : ObfuscationEngine G) (inputFiles outputFiles : List Str)
    (fs : FileSystem) (g : G) (clock : Nat → ℚ) : BatchResult G :=
  if inputFiles.length ≠ outputFiles.length then
    { ret := false, engine := E, files := fs, gen := g }
  else
    { ret := true
      engine := (batchLoop clock (inputFiles.zip outputFiles) 0 E fs g).1
      files := (batchLoop clock (inputFiles.zip outputFiles) 0 E fs g).2.1
      gen := (batchLoop clock (inputFiles.zip outputFiles) 0 E fs g).2.2 }

end ObfuscationEngine

/-! ## StringEncryptionStrategy (`src/strategy/obfuscation_strategy.cpp`) -/

namespace CryptoUtils

/-- Source: `CryptoUtils::generateKey8`: a draw on `[1, 255]`, narrowed to
`uint8_t`. -/
def generateKey8 {G : Type} (R : StdRandom G) (g : G) : Byte × G :=
  (toByte (RandomGenerator.randomInt R 1 255 g).1, (RandomGenerator.randomInt R 1 255 g).2)

end CryptoUtils

/-- The data members of a `StringEncryptionStrategy`; the member `m_algorithm`
is never read by `apply`. -/
structure StringEncryptionStrategy where
  m_level : Int := 2
  m_enabled : Bool := true
  m_minLength : Int := 4

namespace StringEncryptionStrategy

variable {G : Type}

/-- Source: `StringEncryptionStrategy::setMinLength`. -/
def setMinLength (S : StringEncryptionStrategy) (len : Int) : StringEncryptionStrategy :=
  { S with m_minLength := len }

/-- The pattern `"([^"]+)"` of `apply`; the group is the piece 1. -/
def stringPattern : List Regex.Item :=
  [.lit [34], .plus (fun c => c != 34), .lit [34]]

/-- The test `originalString.length() >= static_cast<size_t>(m_minLength)`: a
negative `m_minLength` converts to a value above every length. -/
def longEnough (minLength : Int) (originalString : Str) : Bool :=
  if minLength < 0 then false else decide (minLength.toNat ≤ originalString.length)

/-- The search loop of `apply` over the successive matches: for a literal that
is long enough a key and a variable number are drawn (the ciphertext and the
decode snippet computed from them are not used) and the pair of the matched
text and its annotated form is pushed to `replacements`. -/
def collect (R : StdRandom G) (minLength : Int) :
    List (Nat × List Str) → List (Str × Str) → G → List (Str × Str) × G
  | [], replacements, g => (replacements, g)
  | m :: rest, replacements, g =>
    if longEnough minLength (m.2.getD 1 []) then
      collect R minLength rest
        (replacements ++
          [(m.2.flatten, ascii "/* encrypted */ \"" ++ m.2.getD 1 [] ++ ascii "\"")])
        (RandomGenerator.randomInt R 0 9999 (CryptoUtils.generateKey8 R g).2).2
    else
      collect R minLength rest replacements g

/-- The loop `for (const auto& [oldStr, newStr] : replacements)` of `apply`:
the first occurrence of `oldStr` in the current text, if any, is replaced by
`newStr`. -/
def applyReplacements : List (Str × Str) → Str → Str
  | [], result => result
  | (oldStr, newStr) :: rest, result =>
    match find result oldStr with
    | none => applyReplacements rest result
    | some pos =>
      applyReplacements rest (result.take pos ++ newStr ++ result.drop (pos + oldStr.length))

/-- Source: `StringEncryptionStrategy::apply`: the status, the output text and
the generator state. -/
def apply (R : StdRandom G) (S : StringEncryptionStrategy) (input : Str) (g : G) :
    Bool × Str × G :=
  (true,
    applyReplacements (collect R S.m_minLength (Regex.allMatches stringPattern input) [] g).1 input,
    (collect R S.m_minLength (Regex.allMatches stringPattern input) [] g).2)

end StringEncryptionStrategy

/-! ## OpaquePredicateStrategy (`src/strategy/obfuscation_strategy.cpp`) -/

/-- The probability `0.4` of `OpaquePredicateStrategy::apply`, as the rational
that the `double` literal denotes. -/
def double_0_4 : ℚ :=
  3602879701896397 / 9007199254740992

namespace OpaquePredicateStrategy

variable {G : Type}

/-- Source: `OpaquePredicateStrategy::generateOpaquePredicate`: the text of
the declaration and of the `if` statement, and the generator state. The
parameter `alwaysTrue` is never read. -/
def generateOpaquePredicate (R : StdRandom G) (_alwaysTrue : Bool) (g : G) : Str × G :=
  let t := RandomGenerator.randomInt R 0 4 g
  if t.1 = 0 then
    let var := RandomGenerator.randomInt R 0 999 t.2
    let val := RandomGenerator.randomInt R (-100) 100 var.2
    (ascii "    int __op_" ++ to_string var.1 ++ ascii " = " ++ to_string val.1 ++ ascii ";\n"
      ++ ascii "    if (__op_" ++ to_string var.1 ++ ascii " * __op_" ++ to_string var.1
      ++ ascii " >= 0) \x7b\n"
      ++ ascii "        /* always true path */\n"
      ++ ascii "    \x7d",
     val.2)
  else if t.1 = 1 then
    let var := RandomGenerator.randomInt R 0 999 t.2
    let val := RandomGenerator.randomInt R 1 100 var.2
    (ascii "    int __op_" ++ to_string var.1 ++ ascii " = " ++ to_string val.1 ++ ascii ";\n"
      ++ ascii "    if ((__op_" ++ to_string var.1 ++ ascii " | 0) == __op_" ++ to_string var.1
      ++ ascii ") \x7b\n"
      ++ ascii "        /* always true path */\n"
      ++ ascii "    \x7d",
     val.2)
  else if t.1 = 2 then
    let var := RandomGenerator.randomInt R 0 999 t.2
    let val := RandomGenerator.randomInt R 1 50 var.2
    (ascii "    int __op_" ++ to_string var.1 ++ ascii " = " ++ to_string val.1 ++ ascii ";\n"
      ++ ascii "    if ((2 * __op_" ++ to_string var.1 ++ ascii ") % 2 == 0) \x7b\n"
      ++ ascii "        /* always true path */\n"
      ++ ascii "    \x7d",
     val.2)
  else if t.1 = 3 then
    let var := RandomGenerator.randomInt R 0 999 t.2
    let val := RandomGenerator.randomInt R (-100) 100 var.2
    (ascii "    int __op_" ++ to_string var.1 ++ ascii " = " ++ to_string val.1 ++ ascii ";\n"
      ++ ascii "    if ((__op_" ++ to_string var.1 ++ ascii " < 0 ? -__op_" ++ to_string var.1
      ++ ascii " : __op_" ++ to_string var.1 ++ ascii ") >= 0) \x7b\n"
      ++ ascii "        /* always true path */\n"
      ++ ascii "    \x7d",
     val.2)
  else if t.1 = 4 then
    let var := RandomGenerator.randomInt R 0 999 t.2
    let val := RandomGenerator.randomInt R 1 1000 var.2
    (ascii "    int __op_" ++ to_string var.1 ++ ascii " = " ++ to_string val.1 ++ ascii ";\n"
      ++ ascii "    if ((__op_" ++ to_string var.1 ++ ascii " + 1) > __op_" ++ to_string var.1
      ++ ascii ") \x7b\n"
      ++ ascii "        /* always true path */\n"
      ++ ascii "    \x7d",
     val.2)
  else
    ([], t.2)

/-- The loop `for (size_t i = 0; i < lines.size(); ++i)` of `apply`, on the
lines left; `previous` is `lines[i-1]`, or `none` when `i` is 0. -/
def applyLoop (R : StdRandom G) : List Str → Option Str → Str → G → Str × G
  | [], _, result, g => (result, g)
  | currentLine :: rest, previous, result, g =>
    if (find currentLine (ascii "\x7b")).isSome && previous.isSome &&
        ((previous.bind (fun line => find line (ascii "("))).isSome) then
      if (RandomGenerator.randomBool R double_0_4 g).1 then
        applyLoop R rest (some currentLine)
          (result ++ currentLine ++ ascii "\n"
            ++ (generateOpaquePredicate R true (RandomGenerator.randomBool R double_0_4 g).2).1
            ++ ascii "\n")
          (generateOpaquePredicate R true (RandomGenerator.randomBool R double_0_4 g).2).2
      else
        applyLoop R rest (some currentLine) (result ++ currentLine ++ ascii "\n")
          (RandomGenerator.randomBool R double_0_4 g).2
    else
      applyLoop R rest (some currentLine) (result ++ currentLine ++ ascii "\n") g

/-- Source: `OpaquePredicateStrategy::apply`: the status, the output text and
the generator state. -/
def apply (R : StdRandom G) (input : Str) (g : G) : Bool × Str × G :=
  (true, applyLoop R (splitLines input) none [] g)

end OpaquePredicateStrategy

/-! ## The conditions of the opaque predicates, as C expressions -/

/-- The expressions of C that the five conditions are made of, over one
`int` variable. -/
inductive CExpr where
  | var
  | lit (n : Int)
  | paren (e : CExpr)
  | neg (e : CExpr)
  | mul (a b : CExpr)
  | add (a b : CExpr)
  | bitOr (a b : CExpr)
  | rem (a b : CExpr)
  | lt (a b : CExpr)
  | ge (a b : CExpr)
  | gt (a b : CExpr)
  | eq (a b : CExpr)
  | cond (c a b : CExpr)
  deriving DecidableEq

namespace CExpr

/-- The text of an expression, the variable being written `name`. -/
def render (name : Str) : CExpr → Str
  | var => name
  | lit n => to_string n
  | paren e => ascii "(" ++ render name e ++ ascii ")"
  | neg e => ascii "-" ++ render name e
  | mul a b => render name a ++ ascii " * " ++ render name b
  | add a b => render name a ++ ascii " + " ++ render name b
  | bitOr a b => render name a ++ ascii " | " ++ render name b
  | rem a b => render name a ++ ascii " % " ++ render name b
  | lt a b => render name a ++ ascii " < " ++ render name b
  | ge a b => render name a ++ ascii " >= " ++ render name b
  | gt a b => render name a ++ ascii " > " ++ render name b
  | eq a b => render name a ++ ascii " == " ++ render name b
  | cond c a b => render name c ++ ascii " ? " ++ render name a ++ ascii " : " ++ render name b

/-- A value of type `int`: `none` when it does not fit 32 bits (signed
overflow). -/
def int32 (z : Int) : Option Int :=
  if -2147483648 ≤ z ∧ z ≤ 2147483647 then some z else none

/-- The value of an expression in 32-bit signed arithmetic when the variable
holds `x`; `none` when a step overflows or divides by zero. A comparison
yields 1 or 0. -/
def eval (x : Int) : CExpr → Option Int
  | var => int32 x
  | lit n => int32 n
  | paren e => eval x e
  | neg e => (eval x e).bind (fun v => int32 (-v))
  | mul a b => (eval x a).bind (fun u => (eval x b).bind (fun v => int32 (u * v)))
  | add a b => (eval x a).bind (fun u => (eval x b).bind (fun v => int32 (u + v)))
  | bitOr a b => (eval x a).bind (fun u => (eval x b).bind (fun v => int32 (Int.lor u v)))
  | rem a b => (eval x a).bind (fun u => (eval x b).bind (fun v =>
      if v = 0 ∨ (u = -2147483648 ∧ v = -1) then none else int32 (Int.tmod u v)))
  | lt a b => (eval x a).bind (fun u => (eval x b).bind (fun v => some (if u < v then 1 else 0)))
  | ge a b => (eval x a).bind (fun u => (eval x b).bind (fun v => some (if u ≥ v then 1 else 0)))
  | gt a b => (eval x a).bind (fun u => (eval x b).bind (fun v => some (if u > v then 1 else 0)))
  | eq a b => (eval x a).bind (fun u => (eval x b).bind (fun v => some (if u = v then 1 else 0)))
  | cond c a b => (eval x c).bind (fun t => if t ≠ 0 then eval x a else eval x b)

end CExpr

namespace OpaquePredicateStrategy

/-- The condition of the template `type`, read from the text that
`generateOpaquePredicate` writes between `if (` and `) {`. -/
def condition : Int → CExpr
  | 0 => .ge (.mul .var .var) (.lit 0)
  | 1 => .eq (.paren (.bitOr .var (.lit 0))) .var
  | 2 => .eq (.rem (.paren (.mul (.lit 2) .var)) (.lit 2)) (.lit 0)
  | 3 => .ge (.paren (.cond (.lt .var (.lit 0)) (.neg .var) .var)) (.lit 0)
  | _ => .gt (.paren (.add .var (.lit 1))) .var

/-- The bounds of the draw that gives the variable of the template `type` its
initial value. -/
def valueRange : Int → Int × Int
  | 0 => (-100, 100)
  | 1 => (1, 100)
  | 2 => (1, 50)
  | 3 => (-100, 100)
  | _ => (1, 1000)

/-- The text of a generated predicate with the condition `e`, the variable
number `var` and the initial value `val`. -/
def predicateText (e : CExpr) (var val : Int) : Str :=
  ascii "    int __op_" ++ to_string var ++ ascii " = " ++ to_string val ++ ascii ";\n"
    ++ ascii "    if (" ++ e.render (ascii "__op_" ++ to_string var) ++ ascii ") \x7b\n"
    ++ ascii "        /* always true path */\n"
    ++ ascii "    \x7d"

end OpaquePredicateStrategy

/-! ## CryptoUtils::generateDecryptionCode (`src/utils/random_utils.cpp`) -/

/-- The part of the state of a `std::stringstream` that the source relies on:
the text written so far, whether the `basefield` flag is `std::hex` (it is
`std::dec` at first), the fill character, and the field width, which only the
next insertion sees. -/
structure OStream where
  str : Str := []
  hexBase : Bool := false
  fill : Byte := 32
  width : Nat := 0
  deriving DecidableEq

/-- The digits of an unsigned number as an output stream prints them: in base
16, with lowercase letters, when `hexBase` is set, and in base 10 otherwise. -/
def numeral (hexBase : Bool) (n : Nat) : Str :=
  ascii (String.mk (Nat.toDigits (if hexBase then 16 else 10) n))

namespace OStream

/-- The insertion `ss << text` of a string: the text is padded on the left up
to the field width, and the width is reset. -/
def put (ss : OStream) (text : Str) : OStream :=
  { ss with str := ss.str ++ List.replicate (ss.width - text.length) ss.fill ++ text, width := 0 }

/-- The insertion `ss << n` of an unsigned number, in the current base. -/
def putNum (ss : OStream) (n : Nat) : OStream :=
  ss.put (numeral ss.hexBase n)

/-- The manipulator `std::hex`: the flag stays set until it is changed. -/
def hex (ss : OStream) : OStream :=
  { ss with hexBase := true }

/-- The manipulator `std::dec`. -/
def dec (ss : OStream) : OStream :=
  { ss with hexBase := false }

/-- The manipulator `std::setw(n)`. -/
def setw (ss : OStream) (n : Nat) : OStream :=
  { ss with width := n }

/-- The manipulator `std::setfill(c)`. -/
def setfill (ss : OStream) (c : Byte) : OStream :=
  { ss with fill := c }

end OStream

namespace CryptoUtils

/-- The loop `for (size_t i = 0; i < encryptedData.size(); ++i)` of
`generateDecryptionCode`, on the bytes from index `i` on:
`if (i > 0) ss << ", "; ss << "0x" << std::hex << std::setw(2)
<< std::setfill('0') << byte`. -/
def arrayLoop : Str → Nat → OStream → OStream
  | [], _, ss => ss
  | c :: rest, i, ss =>
    arrayLoop rest (i + 1)
      (((((if i > 0 then ss.put (ascii ", ") else ss).put (ascii "0x")).hex.setw 2).setfill
        48).putNum c.val)

/-- Source: `CryptoUtils::generateDecryptionCode`, statement by statement. -/
def generateDecryptionCode (encryptedData : Str) (key : Byte) (varName : Str) : Str :=
  let ss1 := ((({} : OStream).put (ascii "unsigned char ")).put varName).put (ascii "_enc[] = \x7b")
  let ss2 := (arrayLoop encryptedData 0 ss1).put (ascii "\x7d;\n")
  let ss3 := ((((ss2.put (ascii "char ")).put varName).put (ascii "[")).putNum
    (encryptedData.length + 1)).put (ascii "];\n")
  let ss4 := (((ss3.put (ascii "for (int i = 0; i < ")).dec).putNum encryptedData.length).put
    (ascii "; i++) \x7b\n")
  let ss5 := (((((((ss4.put (ascii "    ")).put varName).put (ascii "[i] = ")).put varName).put
    (ascii "_enc[i] ^ 0x")).hex).putNum key.val).put (ascii ";\n")
  let ss6 := ss5.put (ascii "\x7d\n")
  let ss7 := (((((ss6.put varName).put (ascii "[")).dec).putNum encryptedData.length).put
    (ascii "] = '\\0';\n"))
  ss7.str

end CryptoUtils

/-! ## NameGenerator (`src/utils/random_utils.cpp`) -/

/-- The value of `std::string::max_size()` (libstdc++ on a 64-bit target,
`2^62 - 1`). -/
def string_max_size : Nat :=
  4611686018427387903

/-- The difference `a - b` of two `size_t` values below `2^64`: unsigned
arithmetic wraps around modulo `2^64`. -/
def size_sub (a b : Nat) : Nat :=
  (18446744073709551616 + a - b) % 18446744073709551616

namespace RandomGenerator

variable {G : Type}

/-- Source: `RandomGenerator::randomString`, the failure of its statement
`result.reserve(length)` included: the call throws `std::length_error` for a
length above `max_size()`. Below that bound the result is that of
`randomString`. -/
def randomStringReserve (R : StdRandom G) (length : Nat) (g : G) : Except Error (Str × G) :=
  if length > string_max_size then
    .error (.lengthError "basic_string::_M_create")
  else
    .ok (randomString R length g)

end RandomGenerator

namespace NameGenerator

variable {G : Type}

/-- The vector `s_prefixes`. -/
def s_prefixes : List Str :=
  [ascii "tmp", ascii "var", ascii "val", ascii "ref", ascii "ptr", ascii "obj", ascii "data",
   ascii "buff", ascii "mem", ascii "sys", ascii "fn", ascii "func", ascii "proc", ascii "calc",
   ascii "comp", ascii "exec"]

/-- Source: `NameGenerator::generateFunctionName`. The two lengths handed to
`randomString` are `size_t` differences, `length - prefix.length() - 1` and
`length - 1`. The name is `none` when `randomChoice` reads outside the vector
(which a draw that keeps to its range does not). -/
def generateFunctionName (R : StdRandom G) (length : Nat) (g : G) :
    Except Error (Option Str × G) :=
  let b := RandomGenerator.randomBool R (1 / 2) g
  if b.1 then
    match RandomGenerator.randomChoice R s_prefixes b.2 with
    | .error e => .error e
    | .ok (none, g1) => .ok (none, g1)
    | .ok (some chosen, g1) =>
      match RandomGenerator.randomStringReserve R
          (size_sub (size_sub length chosen.length) 1) g1 with
      | .error e => .error e
      | .ok suffix => .ok (some (chosen ++ ascii "_" ++ suffix.1), suffix.2)
  else
    let first := RandomGenerator.randomInt R 0 25 b.2
    match RandomGenerator.randomStringReserve R (size_sub length 1) first.2 with
    | .error e => .error e
    | .ok rest => .ok (some ([toByte (97 + first.1)] ++ rest.1), rest.2)

/-- A syntactically valid identifier: it begins with an ASCII letter and
consists of ASCII letters, digits and underscores only. -/
def ValidIdentifier (name : Str) : Prop :=
  (∃ c rest, name = c :: rest ∧ ((65 ≤ c.val ∧ c.val ≤ 90) ∨ (97 ≤ c.val ∧ c.val ≤ 122))) ∧
    ∀ c ∈ name, Regex.isWord c = true

end NameGenerator

/-! ## Groups of lines, as the specification words the split into blocks -/

/-- The text of a group of lines: every line followed by a newline. -/
def renderLines (grp : List Str) : Str :=
  (grp.map (fun line => line ++ ascii "\n")).flatten

/-- A group of lines that ends with a line containing `}` and has no `}` in
any earlier line. -/
def ClosedGroup (grp : List Str) : Prop :=
  ∃ init last, grp = init ++ [last] ∧ (125 : Byte) ∈ last ∧ ∀ line ∈ init, (125 : Byte) ∉ line

/-- A non-empty group of lines without any `}`. -/
def OpenGroup (grp : List Str) : Prop :=
  grp ≠ [] ∧ ∀ line ∈ grp, (125 : Byte) ∉ line

/-! ## The dispatcher that `generateSwitchDispatcher` writes, as a state machine -/

/-- One `case` of a dispatcher: the value of its label, the code of its block
and the value that it assigns to `__dispatcher_state` before `break`. -/
structure DispatchCase where
  index : Nat
  code : Str
  next : Nat
  deriving DecidableEq

namespace ControlFlowRewriter

/-- The cases that the loop of `generateSwitchDispatcher` writes for the
blocks from index `i` on: the label is `i`, the next state is the value of
the source expression `(i + 1) % blocks.size()`. -/
def dispatchCases (size : Nat) : List BasicBlock → Nat → List DispatchCase
  | [], _ => []
  | block :: rest, i =>
    { index := i, code := block.code, next := (i + 1) % size } :: dispatchCases size rest (i + 1)

/-- The text that the loop writes for one case. -/
def caseText (c : DispatchCase) : Str :=
  ascii "    case " ++ to_string (c.index : Nat) ++ ascii ":\n"
    ++ c.code ++ ascii "\n"
    ++ ascii "        __dispatcher_state = " ++ to_string (c.next : Nat) ++ ascii ";\n"
    ++ ascii "        break;\n"

/-- One iteration of `while (1) { switch (__dispatcher_state) ... }`: the case
labelled with the current state runs and leaves its next state; when no case
has that label the `default` branch leaves the loop (`none`). The code of the
blocks is taken not to touch the state variable. -/
def dispatchStep (cases : List DispatchCase) (state : Nat) : Option Nat :=
  (cases.find? (fun c => c.index == state)).map (fun c => c.next)

/-- The state after `k` iterations of the loop from `state`; `none` once the
`default` branch has been taken. -/
def dispatchRun (cases : List DispatchCase) : Nat → Nat → Option Nat
  | 0, state => some state
  | k + 1, state => (dispatchStep cases state).bind (dispatchRun cases k)

end ControlFlowRewriter

/-! ## The five strategies behind the base class
(`include/strategy/obfuscation_strategy.h`, `src/strategy/obfuscation_strategy.cpp`) -/

/-- Source: `OpaquePredicateStrategy::Complexity`. -/
inductive OpaquePredicateStrategy.Complexity where
  | LOW
  | MEDIUM
  | HIGH
  deriving DecidableEq

/-- The data members of an `OpaquePredicateStrategy`; `apply` never reads
`m_complexity`. -/
structure OpaquePredicateStrategy where
  m_level : Int := 2
  m_enabled : Bool := true
  m_complexity : OpaquePredicateStrategy.Complexity := .MEDIUM

/-- The data members of a `SymbolObfuscationStrategy`. -/
structure SymbolObfuscationStrategy where
  m_level : Int := 2
  m_enabled : Bool := true

/-- The data members of a `ControlFlowFlatteningStrategy`; `apply` reads
neither `m_flattenDepth` nor `m_addFakeBranches`. -/
structure ControlFlowFlatteningStrategy where
  m_level : Int := 2
  m_enabled : Bool := true
  m_flattenDepth : Int := 2
  m_addFakeBranches : Bool := true

namespace OpaquePredicateStrategy

variable {G : Type}

/-- An `OpaquePredicateStrategy` seen through a pointer to its base class. -/
def toStrategy (R : StdRandom G) (O : OpaquePredicateStrategy) : ObfuscationStrategy G where
  getName := ascii "OpaquePredicates"
  getDescription := ascii "Insert predicates that are always true/false but hard to analyze"
  m_level := O.m_level
  m_enabled := O.m_enabled
  apply := fun _ input _ g => apply R input g

end OpaquePredicateStrategy

namespace StringEncryptionStrategy

variable {G : Type}

/-- A `StringEncryptionStrategy` seen through a pointer to its base class. -/
def toStrategy (R : StdRandom G) (S : StringEncryptionStrategy) : ObfuscationStrategy G where
  getName := ascii "StringEncryption"
  getDescription := ascii "Encrypt string literals and decrypt at runtime"
  m_level := S.m_level
  m_enabled := S.m_enabled
  apply := fun _ input _ g => apply R S input g

end StringEncryptionStrategy

namespace SymbolObfuscationStrategy

variable {G : Type}

/-- A `SymbolObfuscationStrategy` seen through a pointer to its base class;
`apply` does not draw from the generator. -/
def toStrategy (S : SymbolObfuscationStrategy) : ObfuscationStrategy G where
  getName := ascii "SymbolObfuscation"
  getDescription := ascii "Rename functions and variables to meaningless names"
  m_level := S.m_level
  m_enabled := S.m_enabled
  apply := fun _ input _ g => ((apply input).1, (apply input).2, g)

end SymbolObfuscationStrategy

namespace ControlFlowFlatteningStrategy

variable {G : Type}

/-- A `ControlFlowFlatteningStrategy` seen through a pointer to its base
class; `apply` does not draw from the generator. -/
def toStrategy (F : ControlFlowFlatteningStrategy) : ObfuscationStrategy G where
  getName := ascii "ControlFlowFlattening"
  getDescription := ascii "Flatten control flow using switch-case dispatcher"
  m_level := F.m_level
  m_enabled := F.m_enabled
  apply := fun _ input _ g => ((apply input).1, (apply input).2, g)

end ControlFlowFlatteningStrategy

namespace StrategyFactory

variable {G : Type}

/-- Source: `StrategyFactory::createStrategy`: a default-constructed strategy
for each of the ten known names, the null pointer (`none`) otherwise. -/
def createStrategy (R : StdRandom G) (name : Str) : Option (ObfuscationStrategy G) :=
  if name = ascii "JunkInstructions" ∨ name = ascii "junk" then
    some (({} : JunkInstructionStrategy).toStrategy R)
  else if name = ascii "OpaquePredicates" ∨ name = ascii "opaque" then
    some (({} : OpaquePredicateStrategy).toStrategy R)
  else if name = ascii "StringEncryption" ∨ name = ascii "string" then
    some (({} : StringEncryptionStrategy).toStrategy R)
  else if name = ascii "SymbolObfuscation" ∨ name = ascii "symbol" then
    some ({} : SymbolObfuscationStrategy).toStrategy
  else if name = ascii "ControlFlowFlattening" ∨ name = ascii "flatten" then
    some ({} : ControlFlowFlatteningStrategy).toStrategy
  else
    none

/-- Source: `StrategyFactory::getAvailableStrategies`. -/
def getAvailableStrategies : List Str :=
  [ascii "JunkInstructions", ascii "OpaquePredicates", ascii "StringEncryption",
   ascii "SymbolObfuscation", ascii "ControlFlowFlattening"]

end StrategyFactory

/-- A strategy object of one of the five built-in classes, with any values of
its own parameters, after any calls of `setLevel` and `setEnabled` through the
base class. -/
inductive BuiltIn {G : Type} (R : StdRandom G) : ObfuscationStrategy G → Prop
  | junk (J : JunkInstructionStrategy) (level : Int) (enabled : Bool) :
    BuiltIn R (((J.toStrategy R).setLevel level).setEnabled enabled)
  | opaquePredicate (O : OpaquePredicateStrategy) (level : Int) (enabled : Bool) :
    BuiltIn R (((O.toStrategy R).setLevel level).setEnabled enabled)
  | stringEncryption (S : StringEncryptionStrategy) (level : Int) (enabled : Bool) :
    BuiltIn R (((S.toStrategy R).setLevel level).setEnabled enabled)
  | symbol (S : SymbolObfuscationStrategy) (level : Int) (enabled : Bool) :
    BuiltIn R ((S.toStrategy.setLevel level).setEnabled enabled)
  | flattening (F : ControlFlowFlatteningStrategy) (level : Int) (enabled : Bool) :
    BuiltIn R ((F.toStrategy.setLevel level).setEnabled enabled)

namespace CodeValidator

/-- The final values of the three counters of `validateSyntax`, written with
the numbers of occurrences of the six delimiters: opening minus closing
braces, parentheses and brackets. -/
def delta (code : Str) : Int × Int × Int :=
  ((code.count 123 : Int) - (code.count 125 : Int),
   (code.count 40 : Int) - (code.count 41 : Int),
   (code.count 91 : Int) - (code.count 93 : Int))

end CodeValidator

/-! ## Sample objects -/

namespace Sample

/-- A strategy that always reports failure after writing to its output. -/
def failing : ObfuscationStrategy Nat where
  getName := ascii "AlwaysFails"
  getDescription := ascii "Reports failure"
  apply := fun _ input _ g => (false, input ++ input, g + 1)

/-- A strategy that always reports success and appends `;` to its input. -/
def appending : ObfuscationStrategy Nat where
  getName := ascii "Appends"
  getDescription := ascii "Appends a semicolon"
  apply := fun _ input _ g => (true, input ++ ascii ";", g + 1)

/-- An engine holding a disabled strategy, a failing one and a succeeding one. -/
def mixedEngine : ObfuscationEngine Nat :=
  ((({} : ObfuscationEngine Nat).addStrategy (some (appending.setEnabled false))).addStrategy
    (some failing)).addStrategy (some appending)

/-- The text of the end-to-end scenario. -/
def addSource : Str :=
  ascii "int add(int a, int b) \x7b return a + b; \x7d"

/-- The engine of the end-to-end scenario: level 1, holding only a
`JunkInstructionStrategy` with density 0. -/
def junkEngine {G : Type} (R : StdRandom G) : ObfuscationEngine G :=
  (({} : ObfuscationEngine G).setObfuscationLevel 1).addStrategy
    (some ((({} : JunkInstructionStrategy).setDensity 0).toStrategy R))

/-- An engine at level 3 holding the five strategies of the factory, in the
order of `getAvailableStrategies`, the string encryption being disabled. -/
def fullEngine {G : Type} (R : StdRandom G) : ObfuscationEngine G :=
  ((((((({} : ObfuscationEngine G).setObfuscationLevel 3).addStrategy
    (StrategyFactory.createStrategy R (ascii "JunkInstructions"))).addStrategy
    (StrategyFactory.createStrategy R (ascii "OpaquePredicates"))).addStrategy
    ((StrategyFactory.createStrategy R (ascii "StringEncryption")).map
      (fun s => s.setEnabled false))).addStrategy
    (StrategyFactory.createStrategy R (ascii "SymbolObfuscation"))).addStrategy
    (StrategyFactory.createStrategy R (ascii "ControlFlowFlattening")))

end Sample

/-! ## Theorems -/

/-! ### Bytes -/

theorem bxor_val (a b : Byte) : (bxor a b).val = a.val ^^^ b.val := by
  have h : a.val ^^^ b.val < 2 ^ 8 := @Nat.xor_lt_two_pow a.val b.val 8 a.isLt b.isLt
  show (a.val ^^^ b.val) % 256 = a.val ^^^ b.val
  exact Nat.mod_eq_of_lt h

theorem bxor_bxor_cancel (a k : Byte) : bxor (bxor a k) k = a := by
  apply Fin.ext
  rw [bxor_val, bxor_val, Nat.xor_assoc, Nat.xor_self, Nat.xor_zero]

theorem toByte_val_of_lt (z : Int) (h0 : 0 ≤ z) (h1 : z < 256) :
    ((toByte z).val : Int) = z := by
  show (((z % 256).toNat : Nat) : Int) = z
  rw [Int.emod_eq_of_lt h0 h1]
  exact Int.toNat_of_nonneg h0

/-! ### CryptoUtils -/

namespace CryptoUtils

theorem xorLoop_length (key : List Byte) (hk : 0 < key.length) (d : Str) :
    ∀ i, (xorLoop key hk i d).length = d.length := by
  induction d with
  | nil => intro i; rfl
  | cons c rest ih => intro i; simp [xorLoop, ih]

theorem xorLoop_xorLoop (key : List Byte) (hk : 0 < key.length) (d : Str) :
    ∀ i, xorLoop key hk i (xorLoop key hk i d) = d := by
  induction d with
  | nil => intro i; rfl
  | cons c rest ih => intro i; simp [xorLoop, ih, bxor_bxor_cancel]

/-- C5: for every byte string `d` and every non-empty key `k` the cyclic-key
`xorEncrypt` returns a string of the length of `d`, and encrypting that
string again with `k` returns `d`. -/
theorem xorEncryptKey_involutive (d : Str) (k : List Byte) (hk : k ≠ []) :
    ∃ e, xorEncryptKey d k = .ok e ∧ e.length = d.length ∧ xorEncryptKey e k = .ok d := by
  have hlen : ¬ k.length = 0 := fun h => hk (List.length_eq_zero.mp h)
  refine ⟨xorLoop k (Nat.pos_of_ne_zero hlen) 0 d, ?_, ?_, ?_⟩
  · simp [xorEncryptKey, hlen]
  · exact xorLoop_length k _ d 0
  · simp [xorEncryptKey, hlen, xorLoop_xorLoop]

theorem xorEncryptKey_involutive_witness :
    ([90, 17] : List Byte) ≠ [] ∧
    ∃ e, xorEncryptKey (ascii "Hello World") [90, 17] = .ok e ∧
      e.length = (ascii "Hello World").length ∧
      xorEncryptKey e [90, 17] = .ok (ascii "Hello World") :=
  ⟨by decide, xorEncryptKey_involutive (ascii "Hello World") [90, 17] (by decide)⟩

/-- C6: for every byte string `d` and every single-byte key `k` the
single-byte `xorEncrypt` is self-inverse. -/
theorem xorEncrypt_involutive (d : Str) (k : Byte) :
    xorEncrypt (xorEncrypt d k) k = d := by
  induction d with
  | nil => rfl
  | cons c rest ih =>
    simp only [xorEncrypt, List.map_cons, List.map_map] at ih ⊢
    rw [bxor_bxor_cancel, ih]

/-- C9: the cyclic-key `xorEncrypt` throws the invalid-argument error exactly
when the key is empty, whatever the data, and returns a result exactly when
the key is non-empty. -/
theorem xorEncryptKey_error_iff (d : Str) (k : List Byte) :
    (xorEncryptKey d k = .error (.invalidArgument "Key cannot be empty") ↔ k = []) ∧
    ((∃ e, xorEncryptKey d k = .ok e) ↔ k ≠ []) := by
  by_cases hk : k = []
  · subst hk
    simp [xorEncryptKey]
  · have hlen : ¬ k.length = 0 := fun h => hk (List.length_eq_zero.mp h)
    simp [xorEncryptKey, hlen, hk]

theorem substChar_lower (shift : Int) (c : Byte) (h : 97 ≤ c.val ∧ c.val ≤ 122)
    (hs : 0 ≤ shift) :
    ((substChar shift c).val : Int) = 97 + ((c.val : Int) - 97 + shift) % 26 := by
  have hc : (97 : Int) ≤ (c.val : Int) := by exact_mod_cast h.1
  have he : Int.tmod ((c.val : Int) - 97 + shift) 26 = ((c.val : Int) - 97 + shift) % 26 :=
    Int.tmod_eq_emod (by omega) (by decide)
  simp only [substChar, h, and_self, if_true, he]
  apply toByte_val_of_lt <;> omega

theorem substChar_upper (shift : Int) (c : Byte) (h : 65 ≤ c.val ∧ c.val ≤ 90)
    (hs : 0 ≤ shift) :
    ((substChar shift c).val : Int) = 65 + ((c.val : Int) - 65 + shift) % 26 := by
  have hc : (65 : Int) ≤ (c.val : Int) := by exact_mod_cast h.1
  have hn : ¬ (97 ≤ c.val ∧ c.val ≤ 122) := by omega
  have he : Int.tmod ((c.val : Int) - 65 + shift) 26 = ((c.val : Int) - 65 + shift) % 26 :=
    Int.tmod_eq_emod (by omega) (by decide)
  simp only [substChar, h, hn, and_self, if_true, if_false, he]
  apply toByte_val_of_lt <;> omega

theorem substChar_other (shift : Int) (c : Byte) (hl : ¬ (97 ≤ c.val ∧ c.val ≤ 122))
    (hu : ¬ (65 ≤ c.val ∧ c.val ≤ 90)) : substChar shift c = c := by
  simp only [substChar, hl, hu, if_false]

theorem substChar_roundtrip (r : Int) (h0 : 0 ≤ r) (c : Byte) :
    substChar ((26 - r) % 26) (substChar r c) = c := by
  have hs : (0 : Int) ≤ (26 - r) % 26 := Int.emod_nonneg _ (by decide)
  by_cases hl : 97 ≤ c.val ∧ c.val ≤ 122
  · have e1 := substChar_lower r c hl h0
    have hl2 : 97 ≤ (substChar r c).val ∧ (substChar r c).val ≤ 122 := by omega
    have e2 := substChar_lower ((26 - r) % 26) (substChar r c) hl2 hs
    apply Fin.ext
    omega
  · by_cases hu : 65 ≤ c.val ∧ c.val ≤ 90
    · have e1 := substChar_upper r c hu h0
      have hu2 : 65 ≤ (substChar r c).val ∧ (substChar r c).val ≤ 90 := by omega
      have e2 := substChar_upper ((26 - r) % 26) (substChar r c) hu2 hs
      apply Fin.ext
      omega
    · rw [substChar_other r c hl hu, substChar_other _ c hl hu]

/-- C7: for every text `s` and every shift `r` with `0 <= r < 26`,
`substitutionEncrypt(substitutionEncrypt(s, r), (26 - r) % 26) == s`. -/
theorem substitutionEncrypt_roundtrip (s : Str) (r : Int) (h0 : 0 ≤ r) (_h1 : r < 26) :
    substitutionEncrypt (substitutionEncrypt s r) ((26 - r) % 26) = s := by
  induction s with
  | nil => rfl
  | cons c rest ih =>
    simp only [substitutionEncrypt, List.map_cons, List.map_map] at ih ⊢
    rw [substChar_roundtrip r h0 c, ih]

theorem substitutionEncrypt_roundtrip_witness :
    (0 : Int) ≤ 3 ∧ (3 : Int) < 26 ∧
    substitutionEncrypt (substitutionEncrypt (ascii "Hello, World!") 3) ((26 - 3) % 26)
      = ascii "Hello, World!" :=
  ⟨by decide, by decide,
    substitutionEncrypt_roundtrip (ascii "Hello, World!") 3 (by decide) (by decide)⟩

/-- C8 (the code at the failing input): with the negative shift `-1` the
lowercase letter `a` (byte 97) is replaced by the backquote (byte 96), which is
not a letter, and the uppercase letter `A` (byte 65) by `@` (byte 64). -/
theorem substitutionEncrypt_negative_shift :
    substitutionEncrypt [97] (-1) = [96] ∧ substitutionEncrypt [65] (-1) = [64] := by
  decide

end CryptoUtils

/-! ### RandomGenerator -/

theorem lcg_intInRange : lcg.IntInRange := by
  intro a b g hab
  have hpos : (0 : Int) < b - a + 1 := by omega
  have h0 := Int.emod_nonneg (lcgNext g : Int) (Int.ne_of_gt hpos)
  have h1 := Int.emod_lt_of_pos (lcgNext g : Int) hpos
  show a ≤ a + (lcgNext g : Int) % (b - a + 1) ∧ a + (lcgNext g : Int) % (b - a + 1) ≤ b
  omega

theorem lcg_realInUnit : lcg.RealInUnit := by
  intro g
  have hlt : lcgNext g < 2147483648 := Nat.mod_lt _ (by decide)
  have hq : ((lcgNext g : ℕ) : ℚ) < 2147483648 := by exact_mod_cast hlt
  show 0 ≤ (lcgNext g : ℚ) / 2147483648 ∧ (lcgNext g : ℚ) / 2147483648 < 1
  constructor
  · exact div_nonneg (Nat.cast_nonneg _) (by norm_num)
  · rw [div_lt_one (by norm_num)]
    exact hq

namespace RandomGenerator

variable {G : Type}

/-- C10: for all integers `a` and `b` and every generator state, the value of
`randomInt(a, b)` lies between the smaller and the larger of `a` and `b`
(also when `a > b`), provided the uniform integer draw keeps to its range. -/
theorem randomInt_in_range (R : StdRandom G) (hR : R.IntInRange) (a b : Int) (g : G) :
    min a b ≤ (randomInt R a b g).1 ∧ (randomInt R a b g).1 ≤ max a b := by
  unfold randomInt
  by_cases h : a > b
  · have hd := hR b a g (by omega)
    simp only [h, if_true]
    rw [min_eq_right (by omega), max_eq_left (by omega)]
    exact hd
  · have hd := hR a b g (by omega)
    simp only [h, if_false]
    rw [min_eq_left (by omega), max_eq_right (by omega)]
    exact hd

theorem randomInt_in_range_witness :
    min (10 : Int) (-3) ≤ (randomInt lcg 10 (-3) 42).1 ∧
    (randomInt lcg 10 (-3) 42).1 ≤ max (10 : Int) (-3) :=
  randomInt_in_range lcg lcg_intInRange 10 (-3) 42

theorem randomBool_zero (R : StdRandom G) (hR : R.RealInUnit) (g : G) :
    (randomBool R 0 g).1 = false := by
  have h := (hR g).1
  simp only [randomBool, randomDouble, decide_eq_false_iff_not, not_lt]
  exact h

end RandomGenerator

/-! ### ObfuscationEngine -/

namespace ObfuscationEngine

variable {G : Type}

theorem applyStrategiesLoop_eq_run (strategies : List (ObfuscationStrategy G)) :
    ∀ (currentCode nextCode : Str) (applied : Int) (g : G),
      applyStrategiesLoop strategies currentCode nextCode applied g =
        ((Pipeline.run strategies ⟨currentCode, nextCode, g⟩).current,
         (Pipeline.run strategies ⟨currentCode, nextCode, g⟩).scratch,
         applied + (Pipeline.successes strategies ⟨currentCode, nextCode, g⟩ : Nat),
         (Pipeline.run strategies ⟨currentCode, nextCode, g⟩).gen) := by
  induction strategies with
  | nil =>
    intro currentCode nextCode applied g
    simp [applyStrategiesLoop, Pipeline.run, Pipeline.successes]
  | cons s rest ih =>
    intro currentCode nextCode applied g
    unfold applyStrategiesLoop
    by_cases he : s.m_enabled = true
    · by_cases hs : (s.apply s.m_level currentCode nextCode g).1 = true
      · simp only [he, hs, Bool.not_true, if_true, Bool.false_eq_true, if_false, ih]
        simp [Pipeline.run, Pipeline.successes, Pipeline.step, Pipeline.succeeds, he, hs,
          add_assoc]
      · simp only [he, hs, Bool.not_true, Bool.false_eq_true, if_false, ih]
        simp [Pipeline.run, Pipeline.successes, Pipeline.step, Pipeline.succeeds, he, hs]
    · simp only [he, Bool.not_eq_true, Bool.not_false, if_true, ih]
      simp [Pipeline.run, Pipeline.successes, Pipeline.step, Pipeline.succeeds, he]

theorem validateInput_of_ne_nil (code : Str) (h : code ≠ []) : validateInput code = true := by
  cases code with
  | nil => exact absurd rfl h
  | cons c cs => rfl

/-- C1: on a non-empty input `obfuscate` succeeds, its output is the current
text of the left fold of `Pipeline.step` over the held strategies in
insertion order (disabled: skipped; success: output becomes the current text;
failure: current text kept), and `strategiesApplied` is the number of enabled
strategies that reported success. -/
theorem obfuscate_eq_fold (E : ObfuscationEngine G) (inputCode outputCode : Str) (g : G)
    (elapsed : ℚ) (h : inputCode ≠ []) :
    (E.obfuscate inputCode outputCode g elapsed).ret = true ∧
    (E.obfuscate inputCode outputCode g elapsed).outputCode =
      (E.m_strategies.foldl Pipeline.step ⟨inputCode, [], g⟩).current ∧
    (E.obfuscate inputCode outputCode g elapsed).engine.m_stats.strategiesApplied =
      (Pipeline.successes E.m_strategies ⟨inputCode, [], g⟩ : Nat) ∧
    (E.obfuscate inputCode outputCode g elapsed).gen =
      (E.m_strategies.foldl Pipeline.step ⟨inputCode, [], g⟩).gen := by
  simp [obfuscate, validateInput_of_ne_nil inputCode h, applyStrategies,
    applyStrategiesLoop_eq_run, Pipeline.run]

/-- C3: `obfuscate` on the empty string returns `false` and leaves the
statistics record, the caller's output string, the engine and the generator
state as they were. -/
theorem obfuscate_empty (E : ObfuscationEngine G) (outputCode : Str) (g : G) (elapsed : ℚ) :
    (E.obfuscate [] outputCode g elapsed).ret = false ∧
    (E.obfuscate [] outputCode g elapsed).engine.m_stats = E.m_stats ∧
    (E.obfuscate [] outputCode g elapsed).outputCode = outputCode ∧
    (E.obfuscate [] outputCode g elapsed).engine.m_strategies = E.m_strategies ∧
    (E.obfuscate [] outputCode g elapsed).engine.m_obfuscationLevel = E.m_obfuscationLevel := by
  simp [obfuscate, validateInput]

end ObfuscationEngine

/-! ### Lines -/

theorem ascii_newline : ascii "\n" = [10] := by decide

theorem readLines_flatten (fuel : Nat) :
    ∀ s : Str, s.length ≤ fuel →
      ((readLines fuel s).map (fun line => line ++ [10])).flatten =
        if s = [] ∨ s.getLast? = some 10 then s else s ++ [10] := by
  induction fuel with
  | zero =>
    intro s hs
    have : s = [] := List.length_eq_zero.mp (Nat.le_zero.mp hs)
    subst this
    rfl
  | succ fuel ih =>
    intro s hs
    cases s with
    | nil => rfl
    | cons c cs =>
      have hsplit := List.takeWhile_append_dropWhile (fun x : Byte => x != 10) (c :: cs)
      simp only [readLines, getline, List.map_cons, List.flatten_cons]
      cases hd : List.dropWhile (fun x : Byte => x != 10) (c :: cs) with
      | nil =>
        have hall : ∀ x ∈ c :: cs, (x != 10) = true := List.dropWhile_eq_nil_iff.mp hd
        have htake : List.takeWhile (fun x : Byte => x != 10) (c :: cs) = c :: cs := by
          rw [hd, List.append_nil] at hsplit
          exact hsplit
        have hlast : ¬ ((c :: cs) = [] ∨ (c :: cs).getLast? = some 10) := by
          rintro (h | h)
          · exact List.cons_ne_nil c cs h
          · have hm := hall 10 (List.mem_of_getLast?_eq_some h)
            simp at hm
        rw [htake, if_neg hlast]
        have hnil := ih [] (Nat.zero_le fuel)
        simp only [List.drop_nil] at hnil ⊢
        rw [hnil]
        simp
      | cons x rest =>
        have hx : x = 10 := by
          have h := List.head?_dropWhile_not (fun x : Byte => x != 10) (c :: cs)
          rw [hd] at h
          simpa using h
        subst hx
        rw [hd] at hsplit
        have hlen : rest.length ≤ fuel := by
          have h := congrArg List.length hsplit
          simp only [List.length_append, List.length_cons] at h hs
          omega
        have hrest := ih rest hlen
        simp only [List.drop_succ_cons, List.drop_zero]
        generalize List.takeWhile (fun x : Byte => x != 10) (c :: cs) = l at hsplit ⊢
        rw [hrest, ← hsplit]
        cases rest with
        | nil => simp
        | cons y ys =>
          have hl : (l ++ 10 :: y :: ys).getLast? = (y :: ys).getLast? := by
            rw [List.getLast?_append_cons, List.getLast?_cons_cons]
          simp only [hl, List.append_eq_nil, List.cons_ne_nil, and_false, false_or]
          by_cases hn : (y :: ys).getLast? = some 10
          · simp [hn]
          · simp [hn]

theorem splitLines_flatten (s : Str) :
    ((splitLines s).map (fun line => line ++ [10])).flatten =
      if s = [] ∨ s.getLast? = some 10 then s else s ++ [10] :=
  readLines_flatten s.length s (Nat.le_refl _)

theorem readLines_fuel (fuel : Nat) :
    ∀ s : Str, s.length ≤ fuel → readLines fuel s = readLines s.length s := by
  induction fuel using Nat.strong_induction_on with
  | _ fuel ih =>
    intro s hs
    cases s with
    | nil => cases fuel <;> rfl
    | cons c cs =>
      cases fuel with
      | zero => simp at hs
      | succ fuel =>
        have hr : (((c :: cs).dropWhile (fun x => x != 10)).drop 1).length ≤ cs.length := by
          have h1 := congrArg List.length
            (List.takeWhile_append_dropWhile (fun x : Byte => x != 10) (c :: cs))
          simp only [List.length_append] at h1
          simp only [List.length_drop, List.length_cons] at h1 ⊢
          omega
        simp only [List.length_cons, readLines, getline]
        have hs2 : cs.length ≤ fuel := by simpa using hs
        rw [ih fuel (Nat.lt_succ_self _) _ (le_trans hr hs2)]
        by_cases hf : cs.length = fuel
        · rw [hf]; rw [ih fuel (Nat.lt_succ_self _) _ (le_trans hr hs2)]
        · rw [ih cs.length (by omega) _ hr]

/-! ### JunkInstructionStrategy -/

namespace JunkInstructionStrategy

variable {G : Type}

theorem applyLoop_density_zero (R : StdRandom G) (hR : R.RealInUnit)
    (J : JunkInstructionStrategy) (hd : J.m_density = 0) (lines : List Str) :
    ∀ (result : Str) (g : G),
      (applyLoop R J lines result g).1 =
        result ++ (lines.map (fun line => line ++ [10])).flatten := by
  induction lines with
  | nil => intro result g; simp [applyLoop]
  | cons line rest ih =>
    intro result g
    have hb := RandomGenerator.randomBool_zero R hR g
    simp only [applyLoop, hd, hb, Bool.false_eq_true, if_false, ih, List.map_cons,
      List.flatten_cons, ascii_newline, List.append_assoc]

theorem apply_density_zero (R : StdRandom G) (hR : R.RealInUnit)
    (J : JunkInstructionStrategy) (hd : J.m_density = 0) (input : Str) (g : G) :
    (apply R J input g).1 = true ∧
    (apply R J input g).2.1 =
      if input = [] ∨ input.getLast? = some 10 then input else input ++ [10] := by
  refine ⟨rfl, ?_⟩
  show (applyLoop R J (splitLines input) [] g).1 = _
  rw [applyLoop_density_zero R hR J hd, List.nil_append, splitLines_flatten]

end JunkInstructionStrategy

namespace ObfuscationEngine

variable {G : Type}

/-- C2 (amended): for every non-empty input, every generator state and every
engine holding only an enabled `JunkInstructionStrategy` with density 0 (the
real draws lying in `[0, 1)`), `obfuscate` succeeds, `strategiesApplied` is 1,
and the output is the input when the input ends with a newline and the input
followed by one newline otherwise. -/
theorem obfuscate_junk_density_zero (R : StdRandom G) (hR : R.RealInUnit)
    (E : ObfuscationEngine G) (J : JunkInstructionStrategy) (level : Int)
    (hE : E.m_strategies = [(J.toStrategy R).setLevel level])
    (hen : J.m_enabled = true) (hd : J.m_density = 0)
    (inputCode outputCode : Str) (g : G) (elapsed : ℚ) (h : inputCode ≠ []) :
    (E.obfuscate inputCode outputCode g elapsed).ret = true ∧
    (E.obfuscate inputCode outputCode g elapsed).outputCode =
      (if inputCode.getLast? = some 10 then inputCode else inputCode ++ [10]) ∧
    (E.obfuscate inputCode outputCode g elapsed).engine.m_stats.strategiesApplied = 1 := by
  have ha := JunkInstructionStrategy.apply_density_zero R hR J hd inputCode g
  simp only [h, false_or] at ha
  simp [obfuscate, validateInput_of_ne_nil inputCode h, applyStrategies, applyStrategiesLoop, hE,
    JunkInstructionStrategy.toStrategy, ObfuscationStrategy.setLevel, hen, ha.1, ha.2]

theorem obfuscate_junk_density_zero_witness :
    lcg.RealInUnit ∧
    (Sample.junkEngine lcg).m_strategies =
      [((({} : JunkInstructionStrategy).setDensity 0).toStrategy lcg).setLevel 1] ∧
    (({} : JunkInstructionStrategy).setDensity 0).m_enabled = true ∧
    (({} : JunkInstructionStrategy).setDensity 0).m_density = 0 ∧
    Sample.addSource ≠ [] ∧
    ((Sample.junkEngine lcg).obfuscate Sample.addSource [] 42 0).ret = true ∧
    ((Sample.junkEngine lcg).obfuscate Sample.addSource [] 42 0).outputCode =
      (if Sample.addSource.getLast? = some 10 then Sample.addSource
       else Sample.addSource ++ [10]) ∧
    ((Sample.junkEngine lcg).obfuscate Sample.addSource [] 42 0).engine.m_stats.strategiesApplied
      = 1 :=
  ⟨lcg_realInUnit, rfl, rfl, rfl, by decide,
    obfuscate_junk_density_zero lcg lcg_realInUnit (Sample.junkEngine lcg)
      (({} : JunkInstructionStrategy).setDensity 0) 1 rfl rfl rfl Sample.addSource [] 42 0
      (by decide)⟩

/-- C2 (as stated, refuted): on the text of the scenario, which does not end
with a newline, the level-1 engine holding only a junk strategy of density 0
returns the text followed by a newline, not the text itself. -/
theorem obfuscate_junk_density_zero_not_identity :
    ((Sample.junkEngine lcg).obfuscate Sample.addSource [] 42 0).outputCode =
      Sample.addSource ++ [10] ∧
    ((Sample.junkEngine lcg).obfuscate Sample.addSource [] 42 0).outputCode ≠
      Sample.addSource := by
  have ha := (JunkInstructionStrategy.apply_density_zero lcg lcg_realInUnit
    (({} : JunkInstructionStrategy).setDensity 0) rfl Sample.addSource 42).2
  have hlast : ¬ (Sample.addSource = [] ∨ Sample.addSource.getLast? = some 10) := by decide
  rw [if_neg hlast] at ha
  have hout : ((Sample.junkEngine lcg).obfuscate Sample.addSource [] 42 0).outputCode =
      (JunkInstructionStrategy.apply lcg (({} : JunkInstructionStrategy).setDensity 0)
        Sample.addSource 42).2.1 := rfl
  rw [hout, ha]
  exact ⟨rfl, by decide⟩

theorem obfuscate_eq_fold_witness :
    ascii "x" ≠ [] ∧
    (Sample.mixedEngine.obfuscate (ascii "x") [] 0 0).ret = true ∧
    (Sample.mixedEngine.obfuscate (ascii "x") [] 0 0).outputCode =
      (Sample.mixedEngine.m_strategies.foldl Pipeline.step ⟨ascii "x", [], 0⟩).current ∧
    (Sample.mixedEngine.obfuscate (ascii "x") [] 0 0).engine.m_stats.strategiesApplied =
      (Pipeline.successes Sample.mixedEngine.m_strategies ⟨ascii "x", [], 0⟩ : Nat) ∧
    (Sample.mixedEngine.obfuscate (ascii "x") [] 0 0).gen =
      (Sample.mixedEngine.m_strategies.foldl Pipeline.step ⟨ascii "x", [], 0⟩).gen :=
  ⟨by decide, obfuscate_eq_fold Sample.mixedEngine (ascii "x") [] 0 0 (by decide)⟩

theorem mixedEngine_obfuscate :
    (Sample.mixedEngine.obfuscate (ascii "x") [] 0 0).outputCode = ascii "x;" ∧
    (Sample.mixedEngine.obfuscate (ascii "x") [] 0 0).engine.m_stats.strategiesApplied = 1 ∧
    (Sample.mixedEngine.obfuscate (ascii "x") [] 0 0).gen = 2 := by
  decide

theorem calls_level_invariant (E : ObfuscationEngine G) (cs : List (Call G))
    (hE : ∀ s ∈ E.m_strategies, s.m_level = E.m_obfuscationLevel)
    (hcs : ∀ n, Call.setObfuscationLevel n ∈ cs → 1 ≤ n ∧ n ≤ 4) :
    ∀ s ∈ (E.calls cs).m_strategies, s.m_level = (E.calls cs).m_obfuscationLevel := by
  induction cs generalizing E with
  | nil => exact hE
  | cons c rest ih =>
    have hrest : ∀ n, Call.setObfuscationLevel n ∈ rest → 1 ≤ n ∧ n ≤ 4 :=
      fun n hn => hcs n (List.mem_cons_of_mem _ hn)
    show ∀ s ∈ ((E.call c).calls rest).m_strategies, _
    apply ih (E.call c) _ hrest
    cases c with
    | addStrategy strategy =>
      cases strategy with
      | none => exact hE
      | some s0 =>
        intro s hs
        simp only [call, addStrategy, List.mem_append, List.mem_singleton] at hs ⊢
        rcases hs with hs | hs
        · exact hE s hs
        · subst hs; rfl
    | removeStrategy name =>
      intro s hs
      simp only [call, removeStrategy, List.mem_filter] at hs ⊢
      exact hE s hs.1
    | setObfuscationLevel n =>
      have hn := hcs n (List.mem_cons_self _ _)
      have hnot : ¬ (n < 1 ∨ n > 4) := by omega
      intro s hs
      simp only [call, setObfuscationLevel, hnot, if_false, List.mem_map] at hs ⊢
      obtain ⟨s0, _, rfl⟩ := hs
      rfl

/-- C4 (the code at the failing input): after `addStrategy`,
`setObfuscationLevel(4)` and the out-of-range `setObfuscationLevel(9)` the
engine's level is 2 while the held strategy is still at level 4. -/
theorem setObfuscationLevel_out_of_range_keeps_levels :
    ((({} : ObfuscationEngine Nat).calls
      [.addStrategy (some Sample.appending), .setObfuscationLevel 4,
       .setObfuscationLevel 9]).m_obfuscationLevel = 2) ∧
    ((({} : ObfuscationEngine Nat).calls
      [.addStrategy (some Sample.appending), .setObfuscationLevel 4,
       .setObfuscationLevel 9]).strategyLevels = [4]) := by
  decide

end ObfuscationEngine

/-! ### RandomGenerator: determinism and choice -/

namespace RandomGenerator

variable {G D : Type}

theorem lcgLibrary_stateless : lcgLibrary.RealStateless := by
  intro g
  simp [lcgLibrary, lcgEngine]

theorem perform_randomDouble (L : StdLibrary G D) (hL : L.RealStateless)
    (self : RandomGenerator G D) (h : self.m_doubleDist = L.unitDist) :
    perform L self .randomDouble =
      (.real (randomDouble L.toStdRandom self.m_engine).1,
        { self with m_engine := (randomDouble L.toStdRandom self.m_engine).2 }) := by
  cases self with
  | mk engine dist =>
    simp only at h
    subst h
    simp only [perform, randomDouble, hL engine]

theorem perform_randomBool (L : StdLibrary G D) (hL : L.RealStateless)
    (self : RandomGenerator G D) (h : self.m_doubleDist = L.unitDist) (probability : ℚ) :
    perform L self (.randomBool probability) =
      (.bool (randomBool L.toStdRandom probability self.m_engine).1,
        { self with m_engine := (randomBool L.toStdRandom probability self.m_engine).2 }) := by
  cases self with
  | mk engine dist =>
    simp only at h
    subst h
    simp only [perform, randomBool, randomDouble, hL engine]

theorem perform_keeps_doubleDist (L : StdLibrary G D) (hL : L.RealStateless)
    (self : RandomGenerator G D) (op : Op) (h : self.m_doubleDist = L.unitDist) :
    (perform L self op).2.m_doubleDist = L.unitDist := by
  cases op with
  | randomInt min max => exact h
  | randomDouble => rw [perform_randomDouble L hL self h]; exact h
  | randomBool probability => rw [perform_randomBool L hL self h]; exact h
  | randomChoice choices =>
    simp only [perform]
    cases randomChoice L.toStdRandom choices self.m_engine with
    | error e => exact h
    | ok r => exact h
  | shuffle vec => exact h
  | randomBytes count => exact h
  | randomString length => exact h
  | randomHexString length => exact h

theorem after_keeps_doubleDist (L : StdLibrary G D) (hL : L.RealStateless) (calls : List Call)
    (self : RandomGenerator G D) (h : self.m_doubleDist = L.unitDist) :
    (after L self calls).m_doubleDist = L.unitDist := by
  induction calls generalizing self with
  | nil => exact h
  | cons c rest ih =>
    have hstep : (step L self c).m_doubleDist = L.unitDist := by
      cases c with
      | setSeed seed => exact h
      | draw op => exact perform_keeps_doubleDist L hL self op h
    exact ih (step L self c) hstep

theorem setSeed_eq_create (L : StdLibrary G D) (seed : Nat) (self : RandomGenerator G D)
    (h : self.m_doubleDist = L.unitDist) : setSeed L seed self = create L seed := by
  simp only [setSeed, create, h]

theorem outputs_length (L : StdLibrary G D) (ops : List Op) (self : RandomGenerator G D) :
    (outputs L self ops).length = ops.length := by
  induction ops generalizing self with
  | nil => rfl
  | cons op rest ih => simp [outputs, ih]

/-- C11: for every seed and every finite sequence of calls of the eight
drawing methods, two generator objects, each constructed with whatever value
the random device gave and used in whatever way before, that are seeded with
that seed and then driven through the sequence return the same output at
every step. `setSeed` re-seeds the engine only and the objects may differ in
all they did before; the replay holds because none of the eight methods leaves
`m_doubleDist` other than it was constructed, the uniform real distribution
keeping nothing between draws (`RealStateless`). -/
theorem outputs_deterministic (L : StdLibrary G D) (hL : L.RealStateless)
    (device₁ device₂ : Nat) (past₁ past₂ : List Call) (seed : Nat) (ops : List Op) :
    outputs L (setSeed L seed (after L (create L device₁) past₁)) ops =
      outputs L (setSeed L seed (after L (create L device₂) past₂)) ops ∧
    (outputs L (setSeed L seed (after L (create L device₁) past₁)) ops).length = ops.length := by
  have h₁ := after_keeps_doubleDist L hL past₁ (create L device₁) rfl
  have h₂ := after_keeps_doubleDist L hL past₂ (create L device₂) rfl
  refine ⟨?_, outputs_length L ops _⟩
  rw [setSeed_eq_create L seed _ h₁, setSeed_eq_create L seed _ h₂]

theorem outputs_deterministic_witness :
    lcgLibrary.RealStateless ∧
    outputs lcgLibrary (setSeed lcgLibrary 5 (after lcgLibrary (create lcgLibrary 0) []))
        [.randomInt 6 1, .randomDouble, .randomChoice [], .randomBool (1 / 2),
         .randomHexString 2] =
      outputs lcgLibrary
        (setSeed lcgLibrary 5 (after lcgLibrary (create lcgLibrary 99)
          [.draw .randomDouble, .setSeed 3, .draw (.randomString 4), .draw (.randomBool 1)]))
        [.randomInt 6 1, .randomDouble, .randomChoice [], .randomBool (1 / 2),
         .randomHexString 2] ∧
    (outputs lcgLibrary (setSeed lcgLibrary 5 (after lcgLibrary (create lcgLibrary 0) []))
        [.randomInt 6 1, .randomDouble, .randomChoice [], .randomBool (1 / 2),
         .randomHexString 2]).length = 5 :=
  ⟨lcgLibrary_stateless,
    outputs_deterministic lcgLibrary lcgLibrary_stateless 0 99 []
      [.draw .randomDouble, .setSeed 3, .draw (.randomString 4), .draw (.randomBool 1)] 5
      [.randomInt 6 1, .randomDouble, .randomChoice [], .randomBool (1 / 2),
       .randomHexString 2]⟩

theorem randomInt_bounds (R : StdRandom G) (hR : R.IntInRange) (a b : Int) (hab : a ≤ b)
    (g : G) : a ≤ (randomInt R a b g).1 ∧ (randomInt R a b g).1 ≤ b := by
  have h : ¬ a > b := by omega
  simp only [randomInt, h, if_false]
  exact hR a b g hab

/-- C12: `randomChoice` throws the invalid-argument error exactly when the
list is empty; on a non-empty list, with integer draws that keep to their
range, the drawn index is within `0 .. size - 1` and the returned value is
the element of the list at that index. -/
theorem randomChoice_spec {α : Type} (R : StdRandom G) (hR : R.IntInRange)
    (choices : List α) (g : G) :
    (randomChoice R choices g = .error (.invalidArgument "Cannot choose from empty vector") ↔
      choices = []) ∧
    ((∃ e, randomChoice R choices g = .error e) ↔ choices = []) ∧
    (choices ≠ [] →
      ∃ (i : Nat) (x : α) (g' : G), i < choices.length ∧ choices.get? i = some x ∧ x ∈ choices ∧
        (randomInt R 0 ((choices.length : Int) - 1) g).1 = (i : Int) ∧
        randomChoice R choices g = .ok (some x, g')) := by
  cases choices with
  | nil => simp [randomChoice]
  | cons c cs =>
    refine ⟨by simp [randomChoice], by simp [randomChoice], ?_⟩
    intro _
    have hlen : (0 : Int) ≤ (((c :: cs).length : Nat) : Int) - 1 := by
      simp only [List.length_cons, Nat.cast_add, Nat.cast_one]
      omega
    have hr := randomInt_bounds R hR 0 ((((c :: cs).length : Nat) : Int) - 1) hlen g
    obtain ⟨i, hi⟩ := Int.eq_ofNat_of_zero_le hr.1
    have hlt : i < (c :: cs).length := by omega
    refine ⟨i, (c :: cs).get ⟨i, hlt⟩, (randomInt R 0 ((((c :: cs).length : Nat) : Int) - 1) g).2,
      hlt, List.get?_eq_get hlt, List.get_mem _ _ _, hi, ?_⟩
    have hneg : ¬ ((i : Int) < 0) := by omega
    simp only [randomChoice, List.isEmpty_cons, Bool.false_eq_true, if_false, hneg, hi,
      Int.toNat_ofNat, List.get?_eq_get hlt]

theorem randomChoice_spec_witness :
    lcg.IntInRange ∧
    ((randomChoice lcg [ascii "tmp", ascii "var", ascii "val"] 7 =
        .error (.invalidArgument "Cannot choose from empty vector") ↔
      [ascii "tmp", ascii "var", ascii "val"] = []) ∧
    ((∃ e, randomChoice lcg [ascii "tmp", ascii "var", ascii "val"] 7 = .error e) ↔
      [ascii "tmp", ascii "var", ascii "val"] = []) ∧
    ([ascii "tmp", ascii "var", ascii "val"] ≠ [] →
      ∃ (i : Nat) (x : Str) (g' : Nat), i < [ascii "tmp", ascii "var", ascii "val"].length ∧
        [ascii "tmp", ascii "var", ascii "val"].get? i = some x ∧
        x ∈ [ascii "tmp", ascii "var", ascii "val"] ∧
        (randomInt lcg 0 (([ascii "tmp", ascii "var", ascii "val"].length : Int) - 1) 7).1
          = (i : Int) ∧
        randomChoice lcg [ascii "tmp", ascii "var", ascii "val"] 7 = .ok (some x, g'))) :=
  ⟨lcg_intInRange, randomChoice_spec lcg lcg_intInRange [ascii "tmp", ascii "var", ascii "val"] 7⟩

end RandomGenerator

/-! ### std::string::find -/

theorem findAt_shift (pat : Str) : ∀ (s : Str) (k : Nat),
    findAt s pat k = (findAt s pat 0).map (fun i => i + k) := by
  intro s
  induction s with
  | nil => intro k; by_cases h : pat.isEmpty <;> simp [findAt, h]
  | cons c cs ih =>
    intro k
    by_cases h : pat.isPrefixOf (c :: cs) = true
    · simp [findAt, h]
    · simp only [findAt, h, if_false, Bool.false_eq_true]
      rw [ih (k + 1), ih (0 + 1)]
      cases findAt cs pat 0 with
      | none => rfl
      | some i => simp only [Option.map_some', Option.some.injEq]; omega

theorem isPrefixOf_nil_right (pat : Str) : pat.isPrefixOf ([] : Str) = pat.isEmpty := by
  cases pat <;> rfl

theorem findAt_zero_some (pat : Str) : ∀ (s : Str) (i : Nat), findAt s pat 0 = some i →
    i ≤ s.length ∧ pat.isPrefixOf (s.drop i) = true ∧
      ∀ j, j < i → pat.isPrefixOf (s.drop j) = false := by
  intro s
  induction s with
  | nil =>
    intro i h
    by_cases hp : pat.isEmpty
    · simp only [findAt, hp, if_true, Option.some.injEq] at h
      subst h
      refine ⟨Nat.le_refl _, ?_, fun j hj => absurd hj (Nat.not_lt_zero j)⟩
      simp [isPrefixOf_nil_right, hp]
    · simp [findAt, hp] at h
  | cons c cs ih =>
    intro i h
    by_cases hp : pat.isPrefixOf (c :: cs) = true
    · simp only [findAt, hp, if_true, Option.some.injEq] at h
      subst h
      exact ⟨Nat.zero_le _, hp, fun j hj => absurd hj (Nat.not_lt_zero j)⟩
    · simp only [findAt, hp, if_false, Bool.false_eq_true] at h
      rw [findAt_shift] at h
      cases hf : findAt cs pat 0 with
      | none => simp [hf] at h
      | some i' =>
        simp only [hf, Option.map_some', Option.some.injEq] at h
        subst h
        obtain ⟨h1, h2, h3⟩ := ih i' hf
        refine ⟨by simp only [List.length_cons]; omega, by simpa using h2, ?_⟩
        intro j hj
        cases j with
        | zero => exact Bool.eq_false_iff.mpr hp
        | succ j => simpa using h3 j (by omega)

theorem findAt_zero_none (pat : Str) : ∀ (s : Str), findAt s pat 0 = none →
    ∀ j, j ≤ s.length → pat.isPrefixOf (s.drop j) = false := by
  intro s
  induction s with
  | nil =>
    intro h j hj
    by_cases hp : pat.isEmpty
    · simp [findAt, hp] at h
    · have : j = 0 := by simpa using hj
      subst this
      simpa [isPrefixOf_nil_right] using hp
  | cons c cs ih =>
    intro h j hj
    by_cases hp : pat.isPrefixOf (c :: cs) = true
    · simp [findAt, hp] at h
    · simp only [findAt, hp, if_false, Bool.false_eq_true] at h
      rw [findAt_shift] at h
      cases hf : findAt cs pat 0 with
      | some i' => simp [hf] at h
      | none =>
        cases j with
        | zero => exact Bool.eq_false_iff.mpr hp
        | succ j => simpa using ih hf j (by simpa using hj)

theorem findFrom_some (s pat : Str) (start i : Nat) (h : findFrom s pat start = some i) :
    FirstOccurrence s pat start i := by
  unfold findFrom at h
  by_cases hs : start > s.length
  · simp [hs] at h
  · simp only [hs, if_false] at h
    rw [findAt_shift] at h
    cases hf : findAt (s.drop start) pat 0 with
    | none => simp [hf] at h
    | some i' =>
      simp only [hf, Option.map_some', Option.some.injEq] at h
      subst h
      obtain ⟨h1, h2, h3⟩ := findAt_zero_some pat _ i' hf
      simp only [List.length_drop, List.drop_drop] at h1 h2 h3
      refine ⟨by omega, ⟨by omega, by rw [Nat.add_comm]; exact h2⟩, ?_⟩
      intro j hj1 hj2 hocc
      have h4 := h3 (j - start) (by omega)
      have hj : start + (j - start) = j := by omega
      rw [hj] at h4
      rw [hocc.2] at h4
      exact Bool.noConfusion h4

theorem findFrom_none (s pat : Str) (start : Nat) (h : findFrom s pat start = none) :
    ∀ j, start ≤ j → ¬ OccursAt s pat j := by
  intro j hj hocc
  unfold findFrom at h
  have hs : ¬ start > s.length := by have := hocc.1; omega
  simp only [hs, if_false] at h
  rw [findAt_shift] at h
  cases hf : findAt (s.drop start) pat 0 with
  | some i' => simp [hf] at h
  | none =>
    have h3 := findAt_zero_none pat _ hf (j - start) (by simp only [List.length_drop]; have := hocc.1; omega)
    simp only [List.drop_drop] at h3
    have hj' : start + (j - start) = j := by omega
    rw [hj', hocc.2] at h3
    exact Bool.noConfusion h3

theorem FirstOccurrence_unique (s pat : Str) (start i j : Nat)
    (hi : FirstOccurrence s pat start i) (hj : FirstOccurrence s pat start j) : i = j := by
  rcases Nat.lt_trichotomy i j with h | h | h
  · exact absurd hi.2.1 (hj.2.2 i hi.1 h)
  · exact h
  · exact absurd hj.2.1 (hi.2.2 j hj.1 h)

theorem findFrom_of_first (s pat : Str) (start i : Nat) (h : FirstOccurrence s pat start i) :
    findFrom s pat start = some i := by
  cases hf : findFrom s pat start with
  | none => exact absurd h.2.1 (findFrom_none s pat start hf i h.1)
  | some k => rw [FirstOccurrence_unique s pat start k i (findFrom_some s pat start k hf) h]

theorem findFrom_zero (s pat : Str) : findFrom s pat 0 = find s pat := by
  simp [findFrom, find]

/-! ### Brace matching -/

theorem netBraces_nil : netBraces [] = 0 := rfl

theorem netBraces_cons (c : Byte) (l : Str) :
    netBraces (c :: l) = (if c = 123 then 1 else if c = 125 then -1 else 0) + netBraces l := by
  unfold netBraces
  by_cases h1 : c = 123
  · subst h1
    simp [List.count_cons]
    omega
  · by_cases h2 : c = 125
    · subst h2
      simp [List.count_cons]
      omega
    · have h1' : ¬ (123 : Byte) = c := fun h => h1 h.symm
      have h2' : ¬ (125 : Byte) = c := fun h => h2 h.symm
      simp [List.count_cons, h1, h2, h1', h2']

theorem netBraces_append (a b : Str) : netBraces (a ++ b) = netBraces a + netBraces b := by
  unfold netBraces
  simp only [List.count_append, Nat.cast_add]
  omega

theorem braceScan_stop (i : Nat) (rest : Str) : braceScan 0 i rest = (0, i) := by
  cases rest <;> simp [braceScan]

theorem braceScan_closed : ∀ (rest : Str) (bc : Int) (i k : Nat), 0 < bc → k < rest.length →
    bc + netBraces (rest.take (k + 1)) = 0 →
    (∀ n, n < k → bc + netBraces (rest.take (n + 1)) ≠ 0) →
    braceScan bc i rest = (0, i + k + 1) := by
  intro rest
  induction rest with
  | nil => intro bc i k _ hk; simp at hk
  | cons c cs ih =>
    intro bc i k hbc hk hzero hfirst
    simp only [braceScan, gt_iff_lt, hbc, if_true]
    cases k with
    | zero =>
      simp only [Nat.zero_add, List.take_succ_cons, List.take_zero, netBraces_cons,
        netBraces_nil, add_zero] at hzero
      have hz : (if c = 123 then bc + 1 else if c = 125 then bc - 1 else bc) = 0 := by
        split_ifs at hzero ⊢ <;> omega
      rw [hz, braceScan_stop]
    | succ k =>
      have h0 := hfirst 0 (Nat.succ_pos k)
      simp only [Nat.zero_add, List.take_succ_cons, List.take_zero, netBraces_cons,
        netBraces_nil, add_zero] at h0
      have hpos : 0 < (if c = 123 then bc + 1 else if c = 125 then bc - 1 else bc) := by
        split_ifs at h0 ⊢ <;> omega
      have hk' : k < cs.length := by simpa using hk
      have hrec := ih (if c = 123 then bc + 1 else if c = 125 then bc - 1 else bc) (i + 1) k
        hpos hk'
        (by
          simp only [List.take_succ_cons, netBraces_cons] at hzero
          split_ifs at hzero ⊢ <;> omega)
        (by
          intro n hn
          have hn' := hfirst (n + 1) (by omega)
          simp only [List.take_succ_cons, netBraces_cons] at hn'
          split_ifs at hn' ⊢ <;> omega)
      rw [hrec]
      simp only [Prod.mk.injEq, true_and]
      omega

theorem braceScan_open : ∀ (rest : Str) (bc : Int) (i : Nat), 0 < bc →
    (∀ n, n < rest.length → bc + netBraces (rest.take (n + 1)) ≠ 0) →
    0 < (braceScan bc i rest).1 := by
  intro rest
  induction rest with
  | nil => intro bc i hbc _; simpa [braceScan] using hbc
  | cons c cs ih =>
    intro bc i hbc hopen
    simp only [braceScan, gt_iff_lt, hbc, if_true]
    have h0 := hopen 0 (by simp)
    simp only [Nat.zero_add, List.take_succ_cons, List.take_zero, netBraces_cons,
      netBraces_nil, add_zero] at h0
    have hpos : 0 < (if c = 123 then bc + 1 else if c = 125 then bc - 1 else bc) := by
      split_ifs at h0 ⊢ <;> omega
    apply ih _ (i + 1) hpos
    intro n hn
    have hn' := hopen (n + 1) (by simpa using hn)
    simp only [List.take_succ_cons, netBraces_cons] at hn'
    split_ifs at hn' ⊢ <;> omega

theorem braceScan_of_closedAt (s : Str) (o q : Nat) (h : ClosedAt s o q) :
    braceScan 1 (o + 1) (s.drop (o + 1)) = (0, q + 1) := by
  obtain ⟨hoq, hq, hzero, hfirst⟩ := h
  have hk : q - o - 1 < (s.drop (o + 1)).length := by
    simp only [List.length_drop]; omega
  have e : q - o - 1 + 1 = q - o := by omega
  have hrec := braceScan_closed (s.drop (o + 1)) 1 (o + 1) (q - o - 1) (by decide) hk
    (by rw [e]; exact hzero)
    (by
      intro n hn
      have hj := hfirst (o + 1 + n) (by omega) (by omega)
      have e2 : o + 1 + n - o = n + 1 := by omega
      unfold nesting at hj
      rw [e2] at hj
      exact hj)
  rw [hrec]
  simp only [Prod.mk.injEq, true_and]
  omega

theorem braceScan_of_neverClosed (s : Str) (o : Nat) (h : NeverClosed s o) :
    0 < (braceScan 1 (o + 1) (s.drop (o + 1))).1 := by
  apply braceScan_open _ 1 (o + 1) (by decide)
  intro n hn
  simp only [List.length_drop] at hn
  have hj := h (o + 1 + n) (by omega) (by omega)
  have e2 : o + 1 + n - o = n + 1 := by omega
  unfold nesting at hj
  rw [e2] at hj
  exact hj

/-! ### InstrumentationEngine -/

namespace InstrumentationEngine

theorem insertCode_of_le (E : InstrumentationEngine) (code : Str) (position : Nat)
    (hs : E.m_sourceCode ≠ []) (hp : position ≤ E.m_sourceCode.length) :
    E.insertCode code position =
      (true, { E with
        m_instrumentedCode :=
          E.m_sourceCode.take position ++ code ++ E.m_sourceCode.drop position }) := by
  have he : E.m_sourceCode.isEmpty = false := by
    cases h : E.m_sourceCode with
    | nil => exact absurd h hs
    | cons c cs => rfl
  have hnot : ¬ position > E.m_sourceCode.length := by omega
  simp only [insertCode, he, Bool.false_eq_true, if_false, hnot]

/-- C19 (amended): for every non-empty stored source buffer `s`, every text
`t` and every position `p`: if `p > length(s)` the call fails and changes
nothing; otherwise it succeeds, the instrumented buffer is
`s[0..p) ++ t ++ s[p..)` and the stored source buffer is still `s`. On the
empty source buffer the call fails for every position and changes nothing. -/
theorem insertCode_spec (E : InstrumentationEngine) (t : Str) (p : Nat) :
    (E.m_sourceCode ≠ [] → p ≤ E.m_sourceCode.length →
      (E.insertCode t p).1 = true ∧
      (E.insertCode t p).2.m_instrumentedCode =
        E.m_sourceCode.take p ++ t ++ E.m_sourceCode.drop p ∧
      (E.insertCode t p).2.m_sourceCode = E.m_sourceCode) ∧
    (p > E.m_sourceCode.length → E.insertCode t p = (false, E)) ∧
    (E.m_sourceCode = [] → E.insertCode t p = (false, E)) := by
  refine ⟨?_, ?_, ?_⟩
  · intro hs hp
    rw [insertCode_of_le E t p hs hp]
    exact ⟨rfl, rfl, rfl⟩
  · intro hp
    by_cases he : E.m_sourceCode.isEmpty = true
    · simp [insertCode, he]
    · simp [insertCode, he, hp]
  · intro hs
    simp [insertCode, hs]

/-- C19 (as stated, refuted): on the empty source buffer, position 0 does not
exceed the length, yet `insertCode` fails and the instrumented buffer is not
the inserted text. -/
theorem insertCode_empty_source_fails :
    ¬ (0 > ({} : InstrumentationEngine).m_sourceCode.length) ∧
    (({} : InstrumentationEngine).insertCode (ascii "x") 0).1 = false ∧
    (({} : InstrumentationEngine).insertCode (ascii "x") 0).2.m_instrumentedCode ≠
      ([] : Str).take 0 ++ ascii "x" ++ ([] : Str).drop 0 := by
  decide

/-- C20: let `p` be the first occurrence of the name followed by `(` and `o`
the first `{` at or after `p`. If the brace opened at `o` is closed at `q`,
`insertAtFunctionEnd` succeeds and the instrumented buffer is
`s[0..q) ++ c ++ s[q..)`; if the name does not occur, or no `{` follows it, or
the nesting never returns to zero, the call fails and changes nothing. -/
theorem insertAtFunctionEnd_spec (E : InstrumentationEngine) (f c : Str) :
    (∀ p o q, FirstOccurrence E.m_sourceCode (f ++ ascii "(") 0 p →
      FirstOccurrence E.m_sourceCode (ascii "\x7b") p o → ClosedAt E.m_sourceCode o q →
      E.insertAtFunctionEnd f c =
        (true, { E with
          m_instrumentedCode := E.m_sourceCode.take q ++ c ++ E.m_sourceCode.drop q })) ∧
    ((∀ j, ¬ OccursAt E.m_sourceCode (f ++ ascii "(") j) →
      E.insertAtFunctionEnd f c = (false, E)) ∧
    (∀ p, FirstOccurrence E.m_sourceCode (f ++ ascii "(") 0 p →
      (∀ j, p ≤ j → ¬ OccursAt E.m_sourceCode (ascii "\x7b") j) →
      E.insertAtFunctionEnd f c = (false, E)) ∧
    (∀ p o, FirstOccurrence E.m_sourceCode (f ++ ascii "(") 0 p →
      FirstOccurrence E.m_sourceCode (ascii "\x7b") p o → NeverClosed E.m_sourceCode o →
      E.insertAtFunctionEnd f c = (false, E)) := by
  refine ⟨?_, ?_, ?_, ?_⟩
  · intro p o q hp ho hq
    have h1 : find E.m_sourceCode (f ++ ascii "(") = some p := by
      rw [← findFrom_zero]; exact findFrom_of_first _ _ _ _ hp
    have h2 := findFrom_of_first _ _ _ _ ho
    have h3 := braceScan_of_closedAt _ _ _ hq
    have hne : E.m_sourceCode ≠ [] := by
      intro h
      have := hq.2.1
      rw [h] at this
      simp at this
    simp only [insertAtFunctionEnd, findFunctionPosition, h1, h2, h3, ne_eq, not_true,
      if_false, Nat.add_sub_cancel]
    exact insertCode_of_le E c q hne (Nat.le_of_lt hq.2.1)
  · intro hno
    cases h1 : find E.m_sourceCode (f ++ ascii "(") with
    | none => simp [insertAtFunctionEnd, findFunctionPosition, h1]
    | some p =>
      rw [← findFrom_zero] at h1
      exact absurd (findFrom_some _ _ _ _ h1).2.1 (hno p)
  · intro p hp hno
    have h1 : find E.m_sourceCode (f ++ ascii "(") = some p := by
      rw [← findFrom_zero]; exact findFrom_of_first _ _ _ _ hp
    cases h2 : findFrom E.m_sourceCode (ascii "\x7b") p with
    | none => simp [insertAtFunctionEnd, findFunctionPosition, h1, h2]
    | some o =>
      have ho := findFrom_some _ _ _ _ h2
      exact absurd ho.2.1 (hno o ho.1)
  · intro p o hp ho hnever
    have h1 : find E.m_sourceCode (f ++ ascii "(") = some p := by
      rw [← findFrom_zero]; exact findFrom_of_first _ _ _ _ hp
    have h2 := findFrom_of_first _ _ _ _ ho
    have h3 := braceScan_of_neverClosed _ _ hnever
    have h4 : (braceScan 1 (o + 1) (List.drop (o + 1) E.m_sourceCode)).1 ≠ 0 := by omega
    simp only [insertAtFunctionEnd, findFunctionPosition, h1, h2, h4, ne_eq, not_false_eq_true,
      if_true]

end InstrumentationEngine

/-! ### Occurrences -/

namespace CodeParser

end CodeParser

/-! ### CodeParser: lookups, complexity and parse -/

namespace CodeParser

/-- C16: `parse` on the empty text returns `false` and leaves the stored
source, the function list, the variable map and the string-literal list as
they were. -/
theorem parse_empty (P : CodeParser) :
    (P.parse []).1 = false ∧
    (P.parse []).2.m_sourceCode = P.m_sourceCode ∧
    (P.parse []).2.m_functions = P.m_functions ∧
    (P.parse []).2.m_variables = P.m_variables ∧
    (P.parse []).2.m_stringLiterals = P.m_stringLiterals ∧
    (P.parse []).2.getVariables = P.getVariables := by
  simp [parse]

theorem parse_of_ne_nil (P : CodeParser) (t : Str) (ht : t ≠ []) :
    P.parse t =
      (true,
       { m_sourceCode := t
         m_functions := (Regex.allMatches Regex.funcPattern t).map (functionOfMatch t)
         m_variables := mapTouch (ascii "global")
           ((Regex.allMatches Regex.varPattern t).foldl
             (fun m mt => mapPush (ascii "global") (mt.2.getD 2 []) m) [])
         m_stringLiterals :=
           (Regex.allMatches Regex.stringPattern t).map (fun mt => mt.2.getD 1 []) }) := by
  have he : t.isEmpty = false := by
    cases t with
    | nil => exact absurd rfl ht
    | cons c cs => rfl
  simp [parse, he, parseFunctions, parseVariables, parseStringLiterals]

/-- C15: for every non-empty text `t` and all prior parser states, `parse(t)`
succeeds and the parser it leaves (source, function list, variable list and
string-literal list) depends on `t` alone; parsing `t` a second time leaves
the same parser as parsing it once. -/
theorem parse_idempotent (P₁ P₂ : CodeParser) (t : Str) (ht : t ≠ []) :
    (P₁.parse t).1 = true ∧
    P₁.parse t = P₂.parse t ∧
    (P₁.parse t).2.m_functions = (P₂.parse t).2.m_functions ∧
    (P₁.parse t).2.getVariables = (P₂.parse t).2.getVariables ∧
    (P₁.parse t).2.getStringLiterals = (P₂.parse t).2.getStringLiterals ∧
    (P₁.parse t).2.parse t = P₁.parse t := by
  rw [parse_of_ne_nil P₁ t ht, parse_of_ne_nil P₂ t ht]
  refine ⟨rfl, rfl, rfl, rfl, rfl, ?_⟩
  rw [parse_of_ne_nil _ t ht]

theorem parse_idempotent_witness :
    Sample.addSource ≠ [] ∧
    ((CodeParser.parse {} Sample.addSource).1 = true ∧
    CodeParser.parse {} Sample.addSource =
      (CodeParser.parse {} (ascii "void g() \x7b\x7d")).2.parse Sample.addSource ∧
    (CodeParser.parse {} Sample.addSource).2.m_functions =
      ((CodeParser.parse {} (ascii "void g() \x7b\x7d")).2.parse Sample.addSource).2.m_functions ∧
    (CodeParser.parse {} Sample.addSource).2.getVariables =
      ((CodeParser.parse {} (ascii "void g() \x7b\x7d")).2.parse Sample.addSource).2.getVariables ∧
    (CodeParser.parse {} Sample.addSource).2.getStringLiterals =
      ((CodeParser.parse {} (ascii "void g() \x7b\x7d")).2.parse
        Sample.addSource).2.getStringLiterals ∧
    (CodeParser.parse {} Sample.addSource).2.parse Sample.addSource =
      CodeParser.parse {} Sample.addSource) :=
  ⟨by decide, parse_idempotent {} (CodeParser.parse {} (ascii "void g() \x7b\x7d")).2
    Sample.addSource (by decide)⟩

end CodeParser

/-! ### The regular-expression matcher -/

namespace Regex

theorem matchStar_sound (p : Byte → Bool) (k : Str → Option (List Str)) : ∀ (s piece : Str)
    (r : List Str), matchStar p k s = some (piece, r) →
    ∃ rest, s = piece ++ rest ∧ k rest = some r ∧ ∀ c ∈ piece, p c = true := by
  intro s
  induction s with
  | nil =>
    intro piece r h
    simp only [matchStar, Option.map_eq_some', Prod.mk.injEq] at h
    obtain ⟨a, ha, h1, h2⟩ := h
    subst h1 h2
    exact ⟨[], rfl, ha, by simp⟩
  | cons c cs ih =>
    intro piece r h
    have hstop : (k (c :: cs)).map (fun r => (([] : Str), r)) = some (piece, r) →
        ∃ rest, c :: cs = piece ++ rest ∧ k rest = some r ∧ ∀ c ∈ piece, p c = true := by
      intro h
      simp only [Option.map_eq_some', Prod.mk.injEq] at h
      obtain ⟨a, ha, h1, h2⟩ := h
      subst h1 h2
      exact ⟨c :: cs, rfl, ha, by simp⟩
    by_cases hp : p c = true
    · simp only [matchStar, hp, if_true] at h
      cases hm : matchStar p k cs with
      | none =>
        rw [hm] at h
        exact hstop h
      | some r' =>
        rw [hm] at h
        simp only [Option.some.injEq, Prod.mk.injEq] at h
        obtain ⟨h1, h2⟩ := h
        obtain ⟨rest, e, hk, hall⟩ := ih r'.1 r'.2 (by rw [hm])
        subst h1 h2
        refine ⟨rest, by rw [e]; rfl, hk, ?_⟩
        intro x hx
        rcases List.mem_cons.mp hx with hx | hx
        · rw [hx]; exact hp
        · exact hall x hx
    · simp only [matchStar, hp, if_false, Bool.false_eq_true] at h
      exact hstop h

theorem matchAlts_sound (k : Str → Option (List Str)) : ∀ (options : List Str) (s o : Str)
    (r : List Str), matchAlts k options s = some (o, r) →
    ∃ rest, s = o ++ rest ∧ k rest = some r ∧ o ∈ options := by
  intro options
  induction options with
  | nil => intro s o r h; simp [matchAlts] at h
  | cons a os ih =>
    intro s o r h
    have hnext : matchAlts k os s = some (o, r) →
        ∃ rest, s = o ++ rest ∧ k rest = some r ∧ o ∈ a :: os := by
      intro h
      obtain ⟨rest, e, hk, hm⟩ := ih s o r h
      exact ⟨rest, e, hk, List.mem_cons_of_mem _ hm⟩
    by_cases hp : a.isPrefixOf s = true
    · simp only [matchAlts, hp, if_true] at h
      cases hk : k (s.drop a.length) with
      | none => rw [hk] at h; exact hnext h
      | some r' =>
        rw [hk] at h
        simp only [Option.some.injEq, Prod.mk.injEq] at h
        obtain ⟨h1, h2⟩ := h
        subst h1 h2
        obtain ⟨t, ht⟩ := List.isPrefixOf_iff_prefix.mp hp
        refine ⟨t, ht.symm, ?_, List.mem_cons_self _ _⟩
        rw [← ht, List.drop_left] at hk
        exact hk
    · simp only [matchAlts, hp, if_false, Bool.false_eq_true] at h
      exact hnext h

theorem matchItems_sound : ∀ (items : List Item) (s : Str) (pieces : List Str),
    matchItems items s = some pieces → ∃ rest, s = pieces.flatten ++ rest := by
  intro items
  induction items with
  | nil =>
    intro s pieces h
    simp only [matchItems, Option.some.injEq] at h
    subst h
    exact ⟨s, rfl⟩
  | cons item items ih =>
    intro s pieces h
    cases item with
    | lit l =>
      by_cases hp : l.isPrefixOf s = true
      · simp only [matchItems, hp, if_true, Option.map_eq_some'] at h
        obtain ⟨r, hr, e⟩ := h
        subst e
        obtain ⟨t, ht⟩ := List.isPrefixOf_iff_prefix.mp hp
        rw [← ht, List.drop_left] at hr
        obtain ⟨rest, e⟩ := ih t r hr
        exact ⟨rest, by rw [← ht, e]; simp⟩
      · simp [matchItems, hp] at h
    | alts options =>
      simp only [matchItems, Option.map_eq_some'] at h
      obtain ⟨r, hr, e⟩ := h
      subst e
      obtain ⟨t, ht, hk, _⟩ := matchAlts_sound _ options s r.1 r.2 hr
      obtain ⟨rest, e⟩ := ih t r.2 hk
      exact ⟨rest, by rw [ht, e]; simp⟩
    | star p =>
      simp only [matchItems, Option.map_eq_some'] at h
      obtain ⟨r, hr, e⟩ := h
      subst e
      obtain ⟨t, ht, hk, _⟩ := matchStar_sound p _ s r.1 r.2 hr
      obtain ⟨rest, e⟩ := ih t r.2 hk
      exact ⟨rest, by rw [ht, e]; simp⟩
    | plus p =>
      cases s with
      | nil => simp [matchItems] at h
      | cons c cs =>
        by_cases hp : p c = true
        · simp only [matchItems, hp, if_true, Option.map_eq_some'] at h
          obtain ⟨r, hr, e⟩ := h
          subst e
          obtain ⟨t, ht, hk, _⟩ := matchStar_sound p _ cs r.1 r.2 hr
          obtain ⟨rest, e⟩ := ih t r.2 hk
          exact ⟨rest, by rw [ht, e]; simp⟩
        · simp [matchItems, hp] at h

theorem matchStar_greedy (p : Byte → Bool) (k : Str → Option (List Str)) (rest : Str)
    (r : List Str) (hrest : ∀ c, rest.head? = some c → p c = false) (hk : k rest = some r) :
    ∀ run : Str, (∀ c ∈ run, p c = true) → matchStar p k (run ++ rest) = some (run, r) := by
  intro run
  induction run with
  | nil =>
    intro _
    cases rest with
    | nil => simp [matchStar, hk]
    | cons c cs =>
      have hc := hrest c rfl
      simp [matchStar, hc, hk]
  | cons a run ih =>
    intro hall
    have ha : p a = true := hall a (List.mem_cons_self _ _)
    have hrec : matchStar p k (List.append run rest) = some (run, r) :=
      ih (fun c hc => hall c (List.mem_cons_of_mem _ hc))
    simp only [List.cons_append, matchStar, ha, if_true, hrec]

theorem matchItems_star (p : Byte → Bool) (items : List Item) (run rest : Str) (r : List Str)
    (hall : ∀ c ∈ run, p c = true) (hrest : ∀ c, rest.head? = some c → p c = false)
    (hk : matchItems items rest = some r) :
    matchItems (.star p :: items) (run ++ rest) = some (run :: r) := by
  simp only [matchItems, matchStar_greedy p _ rest r hrest hk run hall, Option.map_some']

theorem matchItems_plus (p : Byte → Bool) (items : List Item) (run rest : Str) (r : List Str)
    (hne : run ≠ []) (hall : ∀ c ∈ run, p c = true)
    (hrest : ∀ c, rest.head? = some c → p c = false) (hk : matchItems items rest = some r) :
    matchItems (.plus p :: items) (run ++ rest) = some (run :: r) := by
  cases run with
  | nil => exact absurd rfl hne
  | cons a run =>
    have ha : p a = true := hall a (List.mem_cons_self _ _)
    have hrec : matchStar p (matchItems items) (run ++ rest) = some (run, r) :=
      matchStar_greedy p (matchItems items) rest r hrest hk run
        (fun c hc => hall c (List.mem_cons_of_mem _ hc))
    simp only [List.cons_append, matchItems, ha, if_true, hrec, Option.map_some']

theorem matchItems_lit (l : Str) (items : List Item) (rest : Str) (r : List Str)
    (hk : matchItems items rest = some r) :
    matchItems (.lit l :: items) (l ++ rest) = some (l :: r) := by
  have hp : l.isPrefixOf (l ++ rest) = true :=
    List.isPrefixOf_iff_prefix.mpr (List.prefix_append l rest)
  simp only [matchItems, hp, if_true, List.drop_left, hk, Option.map_some']

theorem searchAt_sound (items : List Item) : ∀ (s : Str) (i pos : Nat) (pieces : List Str),
    searchAt items s i = some (pos, pieces) →
    i ≤ pos ∧ pos - i ≤ s.length ∧ matchItems items (s.drop (pos - i)) = some pieces := by
  intro s
  induction s with
  | nil =>
    intro i pos pieces h
    simp only [searchAt, Option.map_eq_some', Prod.mk.injEq] at h
    obtain ⟨r, hr, h1, h2⟩ := h
    subst h1 h2
    simp [hr]
  | cons c cs ih =>
    intro i pos pieces h
    cases hm : matchItems items (c :: cs) with
    | some r =>
      simp only [searchAt, hm, Option.some.injEq, Prod.mk.injEq] at h
      obtain ⟨h1, h2⟩ := h
      subst h1 h2
      simp [hm]
    | none =>
      simp only [searchAt, hm] at h
      obtain ⟨h1, h2, h3⟩ := ih (i + 1) pos pieces h
      have e : pos - i = (pos - (i + 1)) + 1 := by omega
      refine ⟨by omega, by simp only [List.length_cons]; omega, ?_⟩
      rw [e, List.drop_succ_cons]
      exact h3

theorem regex_search_bounds (items : List Item) (s : Str) (pos : Nat) (pieces : List Str)
    (h : regex_search items s = some (pos, pieces)) : pos + matchLength pieces ≤ s.length := by
  obtain ⟨_, h2, h3⟩ := searchAt_sound items s 0 pos pieces h
  obtain ⟨rest, e⟩ := matchItems_sound items _ pieces h3
  have hl := congrArg List.length e
  simp only [Nat.sub_zero, List.length_drop, List.length_append] at hl h2
  unfold matchLength
  omega

theorem searchLoop_fuel (items : List Item) (hc : Consuming items) : ∀ (fuel : Nat) (s : Str),
    s.length + 1 ≤ fuel → searchLoop items fuel s = searchLoop items (s.length + 1) s := by
  intro fuel
  induction fuel using Nat.strong_induction_on with
  | _ fuel ih =>
    intro s hs
    cases fuel with
    | zero => omega
    | succ fuel =>
      cases hm : regex_search items s with
      | none => simp [searchLoop, hm]
      | some m =>
        have hb := regex_search_bounds items s m.1 m.2 hm
        obtain ⟨_, _, h3⟩ := searchAt_sound items s 0 m.1 m.2 hm
        have h1 := hc _ _ h3
        have hlen : (s.drop (m.1 + matchLength m.2)).length + 1 ≤ s.length := by
          simp only [List.length_drop]; omega
        simp only [searchLoop, hm]
        rw [ih fuel (Nat.lt_succ_self _) _ (by omega)]
        by_cases hf : s.length = fuel
        · rw [hf]; rw [ih fuel (Nat.lt_succ_self _) _ (by omega)]
        · rw [ih s.length (by omega) _ hlen]

theorem funcPattern_consuming : Consuming funcPattern := by
  intro s pieces h
  cases s with
  | nil => simp [funcPattern, matchItems] at h
  | cons c cs =>
    by_cases hp : isWord c = true
    · simp only [funcPattern, matchItems, hp, if_true, Option.map_eq_some'] at h
      obtain ⟨r, _, e⟩ := h
      subst e
      simp [matchLength]
    · simp [funcPattern, matchItems, hp] at h

theorem stringPattern_consuming : Consuming stringPattern := by
  intro s pieces h
  by_cases hp : ([34] : Str).isPrefixOf s = true
  · simp only [stringPattern, matchItems, hp, if_true, Option.map_eq_some'] at h
    obtain ⟨r, _, e⟩ := h
    subst e
    simp [matchLength]
  · simp [stringPattern, matchItems, hp] at h

theorem varPattern_consuming : Consuming varPattern := by
  intro s pieces h
  simp only [varPattern, matchItems, Option.map_eq_some'] at h
  obtain ⟨r, hr, e⟩ := h
  subst e
  obtain ⟨t, _, hk, _⟩ := matchAlts_sound _ _ s r.1 r.2 hr
  cases t with
  | nil => simp at hk
  | cons c cs =>
    by_cases hp : isSpace c = true
    · simp only [hp, if_true, Option.map_eq_some'] at hk
      obtain ⟨r', _, e'⟩ := hk
      simp only [matchLength, List.flatten_cons, List.length_append, ← e', List.length_cons]
      omega
    · simp [hp] at hk

end Regex

/-! ### CodeParser: function headers and bodies -/

namespace Regex

theorem isWord_of_isSpace (c : Byte) (h : isSpace c = true) : isWord c = false := by
  simp only [isSpace, isWord, Bool.or_eq_true, Bool.and_eq_true, beq_iff_eq,
    decide_eq_true_eq, Bool.or_eq_false_iff, Bool.and_eq_false_imp, beq_eq_false_iff_ne,
    ne_eq, decide_eq_false_iff_not] at h ⊢
  omega

theorem isSpace_of_isWord (c : Byte) (h : isWord c = true) : isSpace c = false := by
  simp only [isSpace, isWord, Bool.or_eq_true, Bool.and_eq_true, beq_iff_eq,
    decide_eq_true_eq, Bool.or_eq_false_iff, Bool.and_eq_false_imp, beq_eq_false_iff_ne,
    ne_eq, decide_eq_false_iff_not] at h ⊢
  omega

theorem head?_append_cons (a : Str) (x : Byte) (b : Str) (c : Byte)
    (h : (a ++ x :: b).head? = some c) : (∃ t, a = c :: t) ∨ (a = [] ∧ c = x) := by
  cases a with
  | nil => right; simp at h; exact ⟨rfl, h.symm⟩
  | cons y t => left; simp at h; exact ⟨t, by rw [h]⟩

theorem funcPattern_header (rt sp1 name sp2 params sp3 tail : Str)
    (hrt : rt ≠ []) (hrtw : ∀ c ∈ rt, isWord c = true)
    (hsp1 : sp1 ≠ []) (hsp1s : ∀ c ∈ sp1, isSpace c = true)
    (hname : name ≠ []) (hnamew : ∀ c ∈ name, isWord c = true)
    (hsp2 : ∀ c ∈ sp2, isSpace c = true) (hparams : ∀ c ∈ params, c ≠ 41)
    (hsp3 : ∀ c ∈ sp3, isSpace c = true) :
    matchItems funcPattern
      (rt ++ (sp1 ++ (name ++ (sp2 ++ ([40] ++ (params ++ ([41] ++ (sp3 ++ ([123] ++ tail)))))))))
      = some [rt, sp1, name, sp2, [40], params, [41], sp3, [123]] := by
  have e40 : ascii "(" = [40] := by decide
  have e41 : ascii ")" = [41] := by decide
  have e123 : ascii "\x7b" = [123] := by decide
  unfold funcPattern
  rw [e40, e41, e123]
  apply matchItems_plus isWord _ rt _ _ hrt hrtw
  · intro c hc
    cases sp1 with
    | nil => exact absurd rfl hsp1
    | cons y t =>
      simp only [List.cons_append, List.head?_cons, Option.some.injEq] at hc
      subst hc
      exact isWord_of_isSpace _ (hsp1s _ (List.mem_cons_self _ _))
  apply matchItems_plus isSpace _ sp1 _ _ hsp1 hsp1s
  · intro c hc
    cases name with
    | nil => exact absurd rfl hname
    | cons y t =>
      simp only [List.cons_append, List.head?_cons, Option.some.injEq] at hc
      subst hc
      exact isSpace_of_isWord _ (hnamew _ (List.mem_cons_self _ _))
  apply matchItems_plus isWord _ name _ _ hname hnamew
  · intro c hc
    rcases head?_append_cons sp2 40 _ c hc with ⟨t, ht⟩ | ⟨_, hx⟩
    · exact isWord_of_isSpace _ (hsp2 _ (by rw [ht]; exact List.mem_cons_self _ _))
    · subst hx; decide
  apply matchItems_star isSpace _ sp2 _ _ hsp2
  · intro c hc
    simp only [List.singleton_append, List.head?_cons, Option.some.injEq] at hc
    subst hc; decide
  apply matchItems_lit
  apply matchItems_star _ _ params _ _ (fun c hc => by simpa using hparams c hc)
  · intro c hc
    simp only [List.singleton_append, List.head?_cons, Option.some.injEq] at hc
    subst hc; decide
  apply matchItems_lit
  apply matchItems_star isSpace _ sp3 _ _ hsp3
  · intro c hc
    simp only [List.singleton_append, List.head?_cons, Option.some.injEq] at hc
    subst hc; decide
  apply matchItems_lit
  rfl

theorem regex_search_of_match (items : List Item) (s : Str) (pieces : List Str) (hs : s ≠ [])
    (h : matchItems items s = some pieces) : regex_search items s = some (0, pieces) := by
  cases s with
  | nil => exact absurd rfl hs
  | cons c cs => simp [regex_search, searchAt, h]

theorem allMatches_single (items : List Item) (s : Str) (m : Nat × List Str)
    (h1 : regex_search items s = some m)
    (h2 : regex_search items (s.drop (m.1 + matchLength m.2)) = none) :
    allMatches items s = [m] := by
  have hs : s ≠ [] → ∃ n, s.length = n + 1 := by
    intro hne
    cases s with
    | nil => exact absurd rfl hne
    | cons c cs => exact ⟨cs.length, rfl⟩
  by_cases hne : s = []
  · subst hne
    simp only [List.drop_nil] at h2
    rw [h2] at h1
    exact Option.noConfusion h1
  · obtain ⟨n, hn⟩ := hs hne
    simp only [allMatches, hn, searchLoop, h1, h2]

theorem allMatches_cons (items : List Item) (s : Str) (m : Nat × List Str)
    (h1 : regex_search items s = some m) :
    ∃ rest, allMatches items s = m :: rest := by
  simp only [allMatches, searchLoop, h1]
  exact ⟨_, rfl⟩

end Regex

namespace CodeParser

theorem extractFunctionBody_balanced (header body tail : Str) (hbal : Balanced body) :
    extractFunctionBody (header ++ (body ++ 125 :: tail)) header.length = body := by
  have hdrop : (header ++ (body ++ 125 :: tail)).drop header.length = body ++ 125 :: tail :=
    List.drop_left _ _
  have hnet : netBraces body = 0 := by
    unfold netBraces
    rw [hbal.2]
    omega
  have hscan : braceScan 1 header.length (body ++ 125 :: tail) =
      (0, header.length + body.length + 1) := by
    apply braceScan_closed _ 1 header.length body.length (by decide) (by simp)
    · have e : (body ++ 125 :: tail).take (body.length + 1) = body ++ [125] := by
        rw [List.take_append_eq_append_take]
        simp
      rw [e, netBraces_append, hnet, netBraces_cons, netBraces_nil]
      decide
    · intro n hn
      have e : (body ++ 125 :: tail).take (n + 1) = body.take (n + 1) :=
        List.take_append_of_le_length (by omega)
      have hb := hbal.1 (n + 1) (by omega)
      rw [e]
      unfold netBraces
      omega
  have e : header.length + body.length + 1 - header.length - 1 = body.length := by omega
  unfold extractFunctionBody
  rw [hdrop, hscan]
  simp only [ne_eq, not_true_eq_false, if_false, e]
  exact List.take_left _ _

/-- C13 (amended): for every buffer that consists of exactly one well-formed
function definition (header `returnType name(params) {`, a body with balanced
braces, the closing `}`) and in which the text after the header has no
further match of the header pattern, `parse` succeeds and records exactly one
`FunctionInfo`; its body is the body of the definition and contains as many
`{` as `}`. -/
theorem parse_single_function (P : CodeParser) (rt sp1 name sp2 params sp3 body : Str)
    (hrt : rt ≠ []) (hrtw : ∀ c ∈ rt, Regex.isWord c = true)
    (hsp1 : sp1 ≠ []) (hsp1s : ∀ c ∈ sp1, Regex.isSpace c = true)
    (hname : name ≠ []) (hnamew : ∀ c ∈ name, Regex.isWord c = true)
    (hsp2 : ∀ c ∈ sp2, Regex.isSpace c = true) (hparams : ∀ c ∈ params, c ≠ 41)
    (hsp3 : ∀ c ∈ sp3, Regex.isSpace c = true) (hbal : Balanced body)
    (hno : Regex.regex_search Regex.funcPattern (body ++ ascii "\x7d") = none) :
    (P.parse (rt ++ sp1 ++ name ++ sp2 ++ ascii "(" ++ params ++ ascii ")" ++ sp3 ++
      ascii "\x7b" ++ body ++ ascii "\x7d")).1 = true ∧
    (P.parse (rt ++ sp1 ++ name ++ sp2 ++ ascii "(" ++ params ++ ascii ")" ++ sp3 ++
      ascii "\x7b" ++ body ++ ascii "\x7d")).2.m_functions =
      [{ name := name
         returnType := rt
         parameters := parseParameters params
         body := body
         startPos := (rt ++ sp1 ++ name ++ sp2 ++ ascii "(" ++ params ++ ascii ")" ++ sp3 ++
           ascii "\x7b").length
         endPos := (rt ++ sp1 ++ name ++ sp2 ++ ascii "(" ++ params ++ ascii ")" ++ sp3 ++
           ascii "\x7b").length + body.length
         complexity := none }] ∧
    body.count 123 = body.count 125 := by
  have e40 : ascii "(" = [40] := by decide
  have e41 : ascii ")" = [41] := by decide
  have e123 : ascii "\x7b" = [123] := by decide
  have e125 : ascii "\x7d" = [125] := by decide
  rw [e125] at hno
  have hhdr : rt ++ sp1 ++ name ++ sp2 ++ [40] ++ params ++ [41] ++ sp3 ++ [123]
      = [rt, sp1, name, sp2, [40], params, [41], sp3, [123]].flatten := by
    simp [List.append_assoc]
  have hm := Regex.funcPattern_header rt sp1 name sp2 params sp3 (body ++ [125]) hrt hrtw hsp1
    hsp1s hname hnamew hsp2 hparams hsp3
  have hnest : rt ++ (sp1 ++ (name ++ (sp2 ++ ([40] ++ (params ++ ([41] ++ (sp3 ++
      ([123] ++ (body ++ [125])))))))))
      = [rt, sp1, name, sp2, [40], params, [41], sp3, [123]].flatten ++ (body ++ [125]) := by
    simp [List.append_assoc]
  rw [hnest] at hm
  rw [e40, e41, e123, e125, hhdr, List.append_assoc]
  generalize hp : [rt, sp1, name, sp2, [40], params, [41], sp3, [123]] = pieces at hm ⊢
  have hne : pieces.flatten ++ (body ++ [125]) ≠ [] := by simp
  have hs := Regex.regex_search_of_match _ _ _ hne hm
  have hall := Regex.allMatches_single _ _ _ hs (by
    simp only [Regex.matchLength, Nat.zero_add]
    rw [List.drop_left]
    exact hno)
  rw [parse_of_ne_nil P _ hne]
  refine ⟨rfl, ?_, hbal.2⟩
  simp only [hall, List.map_cons, List.map_nil, functionOfMatch, Regex.matchLength, Nat.zero_add,
    extractFunctionBody_balanced pieces.flatten body [] hbal]
  subst hp
  rfl

end CodeParser

namespace CodeParser

set_option maxRecDepth 100000 in
theorem parse_single_function_witness :
    ascii "int" ≠ [] ∧ (∀ c ∈ ascii "int", Regex.isWord c = true) ∧
    ascii " " ≠ [] ∧ (∀ c ∈ ascii " ", Regex.isSpace c = true) ∧
    ascii "add" ≠ [] ∧ (∀ c ∈ ascii "add", Regex.isWord c = true) ∧
    (∀ c ∈ ([] : Str), Regex.isSpace c = true) ∧ (∀ c ∈ ascii "int a, int b", c ≠ 41) ∧
    (∀ c ∈ ascii " ", Regex.isSpace c = true) ∧ Balanced (ascii " return a + b; ") ∧
    Regex.regex_search Regex.funcPattern (ascii " return a + b; " ++ ascii "\x7d") = none ∧
    ((CodeParser.parse {} (ascii "int" ++ ascii " " ++ ascii "add" ++ [] ++ ascii "(" ++
      ascii "int a, int b" ++ ascii ")" ++ ascii " " ++ ascii "\x7b" ++ ascii " return a + b; " ++
      ascii "\x7d")).1 = true ∧
    (CodeParser.parse {} (ascii "int" ++ ascii " " ++ ascii "add" ++ [] ++ ascii "(" ++
      ascii "int a, int b" ++ ascii ")" ++ ascii " " ++ ascii "\x7b" ++ ascii " return a + b; " ++
      ascii "\x7d")).2.m_functions =
      [{ name := ascii "add"
         returnType := ascii "int"
         parameters := parseParameters (ascii "int a, int b")
         body := ascii " return a + b; "
         startPos := (ascii "int" ++ ascii " " ++ ascii "add" ++ [] ++ ascii "(" ++
           ascii "int a, int b" ++ ascii ")" ++ ascii " " ++ ascii "\x7b").length
         endPos := (ascii "int" ++ ascii " " ++ ascii "add" ++ [] ++ ascii "(" ++
           ascii "int a, int b" ++ ascii ")" ++ ascii " " ++ ascii "\x7b").length +
           (ascii " return a + b; ").length
         complexity := none }] ∧
    (ascii " return a + b; ").count 123 = (ascii " return a + b; ").count 125) :=
  ⟨by decide, by decide, by decide, by decide, by decide, by decide, by decide, by decide,
    by decide, by decide, by decide,
    parse_single_function {} (ascii "int") (ascii " ") (ascii "add") [] (ascii "int a, int b")
      (ascii " ") (ascii " return a + b; ") (by decide) (by decide) (by decide) (by decide)
      (by decide) (by decide) (by decide) (by decide) (by decide) (by decide) (by decide)⟩

set_option maxRecDepth 100000 in
/-- C13 (as stated, refuted): the buffer
`int f() { if (a) { } else if (b) { } }` is one well-formed function definition
with a balanced body, yet `parse` records two `FunctionInfo`s, the second one
named `if`. -/
theorem parse_else_if_records_two :
    Balanced (ascii " if (a) \x7b \x7d else if (b) \x7b \x7d ") ∧
    ascii "int f() \x7b if (a) \x7b \x7d else if (b) \x7b \x7d \x7d" =
      ascii "int" ++ ascii " " ++ ascii "f" ++ [] ++ ascii "(" ++ [] ++ ascii ")" ++ ascii " " ++
        ascii "\x7b" ++ ascii " if (a) \x7b \x7d else if (b) \x7b \x7d " ++ ascii "\x7d" ∧
    ((CodeParser.parse {}
      (ascii "int f() \x7b if (a) \x7b \x7d else if (b) \x7b \x7d \x7d")).2.m_functions.map
        (fun func => func.name)) = [ascii "f", ascii "if"] := by
  decide

/-- C14 (amended): when the opening brace of the first function header that
the search finds is never closed before the end of the text, the body
extraction yields the empty text, and `parse` still returns `true` and records
a `FunctionInfo` for that header, with an empty body and `endPos` equal to
`startPos`. -/
theorem parse_unclosed_first_header (P : CodeParser) (src : Str) (position : Nat)
    (pieces : List Str)
    (hm : Regex.regex_search Regex.funcPattern src = some (position, pieces))
    (hopen : NeverClosed src (position + Regex.matchLength pieces - 1)) :
    (P.parse src).1 = true ∧
    extractFunctionBody src (position + Regex.matchLength pieces) = [] ∧
    ∃ rest, (P.parse src).2.m_functions =
      { name := pieces.getD 2 []
        returnType := pieces.getD 0 []
        parameters := parseParameters (pieces.getD 5 [])
        body := []
        startPos := position + Regex.matchLength pieces
        endPos := position + Regex.matchLength pieces
        complexity := none } :: rest := by
  have hnil : Regex.regex_search Regex.funcPattern [] = none := by decide
  have hne : src ≠ [] := by
    intro h
    subst h
    rw [hnil] at hm
    exact Option.noConfusion hm
  obtain ⟨_, _, h3⟩ := Regex.searchAt_sound _ src 0 position pieces hm
  have hlen := Regex.funcPattern_consuming _ _ h3
  have hscan := braceScan_of_neverClosed src _ hopen
  have e : position + Regex.matchLength pieces - 1 + 1 = position + Regex.matchLength pieces := by
    omega
  rw [e] at hscan
  have hbody : extractFunctionBody src (position + Regex.matchLength pieces) = [] := by
    have hnz : (braceScan 1 (position + Regex.matchLength pieces)
        (src.drop (position + Regex.matchLength pieces))).1 ≠ 0 := by omega
    simp only [extractFunctionBody, hnz, ne_eq, not_false_eq_true, if_true]
  obtain ⟨rest, hall⟩ := Regex.allMatches_cons _ _ _ hm
  rw [parse_of_ne_nil P _ hne]
  refine ⟨rfl, hbody, rest.map (functionOfMatch src), ?_⟩
  simp only [hall, List.map_cons, functionOfMatch, hbody, List.length_nil, Nat.add_zero]

set_option maxRecDepth 100000 in
theorem parse_unclosed_first_header_witness :
    Regex.regex_search Regex.funcPattern (ascii "int f() \x7b x") =
      some (0, [ascii "int", ascii " ", ascii "f", [], ascii "(", [], ascii ")", ascii " ",
        ascii "\x7b"]) ∧
    NeverClosed (ascii "int f() \x7b x")
      (0 + Regex.matchLength [ascii "int", ascii " ", ascii "f", [], ascii "(", [], ascii ")",
        ascii " ", ascii "\x7b"] - 1) ∧
    ((CodeParser.parse {} (ascii "int f() \x7b x")).1 = true ∧
    extractFunctionBody (ascii "int f() \x7b x")
      (0 + Regex.matchLength [ascii "int", ascii " ", ascii "f", [], ascii "(", [], ascii ")",
        ascii " ", ascii "\x7b"]) = [] ∧
    ∃ rest, (CodeParser.parse {} (ascii "int f() \x7b x")).2.m_functions =
      { name := [ascii "int", ascii " ", ascii "f", [], ascii "(", [], ascii ")", ascii " ",
          ascii "\x7b"].getD 2 []
        returnType := [ascii "int", ascii " ", ascii "f", [], ascii "(", [], ascii ")", ascii " ",
          ascii "\x7b"].getD 0 []
        parameters := parseParameters ([ascii "int", ascii " ", ascii "f", [], ascii "(", [],
          ascii ")", ascii " ", ascii "\x7b"].getD 5 [])
        body := []
        startPos := 0 + Regex.matchLength [ascii "int", ascii " ", ascii "f", [], ascii "(", [],
          ascii ")", ascii " ", ascii "\x7b"]
        endPos := 0 + Regex.matchLength [ascii "int", ascii " ", ascii "f", [], ascii "(", [],
          ascii ")", ascii " ", ascii "\x7b"]
        complexity := none } :: rest) :=
  ⟨by decide, by decide,
    parse_unclosed_first_header {} (ascii "int f() \x7b x") 0
      [ascii "int", ascii " ", ascii "f", [], ascii "(", [], ascii ")", ascii " ", ascii "\x7b"]
      (by decide) (by decide)⟩

set_option maxRecDepth 100000 in
/-- C14 (as stated, refuted): in `int f() { x` the brace of the matched header
is never closed, yet `parse` returns `true` and records a `FunctionInfo` named
`f`, with an empty body. -/
theorem parse_unclosed_returns_true :
    NeverClosed (ascii "int f() \x7b x") 8 ∧
    (CodeParser.parse {} (ascii "int f() \x7b x")).1 = true ∧
    (CodeParser.parse {} (ascii "int f() \x7b x")).2.m_functions =
      [{ name := ascii "f", returnType := ascii "int", parameters := [], body := [],
         startPos := 9, endPos := 9, complexity := none }] := by
  refine ⟨by decide, by decide, by decide⟩

end CodeParser

/-! ### Evaluations on sample texts -/

set_option maxRecDepth 100000 in
theorem insertAtFunctionEnd_sample :
    ClosedAt (ascii "void f() \x7b if (x) \x7b y; \x7d \x7d") 9 25 ∧
    findFrom (ascii "void f() \x7b if (x) \x7b y; \x7d \x7d") (ascii "f(") 0 = some 5 ∧
    findFrom (ascii "void f() \x7b if (x) \x7b y; \x7d \x7d") (ascii "\x7b") 5 = some 9 ∧
    (InstrumentationEngine.insertAtFunctionEnd
      { m_sourceCode := ascii "void f() \x7b if (x) \x7b y; \x7d \x7d" } (ascii "f")
      (ascii "Z")) =
      (true, { m_sourceCode := ascii "void f() \x7b if (x) \x7b y; \x7d \x7d"
               m_instrumentedCode := ascii "void f() \x7b if (x) \x7b y; \x7d Z\x7d" }) := by
  decide

set_option maxRecDepth 100000 in
theorem calculateCyclomaticComplexity_sample :
    (CodeParser.calculateCyclomaticComplexity
      (CodeParser.parse {} (ascii "int f() \x7b if (a && b) \x7b for (;;) \x7b \x7d \x7d \x7d")).2
      (ascii "f")).1 = 4 ∧
    (CodeParser.calculateCyclomaticComplexity
      (CodeParser.parse {} (ascii "int f() \x7b return 1; \x7d")).2 (ascii "f")).1 = 1 ∧
    (CodeParser.calculateCyclomaticComplexity
      (CodeParser.parse {} (ascii "int f() \x7b return 1; \x7d")).2 (ascii "g")).1 = 0 ∧
    occurrences (ascii "&&") (ascii "a &&& b &&&& c") = 3 := by
  decide

set_option maxRecDepth 100000 in
theorem outputs_sample :
    RandomGenerator.outputs lcgLibrary
      (RandomGenerator.setSeed lcgLibrary 5 (RandomGenerator.create lcgLibrary 0))
      [.randomInt 6 1, .randomDouble, .randomChoice [], .randomBool (1 / 2),
       .randomHexString 2, .shuffle [ascii "a", ascii "b", ascii "c"], .randomBytes 2,
       .randomChoice [ascii "x", ascii "y"]] =
      [.int 3, .real (554244747 / 2147483648),
       .thrown (.invalidArgument "Cannot choose from empty vector"), .bool true,
       .string (ascii "16"), .strings [ascii "a", ascii "b", ascii "c"], .bytes [20, 189],
       .choice (some (ascii "x"))] := by
  decide!

/-- With a distribution object that keeps a value back, the replay of a seed
would depend on what the object did before: of two objects seeded with 5, the
one that has drawn once before hands out the value it saved then. -/
theorem outputs_caching_sample :
    ¬ cachingLibrary.RealStateless ∧
    RandomGenerator.outputs cachingLibrary
      (RandomGenerator.setSeed cachingLibrary 5 (RandomGenerator.create cachingLibrary 0))
      [.randomDouble] = [.real (611310637 / 1073741824)] ∧
    RandomGenerator.outputs cachingLibrary
      (RandomGenerator.setSeed cachingLibrary 5
        (RandomGenerator.after cachingLibrary (RandomGenerator.create cachingLibrary 0)
          [.draw .randomDouble]))
      [.randomDouble] = [.real (12345 / 4294967296)] := by
  refine ⟨?_, by decide!, by decide!⟩
  intro h
  have h0 := h 0
  simp [cachingLibrary] at h0

/-! ### Independence of insertion calls -/

namespace InstrumentationEngine

theorem insertCode_frame (E₁ E₂ : InstrumentationEngine) (code : Str) (position : Nat)
    (h : E₁.m_sourceCode = E₂.m_sourceCode) :
    (E₁.insertCode code position).1 = (E₂.insertCode code position).1 ∧
    ((E₁.insertCode code position).1 = true →
      (E₁.insertCode code position).2.m_instrumentedCode =
        (E₂.insertCode code position).2.m_instrumentedCode ∧
      position ≤ E₂.m_sourceCode.length ∧
      (E₂.insertCode code position).2.m_instrumentedCode =
        E₂.m_sourceCode.take position ++ code ++ E₂.m_sourceCode.drop position) ∧
    (E₁.insertCode code position).2.m_sourceCode = E₁.m_sourceCode := by
  unfold insertCode
  rw [h]
  by_cases he : E₂.m_sourceCode.isEmpty = true
  · simp [he, h]
  · by_cases hp : position > E₂.m_sourceCode.length
    · simp [he, hp, h]
    · simp only [he, hp, if_false, Bool.false_eq_true, true_and, implies_true, and_true, h]
      intro _
      omega

theorem perform_frame (E₁ E₂ : InstrumentationEngine) (op : Insertion)
    (h : E₁.m_sourceCode = E₂.m_sourceCode) :
    (E₁.perform op).1 = (E₂.perform op).1 ∧
    ((E₁.perform op).1 = true →
      (E₁.perform op).2.m_instrumentedCode = (E₂.perform op).2.m_instrumentedCode ∧
      ∃ p, p ≤ E₂.m_sourceCode.length ∧
        (E₂.perform op).2.m_instrumentedCode =
          E₂.m_sourceCode.take p ++ op.code ++ E₂.m_sourceCode.drop p) ∧
    (E₁.perform op).2.m_sourceCode = E₂.m_sourceCode := by
  have key : ∀ (code : Str) (position : Nat),
      (E₁.insertCode code position).1 = (E₂.insertCode code position).1 ∧
      ((E₁.insertCode code position).1 = true →
        (E₁.insertCode code position).2.m_instrumentedCode =
          (E₂.insertCode code position).2.m_instrumentedCode ∧
        ∃ p, p ≤ E₂.m_sourceCode.length ∧
          (E₂.insertCode code position).2.m_instrumentedCode =
            E₂.m_sourceCode.take p ++ code ++ E₂.m_sourceCode.drop p) ∧
      (E₁.insertCode code position).2.m_sourceCode = E₂.m_sourceCode := by
    intro code position
    obtain ⟨h1, h2, h3⟩ := insertCode_frame E₁ E₂ code position h
    exact ⟨h1, fun hs => ⟨(h2 hs).1, position, (h2 hs).2.1, (h2 hs).2.2⟩, by rw [h3, h]⟩
  cases op with
  | insertCode code position => exact key code position
  | insertAtBlockEntry blockName code =>
    simp only [perform, insertAtBlockEntry, findBlockPosition, Insertion.code, h]
    cases find E₂.m_sourceCode blockName with
    | none => simp [h]
    | some pos => exact key code pos
  | insertAtBlockExit blockName code =>
    simp only [perform, insertAtBlockExit, findBlockPosition, Insertion.code, h]
    cases find E₂.m_sourceCode blockName with
    | none => simp [h]
    | some pos =>
      dsimp only
      cases findFrom E₂.m_sourceCode (ascii "\x7d") pos with
      | none => simp [h]
      | some endPos => exact key code endPos
  | insertAtFunctionStart funcName code =>
    simp only [perform, insertAtFunctionStart, findFunctionPosition, Insertion.code, h]
    cases find E₂.m_sourceCode (funcName ++ ascii "(") with
    | none => simp [h]
    | some pos =>
      dsimp only
      cases findFrom E₂.m_sourceCode (ascii "\x7b") pos with
      | none => simp [h]
      | some openBrace => exact key code (openBrace + 1)
  | insertAtFunctionEnd funcName code =>
    simp only [perform, insertAtFunctionEnd, findFunctionPosition, Insertion.code, h]
    cases find E₂.m_sourceCode (funcName ++ ascii "(") with
    | none => simp [h]
    | some pos =>
      dsimp only
      cases findFrom E₂.m_sourceCode (ascii "\x7b") pos with
      | none => simp [h]
      | some openBrace =>
        dsimp only
        by_cases hz : (braceScan 1 (openBrace + 1) (List.drop (openBrace + 1) E₂.m_sourceCode)).1
            ≠ 0
        · simp [hz, h]
        · simp only [hz, if_false]
          exact key code _

/-- C21: for every source buffer and any two successful insertion calls made
one after the other, the instrumented buffer after the second call is the
buffer the second call alone produces from the source: the source with the
second call's text spliced in at one position. The stored source is the same
throughout, so positions are never computed against the first result. -/
theorem insertions_independent (E : InstrumentationEngine) (first second : Insertion)
    (_h1 : (E.perform first).1 = true) (h2 : ((E.perform first).2.perform second).1 = true) :
    (E.perform second).1 = true ∧
    ((E.perform first).2.perform second).2.m_instrumentedCode =
      (E.perform second).2.m_instrumentedCode ∧
    (∃ p, p ≤ E.m_sourceCode.length ∧
      ((E.perform first).2.perform second).2.m_instrumentedCode =
        E.m_sourceCode.take p ++ second.code ++ E.m_sourceCode.drop p) ∧
    ((E.perform first).2.perform second).2.m_sourceCode = E.m_sourceCode := by
  have hsrc : (E.perform first).2.m_sourceCode = E.m_sourceCode :=
    (perform_frame E E first rfl).2.2
  obtain ⟨hstat, hbuf, hkeep⟩ := perform_frame (E.perform first).2 E second hsrc
  obtain ⟨heq, p, hp, hform⟩ := hbuf h2
  exact ⟨by rw [← hstat]; exact h2, heq, ⟨p, hp, by rw [heq]; exact hform⟩, hkeep⟩

set_option maxRecDepth 100000 in
theorem insertions_independent_witness :
    (({ m_sourceCode := ascii "void f() \x7b y; \x7d" } : InstrumentationEngine).perform
      (.insertAtFunctionStart (ascii "f") (ascii "A"))).1 = true ∧
    ((({ m_sourceCode := ascii "void f() \x7b y; \x7d" } : InstrumentationEngine).perform
      (.insertAtFunctionStart (ascii "f") (ascii "A"))).2.perform
        (.insertAtFunctionEnd (ascii "f") (ascii "B"))).1 = true ∧
    ((({ m_sourceCode := ascii "void f() \x7b y; \x7d" } : InstrumentationEngine).perform
      (.insertAtFunctionEnd (ascii "f") (ascii "B"))).1 = true ∧
    ((({ m_sourceCode := ascii "void f() \x7b y; \x7d" } : InstrumentationEngine).perform
      (.insertAtFunctionStart (ascii "f") (ascii "A"))).2.perform
        (.insertAtFunctionEnd (ascii "f") (ascii "B"))).2.m_instrumentedCode =
      (({ m_sourceCode := ascii "void f() \x7b y; \x7d" } : InstrumentationEngine).perform
        (.insertAtFunctionEnd (ascii "f") (ascii "B"))).2.m_instrumentedCode ∧
    (∃ p, p ≤ ({ m_sourceCode := ascii "void f() \x7b y; \x7d" } :
        InstrumentationEngine).m_sourceCode.length ∧
      ((({ m_sourceCode := ascii "void f() \x7b y; \x7d" } : InstrumentationEngine).perform
        (.insertAtFunctionStart (ascii "f") (ascii "A"))).2.perform
          (.insertAtFunctionEnd (ascii "f") (ascii "B"))).2.m_instrumentedCode =
        ({ m_sourceCode := ascii "void f() \x7b y; \x7d" } :
          InstrumentationEngine).m_sourceCode.take p ++
          (Insertion.insertAtFunctionEnd (ascii "f") (ascii "B")).code ++
          ({ m_sourceCode := ascii "void f() \x7b y; \x7d" } :
            InstrumentationEngine).m_sourceCode.drop p) ∧
    ((({ m_sourceCode := ascii "void f() \x7b y; \x7d" } : InstrumentationEngine).perform
      (.insertAtFunctionStart (ascii "f") (ascii "A"))).2.perform
        (.insertAtFunctionEnd (ascii "f") (ascii "B"))).2.m_sourceCode =
      ({ m_sourceCode := ascii "void f() \x7b y; \x7d" } : InstrumentationEngine).m_sourceCode) :=
  ⟨by decide, by decide,
    insertions_independent { m_sourceCode := ascii "void f() \x7b y; \x7d" }
      (.insertAtFunctionStart (ascii "f") (ascii "A"))
      (.insertAtFunctionEnd (ascii "f") (ascii "B")) (by decide) (by decide)⟩

set_option maxRecDepth 100000 in
theorem insertions_sample :
    ((({ m_sourceCode := ascii "void f() \x7b y; \x7d" } : InstrumentationEngine).perform
      (.insertAtFunctionStart (ascii "f") (ascii "A"))).2.perform
        (.insertAtFunctionEnd (ascii "f") (ascii "B"))).2.m_instrumentedCode =
      ascii "void f() \x7b y; B\x7d" := by
  decide

end InstrumentationEngine

/-! ### ControlFlowRewriter -/

namespace ControlFlowRewriter

theorem flattenControlFlow_form (code : Str) :
    flattenControlFlow code =
      ascii ("int __dispatcher_state = 0;\nwhile (1) \x7b\n    switch (__dispatcher_state) \x7b\n" ++
        "    case 0:\n")
      ++ code ++
      ascii ("\n        __dispatcher_state = 0;\n        break;\n    default:\n" ++
        "        goto __exit;\n    \x7d\n\x7d\n__exit:\n") := by
  have hpro : ascii "int __dispatcher_state = 0;\n" ++ ascii "while (1) \x7b\n"
      ++ ascii "    switch (__dispatcher_state) \x7b\n" ++ ascii "    case "
      ++ to_string ((0 : Nat) : Int) ++ ascii ":\n" =
      ascii ("int __dispatcher_state = 0;\nwhile (1) \x7b\n    switch (__dispatcher_state) \x7b\n" ++
        "    case 0:\n") := by decide
  have hepi : ascii "\n" ++ ascii "        __dispatcher_state = " ++
      to_string (((0 + 1) % 1 : Nat) : Int) ++ ascii ";\n" ++ ascii "        break;\n"
      ++ ascii "    default:\n" ++ ascii "        goto __exit;\n" ++ ascii "    \x7d\n"
      ++ ascii "\x7d\n" ++ ascii "__exit:\n" =
      ascii ("\n        __dispatcher_state = 0;\n        break;\n    default:\n" ++
        "        goto __exit;\n    \x7d\n\x7d\n__exit:\n") := by decide
  rw [← hpro, ← hepi]
  simp only [flattenControlFlow, extractBasicBlocks, generateSwitchDispatcher, dispatcherLoop,
    List.length_singleton, List.append_assoc]

/-- C22: for every input text, `flattenControlFlow` returns the fixed prologue
(the state variable set to 0, `while (1) {`, `switch (__dispatcher_state) {`
and the label `case 0:`), then the input text verbatim, then the fixed epilogue
(next state, `break;`, one `default:` branch with `goto __exit;`, the closing
braces and the label `__exit:`). The prologue holds the only generated `case`
label; the epilogue holds one `default:`, one `goto __exit;` and one
`__exit:`, and sets the state back to 0. -/
theorem flattenControlFlow_eq (code : Str) :
    flattenControlFlow code =
      ascii ("int __dispatcher_state = 0;\nwhile (1) \x7b\n    switch (__dispatcher_state) \x7b\n" ++
        "    case 0:\n")
      ++ code ++
      ascii ("\n        __dispatcher_state = 0;\n        break;\n    default:\n" ++
        "        goto __exit;\n    \x7d\n\x7d\n__exit:\n") ∧
    occurrences (ascii "case")
      (ascii ("int __dispatcher_state = 0;\nwhile (1) \x7b\n    switch (__dispatcher_state) \x7b\n" ++
        "    case 0:\n")) = 1 ∧
    occurrences (ascii "case")
      (ascii ("\n        __dispatcher_state = 0;\n        break;\n    default:\n" ++
        "        goto __exit;\n    \x7d\n\x7d\n__exit:\n")) = 0 ∧
    occurrences (ascii "default:")
      (ascii ("\n        __dispatcher_state = 0;\n        break;\n    default:\n" ++
        "        goto __exit;\n    \x7d\n\x7d\n__exit:\n")) = 1 ∧
    occurrences (ascii "    default:\n        goto __exit;\n    \x7d\n\x7d\n__exit:\n")
      (ascii ("\n        __dispatcher_state = 0;\n        break;\n    default:\n" ++
        "        goto __exit;\n    \x7d\n\x7d\n__exit:\n")) = 1 := by
  exact ⟨flattenControlFlow_form code, by decide, by decide, by decide, by decide⟩

end ControlFlowRewriter

theorem splitLines_of_flatten_eq (s : Str) :
    ((splitLines s).map (fun line => line ++ ascii "\n")).flatten =
      if s = [] ∨ s.getLast? = some 10 then s else s ++ [10] := by
  rw [ascii_newline]
  exact splitLines_flatten s

namespace ControlFlowRewriter

theorem splitLoop_flatten : ∀ (lines : List Str) (currentBlock : Str) (blocks : List Str),
    (splitLoop lines currentBlock blocks).2.flatten ++ (splitLoop lines currentBlock blocks).1 =
      blocks.flatten ++ currentBlock ++ (lines.map (fun line => line ++ ascii "\n")).flatten := by
  intro lines
  induction lines with
  | nil => intro currentBlock blocks; simp [splitLoop]
  | cons line rest ih =>
    intro currentBlock blocks
    by_cases hf : (find line (ascii "\x7d")).isSome = true
    · simp only [splitLoop, hf, if_true, ih, List.flatten_append, List.flatten_cons,
        List.flatten_nil, List.map_cons, List.append_nil, List.append_assoc]
    · simp only [splitLoop, hf, if_false, Bool.false_eq_true, ih, List.flatten_cons,
        List.map_cons, List.append_assoc]

theorem splitBasicBlocks_flatten (code : Str) :
    (splitBasicBlocks code).flatten =
      ((splitLines code).map (fun line => line ++ ascii "\n")).flatten := by
  have h := splitLoop_flatten (splitLines code) [] []
  simp only [List.flatten_nil, List.nil_append] at h
  unfold splitBasicBlocks
  by_cases he : (splitLoop (splitLines code) [] []).1.isEmpty = true
  · have hnil : (splitLoop (splitLines code) [] []).1 = [] := List.isEmpty_iff.mp he
    rw [hnil, List.append_nil] at h
    simp only [he, Bool.not_true, Bool.false_eq_true, if_false]
    exact h
  · simp only [he, Bool.not_false, if_true, List.flatten_append, List.flatten_cons,
      List.flatten_nil, List.append_nil]
    exact h

/-- C24 (amended): for every code text, the blocks returned by
`splitBasicBlocks`, concatenated in their order, give the code text itself
when it is empty or ends with a newline, and the code text followed by one
newline otherwise. -/
theorem splitBasicBlocks_concat (code : Str) :
    (splitBasicBlocks code).flatten =
      if code = [] ∨ code.getLast? = some 10 then code else code ++ [10] := by
  rw [splitBasicBlocks_flatten, splitLines_of_flatten_eq]

set_option maxRecDepth 100000 in
/-- C24 (as stated, refuted): the blocks of the text `x = 1;`, which does not
end with a newline, concatenate to that text followed by a newline. -/
theorem splitBasicBlocks_adds_newline :
    splitBasicBlocks (ascii "x = 1;") = [ascii "x = 1;\n"] ∧
    (splitBasicBlocks (ascii "x = 1;")).flatten ≠ ascii "x = 1;" := by
  decide

end ControlFlowRewriter

/-! ### ControlFlowFlatteningStrategy -/

namespace ControlFlowFlatteningStrategy

/-- C23 (amended): for every input text, `ControlFlowFlatteningStrategy.apply`
succeeds and its output is the marker comment line followed by the input text
itself; it is never the marker followed by `flattenControlFlow(input)`. -/
theorem apply_eq (input : Str) :
    (apply input).1 = true ∧
    (apply input).2 = ascii "/* Control Flow Flattening Applied */\n" ++ input ∧
    (apply input).2 ≠ ascii "/* Control Flow Flattening Applied */\n" ++
      ControlFlowRewriter.flattenControlFlow input := by
  refine ⟨rfl, rfl, ?_⟩
  intro h
  have hl := congrArg List.length h
  rw [ControlFlowRewriter.flattenControlFlow_form] at hl
  simp only [apply, List.length_append] at hl
  have hp : 0 < (ascii
      ("int __dispatcher_state = 0;\nwhile (1) \x7b\n    switch (__dispatcher_state) \x7b\n" ++
        "    case 0:\n")).length := by decide
  omega

set_option maxRecDepth 100000 in
/-- C23 (as stated, refuted): on the input `x;` the output of the strategy is
the marker line followed by `x;`, which is not the marker followed by
`flattenControlFlow("x;")` and contains no `switch`. -/
theorem apply_does_not_flatten :
    (apply (ascii "x;")).2 = ascii "/* Control Flow Flattening Applied */\nx;" ∧
    (apply (ascii "x;")).2 ≠ ascii "/* Control Flow Flattening Applied */\n" ++
      ControlFlowRewriter.flattenControlFlow (ascii "x;") ∧
    find (apply (ascii "x;")).2 (ascii "switch") = none ∧
    (find (ControlFlowRewriter.flattenControlFlow (ascii "x;")) (ascii "switch")).isSome = true := by
  decide

end ControlFlowFlatteningStrategy

/-! ### CodeValidator -/

namespace CodeValidator

theorem foldl_countChar (code : Str) : ∀ n : Counts,
    (code.foldl countChar n).braceCount =
      n.braceCount + (code.count 123 : Int) - (code.count 125 : Int) ∧
    (code.foldl countChar n).parenCount =
      n.parenCount + (code.count 40 : Int) - (code.count 41 : Int) ∧
    (code.foldl countChar n).bracketCount =
      n.bracketCount + (code.count 91 : Int) - (code.count 93 : Int) := by
  induction code with
  | nil => intro n; simp
  | cons c cs ih =>
    intro n
    simp only [List.foldl_cons, ih, List.count_cons]
    by_cases h1 : c = 123
    · subst h1; simp [countChar]; omega
    by_cases h2 : c = 125
    · subst h2; simp [countChar]; omega
    by_cases h3 : c = 40
    · subst h3; simp [countChar]; omega
    by_cases h4 : c = 41
    · subst h4; simp [countChar]; omega
    by_cases h5 : c = 91
    · subst h5; simp [countChar]; omega
    by_cases h6 : c = 93
    · subst h6; simp [countChar]; omega
    simp [countChar, h1, h2, h3, h4, h5, h6]

/-- C27 (amended): for every non-empty text `validateSyntax` returns `true`
exactly when the text has as many `{` as `}`, as many `(` as `)` and as many
`[` as `]`; the order of the delimiters is not looked at. On the empty text it
returns `false`. -/
theorem validateSyntax_iff (code : Str) :
    (code ≠ [] →
      (validateSyntax code = true ↔
        code.count 123 = code.count 125 ∧ code.count 40 = code.count 41 ∧
          code.count 91 = code.count 93)) ∧
    validateSyntax [] = false := by
  refine ⟨?_, rfl⟩
  intro hne
  have he : code.isEmpty = false := by
    cases code with
    | nil => exact absurd rfl hne
    | cons c cs => rfl
  obtain ⟨h1, h2, h3⟩ := foldl_countChar code {}
  simp only [validateSyntax, he, Bool.false_eq_true, if_false, Bool.and_eq_true, beq_iff_eq,
    h1, h2, h3]
  constructor
  · rintro ⟨⟨a, b⟩, c⟩
    refine ⟨?_, ?_, ?_⟩ <;> omega
  · rintro ⟨a, b, c⟩
    refine ⟨⟨?_, ?_⟩, ?_⟩ <;> simp [a, b, c]

/-- C27 (as stated, refuted): in the text `}{` the closing brace is not
preceded by an opening one, so the braces are not properly nested, yet
`validateSyntax` returns `true`. -/
theorem validateSyntax_accepts_reversed_braces :
    ¬ ProperlyNested 123 125 (ascii "\x7d\x7b") ∧ ascii "\x7d\x7b" ≠ [] ∧
    validateSyntax (ascii "\x7d\x7b") = true := by
  decide

end CodeValidator

/-! ### OpaquePredicateStrategy -/

namespace CExpr

theorem int32_of_bounds (z : Int) (h1 : -2147483648 ≤ z) (h2 : z ≤ 2147483647) :
    int32 z = some z := by
  simp [int32, h1, h2]

theorem lor_zero_of_nonneg (x : Int) (h : 0 ≤ x) : Int.lor x 0 = x := by
  obtain ⟨n, rfl⟩ := Int.eq_ofNat_of_zero_le h
  show ((n ||| 0 : Nat) : Int) = (n : Int)
  rw [Nat.or_zero]

end CExpr

namespace OpaquePredicateStrategy

variable {G : Type}

theorem condition_holds (type x : Int) (h0 : 0 ≤ type) (h4 : type ≤ 4)
    (hlo : (valueRange type).1 ≤ x) (hhi : x ≤ (valueRange type).2) :
    CExpr.eval x (condition type) = some 1 := by
  have hcases : type = 0 ∨ type = 1 ∨ type = 2 ∨ type = 3 ∨ type = 4 := by omega
  rcases hcases with h | h | h | h | h <;> subst h <;>
    simp only [valueRange] at hlo hhi
  · have hx := CExpr.int32_of_bounds x (by omega) (by omega)
    have hsq : 0 ≤ x * x := mul_self_nonneg x
    have hsq2 : x * x ≤ 10000 := by nlinarith
    have hxx := CExpr.int32_of_bounds (x * x) (by omega) (by omega)
    have h0' := CExpr.int32_of_bounds 0 (by decide) (by decide)
    simp [condition, CExpr.eval, hx, hxx, h0', hsq]
  · have hx := CExpr.int32_of_bounds x (by omega) (by omega)
    have h0' := CExpr.int32_of_bounds 0 (by decide) (by decide)
    simp [condition, CExpr.eval, hx, h0', CExpr.lor_zero_of_nonneg x (by omega)]
  · have hx := CExpr.int32_of_bounds x (by omega) (by omega)
    have h0' := CExpr.int32_of_bounds 0 (by decide) (by decide)
    have h2' := CExpr.int32_of_bounds 2 (by decide) (by decide)
    have h2x := CExpr.int32_of_bounds (2 * x) (by omega) (by omega)
    have hmod : Int.tmod (2 * x) 2 = 0 := by
      rw [Int.tmod_eq_emod (by omega) (by decide)]
      omega
    have hne : ¬ (2 * x = -2147483648) := by omega
    simp [condition, CExpr.eval, hx, h0', h2', h2x, hmod]
  · have hx := CExpr.int32_of_bounds x (by omega) (by omega)
    have hnx := CExpr.int32_of_bounds (-x) (by omega) (by omega)
    have h0' := CExpr.int32_of_bounds 0 (by decide) (by decide)
    by_cases hneg : x < 0
    · have : 0 ≤ -x := by omega
      simp [condition, CExpr.eval, hx, hnx, h0', hneg]
      omega
    · have : 0 ≤ x := by omega
      simp [condition, CExpr.eval, hx, hnx, h0', hneg, this]
  · have hx := CExpr.int32_of_bounds x (by omega) (by omega)
    have h1' := CExpr.int32_of_bounds 1 (by decide) (by decide)
    have hx1 := CExpr.int32_of_bounds (x + 1) (by omega) (by omega)
    simp [condition, CExpr.eval, hx, h1', hx1]

theorem generateOpaquePredicate_text (R : StdRandom G) (b : Bool) (g : G)
    (h0 : 0 ≤ (RandomGenerator.randomInt R 0 4 g).1)
    (h4 : (RandomGenerator.randomInt R 0 4 g).1 ≤ 4) :
    (generateOpaquePredicate R b g).1 =
      predicateText (condition (RandomGenerator.randomInt R 0 4 g).1)
        (RandomGenerator.randomInt R 0 999 (RandomGenerator.randomInt R 0 4 g).2).1
        (RandomGenerator.randomInt R (valueRange (RandomGenerator.randomInt R 0 4 g).1).1
          (valueRange (RandomGenerator.randomInt R 0 4 g).1).2
          (RandomGenerator.randomInt R 0 999 (RandomGenerator.randomInt R 0 4 g).2).2).1 := by
  have e1 : ascii "    if (__op_" = ascii "    if (" ++ ascii "__op_" := by decide
  have e2 : ascii " * __op_" = ascii " * " ++ ascii "__op_" := by decide
  have e3 : ascii " >= 0) \x7b\n" = ascii " >= " ++ to_string 0 ++ ascii ") \x7b\n" := by decide
  have e4 : ascii "    if ((__op_" = ascii "    if (" ++ ascii "(" ++ ascii "__op_" := by decide
  have e5 : ascii " | 0) == __op_" =
      ascii " | " ++ to_string 0 ++ ascii ")" ++ ascii " == " ++ ascii "__op_" := by decide
  have e6 : ascii "    if ((2 * __op_" =
      ascii "    if (" ++ ascii "(" ++ to_string 2 ++ ascii " * " ++ ascii "__op_" := by decide
  have e7 : ascii ") % 2 == 0) \x7b\n" =
      ascii ")" ++ ascii " % " ++ to_string 2 ++ ascii " == " ++ to_string 0 ++ ascii ") \x7b\n" := by
    decide
  have e8 : ascii " < 0 ? -__op_" =
      ascii " < " ++ to_string 0 ++ ascii " ? " ++ ascii "-" ++ ascii "__op_" := by decide
  have e9 : ascii " : __op_" = ascii " : " ++ ascii "__op_" := by decide
  have e10 : ascii ") >= 0) \x7b\n" =
      ascii ")" ++ ascii " >= " ++ to_string 0 ++ ascii ") \x7b\n" := by decide
  have e11 : ascii " + 1) > __op_" =
      ascii " + " ++ to_string 1 ++ ascii ")" ++ ascii " > " ++ ascii "__op_" := by decide
  unfold generateOpaquePredicate
  generalize RandomGenerator.randomInt R 0 4 g = t at h0 h4 ⊢
  have hcases : t.1 = 0 ∨ t.1 = 1 ∨ t.1 = 2 ∨ t.1 = 3 ∨ t.1 = 4 := by omega
  rcases hcases with h | h | h | h | h
  · simp only [h, if_true, condition, valueRange, predicateText, CExpr.render, e1, e2, e3,
      List.append_assoc]
  · simp only [h, if_true, condition, valueRange, predicateText, CExpr.render, e4, e5,
      List.append_assoc]
    simp
  · simp only [h, if_true, condition, valueRange, predicateText, CExpr.render, e6, e7,
      List.append_assoc]
    simp
  · simp only [h, if_true, condition, valueRange, predicateText, CExpr.render, e4, e8, e9, e10,
      List.append_assoc]
    simp
  · simp only [h, if_true, condition, valueRange, predicateText, CExpr.render, e4, e11,
      List.append_assoc]
    simp

end OpaquePredicateStrategy

namespace OpaquePredicateStrategy

variable {G : Type}

/-- C29: each of the five conditions evaluates to true (1) in 32-bit signed
arithmetic, with no overflow, for every initial value in the range its
template draws from; and the text `generateOpaquePredicate` returns is the
declaration of the variable with a value of that range followed by the `if`
on one of the five conditions, provided the integer draws keep to their
ranges. The last conjunct is the case of the test, `x = 5` in `x * x >= 0`. -/
theorem generateOpaquePredicate_always_true (R : StdRandom G) (hR : R.IntInRange) (b : Bool)
    (g : G) :
    (∀ type x, 0 ≤ type → type ≤ 4 → (valueRange type).1 ≤ x → x ≤ (valueRange type).2 →
      CExpr.eval x (condition type) = some 1) ∧
    (∃ type var val, 0 ≤ type ∧ type ≤ 4 ∧
      (valueRange type).1 ≤ val ∧ val ≤ (valueRange type).2 ∧
      (generateOpaquePredicate R b g).1 = predicateText (condition type) var val ∧
      CExpr.eval val (condition type) = some 1) ∧
    CExpr.eval 5 (.ge (.mul .var .var) (.lit 0)) = some 1 := by
  refine ⟨fun type x h0 h4 hlo hhi => condition_holds type x h0 h4 hlo hhi, ?_, by decide⟩
  have ht := RandomGenerator.randomInt_bounds R hR 0 4 (by decide) g
  have hrange : (valueRange (RandomGenerator.randomInt R 0 4 g).1).1 ≤
      (valueRange (RandomGenerator.randomInt R 0 4 g).1).2 := by
    have hcases : (RandomGenerator.randomInt R 0 4 g).1 = 0 ∨
        (RandomGenerator.randomInt R 0 4 g).1 = 1 ∨ (RandomGenerator.randomInt R 0 4 g).1 = 2 ∨
        (RandomGenerator.randomInt R 0 4 g).1 = 3 ∨ (RandomGenerator.randomInt R 0 4 g).1 = 4 := by
      omega
    rcases hcases with h | h | h | h | h <;> rw [h] <;> decide
  have hval := RandomGenerator.randomInt_bounds R hR _ _ hrange
    (RandomGenerator.randomInt R 0 999 (RandomGenerator.randomInt R 0 4 g).2).2
  exact ⟨_, _, _, ht.1, ht.2, hval.1, hval.2, generateOpaquePredicate_text R b g ht.1 ht.2,
    condition_holds _ _ ht.1 ht.2 hval.1 hval.2⟩

theorem generateOpaquePredicate_always_true_witness :
    lcg.IntInRange ∧
    ((∀ type x, 0 ≤ type → type ≤ 4 → (valueRange type).1 ≤ x → x ≤ (valueRange type).2 →
      CExpr.eval x (condition type) = some 1) ∧
    (∃ type var val, 0 ≤ type ∧ type ≤ 4 ∧
      (valueRange type).1 ≤ val ∧ val ≤ (valueRange type).2 ∧
      (generateOpaquePredicate lcg true 7).1 = predicateText (condition type) var val ∧
      CExpr.eval val (condition type) = some 1) ∧
    CExpr.eval 5 (.ge (.mul .var .var) (.lit 0)) = some 1) :=
  ⟨lcg_intInRange, generateOpaquePredicate_always_true lcg lcg_intInRange true 7⟩

set_option maxRecDepth 100000 in
theorem generateOpaquePredicate_sample :
    (generateOpaquePredicate lcg true 7).1 =
      ascii ("    int __op_333 = 39;\n    if ((__op_333 | 0) == __op_333) \x7b\n" ++
        "        /* always true path */\n    \x7d") := by
  decide

end OpaquePredicateStrategy

/-! ### StringEncryptionStrategy and JunkInstructionStrategy at repeated names -/

namespace StringEncryptionStrategy

theorem encryptionPattern_consuming : Regex.Consuming stringPattern := by
  intro s pieces h
  by_cases hp : ([34] : Str).isPrefixOf s = true
  · simp only [stringPattern, Regex.matchItems, hp, if_true, Option.map_eq_some'] at h
    obtain ⟨r, _, e⟩ := h
    subst e
    simp [Regex.matchLength]
  · simp [stringPattern, Regex.matchItems, hp] at h

set_option maxRecDepth 100000 in
/-- C28 (the code at the failing input): with `minLength` 4, in the input
`"abcd" "abcd"` both literals qualify, but the output carries the marker twice
before the first literal and not at all before the second one. -/
theorem apply_repeated_literal :
    (apply lcg {} (ascii "\x22abcd\x22 \x22abcd\x22") 0).1 = true ∧
    (apply lcg {} (ascii "\x22abcd\x22 \x22abcd\x22") 0).2.1 =
      ascii "/* encrypted */ /* encrypted */ \x22abcd\x22 \x22abcd\x22" ∧
    (Regex.allMatches stringPattern (ascii "\x22abcd\x22 \x22abcd\x22")).map
      (fun m => m.2.getD 1 []) = [ascii "abcd", ascii "abcd"] := by
  decide

set_option maxRecDepth 100000 in
theorem apply_distinct_literals_sample :
    (apply lcg {} (ascii "puts(\x22abcd\x22, \x22xy\x22, \x22hello\x22);") 0).2.1 =
      ascii "puts(/* encrypted */ \x22abcd\x22, \x22xy\x22, /* encrypted */ \x22hello\x22);" := by
  decide

end StringEncryptionStrategy

namespace JunkInstructionStrategy

set_option maxRecDepth 100000 in
/-- C30 (the code at the failing input): for `count = 2` and a generator
state from which both groups draw the template 4, the call returns two groups
that both declare the local `__ptr_tmp`. -/
theorem generateJunkInstructions_repeats_name :
    (generateJunkInstructions lcg 2 41).1 =
      [ascii "    void* __ptr_tmp = (void*)0;", ascii "    __ptr_tmp = __ptr_tmp;",
       ascii "    void* __ptr_tmp = (void*)0;", ascii "    __ptr_tmp = __ptr_tmp;"] ∧
    (junkGroup lcg 41).1 =
      [ascii "    void* __ptr_tmp = (void*)0;", ascii "    __ptr_tmp = __ptr_tmp;"] ∧
    (junkGroup lcg (junkGroup lcg 41).2).1 =
      [ascii "    void* __ptr_tmp = (void*)0;", ascii "    __ptr_tmp = __ptr_tmp;"] := by
  decide

end JunkInstructionStrategy

/-! ### ObfuscationEngine: removal and batches -/

namespace ObfuscationEngine

variable {G : Type}

/-- C25: `removeStrategy(name)` keeps, in their order and untouched, exactly
the held strategies whose name differs from `name`, and removes all the
others; when no held strategy has that name the engine is unchanged. The
level and the statistics of the engine are not touched. -/
theorem removeStrategy_spec (E : ObfuscationEngine G) (name : Str) :
    (E.removeStrategy name).m_strategies =
      E.m_strategies.filter (fun s => decide (s.getName ≠ name)) ∧
    List.Sublist (E.removeStrategy name).m_strategies E.m_strategies ∧
    (∀ s ∈ (E.removeStrategy name).m_strategies, s.getName ≠ name) ∧
    (∀ s ∈ E.m_strategies, s.getName ≠ name → s ∈ (E.removeStrategy name).m_strategies) ∧
    ((∀ s ∈ E.m_strategies, s.getName ≠ name) → E.removeStrategy name = E) ∧
    (E.removeStrategy name).m_obfuscationLevel = E.m_obfuscationLevel ∧
    (E.removeStrategy name).m_stats = E.m_stats := by
  have hfilter : (E.removeStrategy name).m_strategies =
      E.m_strategies.filter (fun s => decide (s.getName ≠ name)) := by
    simp only [removeStrategy]
    congr 1
    funext s
    by_cases h : s.getName = name <;> simp [h]
  refine ⟨hfilter, ?_, ?_, ?_, ?_, rfl, rfl⟩
  · rw [hfilter]
    exact List.filter_sublist _
  · intro s hs
    rw [hfilter, List.mem_filter] at hs
    simpa using hs.2
  · intro s hs hne
    rw [hfilter, List.mem_filter]
    exact ⟨hs, by simpa using hne⟩
  · intro hall
    have hid : E.m_strategies.filter (fun s => decide (s.getName ≠ name)) = E.m_strategies := by
      rw [List.filter_eq_self]
      intro s hs
      simpa using hall s hs
    have hs : (E.removeStrategy name).m_strategies = E.m_strategies := by rw [hfilter, hid]
    cases E
    simp only [removeStrategy] at hs ⊢
    rw [hs]

/-- C26: `obfuscateBatch` returns `false` exactly when the two lists differ in
length; it then returns before the loop, leaving the engine (its statistics
included), the files and the generator as they were. For lists of equal
length it returns `true`, whatever happens to the single files. -/
theorem obfuscateBatch_spec (E : ObfuscationEngine G) (inputFiles outputFiles : List Str)
    (fs : FileSystem) (g : G) (clock : Nat → ℚ) :
    ((E.obfuscateBatch inputFiles outputFiles fs g clock).ret = false ↔
      inputFiles.length ≠ outputFiles.length) ∧
    (inputFiles.length ≠ outputFiles.length →
      (E.obfuscateBatch inputFiles outputFiles fs g clock).engine = E ∧
      (E.obfuscateBatch inputFiles outputFiles fs g clock).files = fs ∧
      (E.obfuscateBatch inputFiles outputFiles fs g clock).gen = g) ∧
    (inputFiles.length = outputFiles.length →
      (E.obfuscateBatch inputFiles outputFiles fs g clock).ret = true) := by
  by_cases h : inputFiles.length = outputFiles.length
  · simp [obfuscateBatch, h]
  · simp [obfuscateBatch, h]

theorem obfuscateBatch_mismatch_sample (E : ObfuscationEngine G) (fs : FileSystem) (g : G)
    (clock : Nat → ℚ) :
    (E.obfuscateBatch [ascii "a.c", ascii "b.c"] [ascii "a.o", ascii "b.o", ascii "c.o"] fs g
      clock).ret = false := by
  simp [obfuscateBatch]

end ObfuscationEngine

/-! ### The single-byte cipher never returns its plaintext -/

theorem bxor_ne_self (c k : Byte) (hk : k ≠ 0) : bxor c k ≠ c := by
  intro h
  apply hk
  have hv := congrArg Fin.val h
  rw [bxor_val] at hv
  apply Fin.ext
  have h2 : c.val ^^^ (c.val ^^^ k.val) = k.val := by
    rw [← Nat.xor_assoc, Nat.xor_self, Nat.zero_xor]
  rw [hv, Nat.xor_self] at h2
  exact h2.symm

namespace CryptoUtils
variable {G : Type}

theorem generateKey8_val (R : StdRandom G) (hR : R.IntInRange) (g : G) :
    1 ≤ (generateKey8 R g).1.val ∧ (generateKey8 R g).1.val ≤ 255 := by
  have hr := RandomGenerator.randomInt_bounds R hR 1 255 (by decide) g
  have hv := toByte_val_of_lt (RandomGenerator.randomInt R 1 255 g).1 (by omega) (by omega)
  show 1 ≤ (toByte (RandomGenerator.randomInt R 1 255 g).1).val ∧
    (toByte (RandomGenerator.randomInt R 1 255 g).1).val ≤ 255
  omega

/-- C35: for every non-empty data string and every non-zero single-byte key,
`xorEncrypt(data, key)` has the length of `data` and differs from it at every
byte position, hence differs from `data`; every key that `generateKey8`
returns lies in `1..255` (the integer draw keeping to its range), so with
such a key the ciphertext of a non-empty literal is never its plaintext. -/
theorem xorEncrypt_ne_plaintext (R : StdRandom G) (hR : R.IntInRange) (g : G)
    (data : Str) (key : Byte) (hd : data ≠ []) (hk : key ≠ 0) :
    (xorEncrypt data key).length = data.length ∧
    (∀ i, i < data.length → (xorEncrypt data key).get? i ≠ data.get? i) ∧
    xorEncrypt data key ≠ data ∧
    (1 ≤ (generateKey8 R g).1.val ∧ (generateKey8 R g).1.val ≤ 255) ∧
    xorEncrypt data (generateKey8 R g).1 ≠ data := by
  have hpos : ∀ (k : Byte), k ≠ 0 →
      ∀ i, i < data.length → (xorEncrypt data k).get? i ≠ data.get? i := by
    intro k hk0 i hi h
    simp only [xorEncrypt, List.get?_eq_getElem?, List.getElem?_map, List.getElem?_eq_getElem hi,
      Option.map_some', Option.some.injEq] at h
    exact bxor_ne_self _ k hk0 h
  have hne : ∀ (k : Byte), k ≠ 0 → xorEncrypt data k ≠ data := by
    intro k hk0 h
    have h0 : 0 < data.length := List.length_pos.mpr hd
    exact hpos k hk0 0 h0 (by rw [h])
  have hkey := generateKey8_val R hR g
  have hk8 : (generateKey8 R g).1 ≠ 0 := by
    intro h
    rw [h] at hkey
    simp at hkey
  exact ⟨by simp [xorEncrypt], hpos key hk, hne key hk, hkey, hne _ hk8⟩

set_option maxRecDepth 100000 in
theorem xorEncrypt_ne_plaintext_witness :
    lcg.IntInRange ∧ ascii "Hello World" ≠ [] ∧ (90 : Byte) ≠ 0 ∧
    ((xorEncrypt (ascii "Hello World") 90).length = (ascii "Hello World").length ∧
    (∀ i, i < (ascii "Hello World").length →
      (xorEncrypt (ascii "Hello World") 90).get? i ≠ (ascii "Hello World").get? i) ∧
    xorEncrypt (ascii "Hello World") 90 ≠ ascii "Hello World" ∧
    (1 ≤ (generateKey8 lcg 42).1.val ∧ (generateKey8 lcg 42).1.val ≤ 255) ∧
    xorEncrypt (ascii "Hello World") (generateKey8 lcg 42).1 ≠ ascii "Hello World") :=
  ⟨lcg_intInRange, by decide, by decide,
    xorEncrypt_ne_plaintext lcg lcg_intInRange 42 (ascii "Hello World") 90 (by decide) (by decide)⟩

end CryptoUtils

/-! ### CryptoUtils::generateDecryptionCode -/

namespace CryptoUtils

theorem arrayLoop_separated (data : Str) : ∀ (i : Nat) (ss : OStream), 0 < i → ss.width = 0 →
    (arrayLoop data i ss).str = ss.str ++
      (data.map (fun c => ascii ", " ++ (ascii "0x" ++
        (List.replicate (2 - (numeral true c.val).length) 48 ++ numeral true c.val)))).flatten ∧
    (arrayLoop data i ss).hexBase = (if data = [] then ss.hexBase else true) ∧
    (arrayLoop data i ss).width = 0 := by
  induction data with
  | nil => intro i ss _ hw; simp [arrayLoop, hw]
  | cons c rest ih =>
    intro i ss hi hw
    have h := ih (i + 1)
      (((((if i > 0 then ss.put (ascii ", ") else ss).put (ascii "0x")).hex.setw 2).setfill
        48).putNum c.val) (Nat.succ_pos i) rfl
    simp only [arrayLoop]
    refine ⟨?_, ?_, h.2.2⟩
    · rw [h.1]
      simp [hi, OStream.put, OStream.putNum, OStream.hex, OStream.setw, OStream.setfill, hw]
    · rw [h.2.1]
      by_cases hr : rest = [] <;>
        simp [hr, OStream.put, OStream.putNum, OStream.hex, OStream.setw, OStream.setfill]

theorem intercalate_cons_map {α : Type} (sep : List α) (f : Byte → List α) (c : Byte)
    (rest : List Byte) :
    sep.intercalate ((c :: rest).map f) = f c ++ (rest.map (fun x => sep ++ f x)).flatten := by
  induction rest generalizing c with
  | nil => simp [List.intercalate]
  | cons d rest ih =>
    have h := ih d
    simp only [List.intercalate, List.map_cons, List.intersperse_cons_cons, List.flatten_cons,
      List.append_assoc] at h ⊢
    rw [h]

theorem arrayLoop_zero (data : Str) (ss : OStream) (hw : ss.width = 0) :
    (arrayLoop data 0 ss).str = ss.str ++
      (ascii ", ").intercalate (data.map (fun c => ascii "0x" ++
        (List.replicate (2 - (numeral true c.val).length) 48 ++ numeral true c.val))) ∧
    (arrayLoop data 0 ss).hexBase = (if data = [] then ss.hexBase else true) ∧
    (arrayLoop data 0 ss).width = 0 := by
  cases data with
  | nil => simp [arrayLoop, hw, List.intercalate]
  | cons c rest =>
    have h := arrayLoop_separated rest 1
      ((((ss.put (ascii "0x")).hex.setw 2).setfill 48).putNum c.val) Nat.one_pos rfl
    rw [intercalate_cons_map]
    simp only [arrayLoop, Nat.lt_irrefl, if_false, gt_iff_lt, Nat.zero_add]
    refine ⟨?_, ?_, h.2.2⟩
    · rw [h.1]
      simp [OStream.put, OStream.putNum, OStream.hex, OStream.setw, OStream.setfill, hw]
    · rw [h.2.1]
      by_cases hr : rest = [] <;>
        simp [hr, OStream.put, OStream.putNum, OStream.hex, OStream.setw, OStream.setfill]

/-- The text of the snippet, for every input: the array holds one element per
byte, `0x` and two lowercase hexadecimal digits each; the loop bound and the
index of the terminator are the decimal numeral of `n`; the size of the
buffer is the numeral of `n + 1` in base 10 for `n = 0` and in base 16
otherwise, the stream being left in `std::hex` by the array loop. -/
theorem generateDecryptionCode_form (encryptedData : Str) (key : Byte) (varName : Str) :
    generateDecryptionCode encryptedData key varName =
      ascii "unsigned char " ++ varName ++ ascii "_enc[] = \x7b" ++
      (ascii ", ").intercalate (encryptedData.map (fun c => ascii "0x" ++
        (List.replicate (2 - (numeral true c.val).length) 48 ++ numeral true c.val))) ++
      ascii "\x7d;\n" ++
      ascii "char " ++ varName ++ ascii "[" ++
      numeral (!encryptedData.isEmpty) (encryptedData.length + 1) ++ ascii "];\n" ++
      ascii "for (int i = 0; i < " ++ numeral false encryptedData.length ++ ascii "; i++) \x7b\n" ++
      ascii "    " ++ varName ++ ascii "[i] = " ++ varName ++ ascii "_enc[i] ^ 0x" ++
      numeral true key.val ++ ascii ";\n" ++
      ascii "\x7d\n" ++
      varName ++ ascii "[" ++ numeral false encryptedData.length ++ ascii "] = '\\0';\n" := by
  obtain ⟨h1, h2, h3⟩ := arrayLoop_zero encryptedData
    { str := ascii "unsigned char " ++ (varName ++ ascii "_enc[] = \x7b"), hexBase := false,
      fill := 32, width := 0 } rfl
  have hb : (if encryptedData = [] then false else true) = !encryptedData.isEmpty := by
    cases encryptedData <;> rfl
  simp only [generateDecryptionCode, OStream.put, OStream.putNum, OStream.hex, OStream.dec, h1,
    h2, h3, Nat.zero_sub, List.replicate_zero, List.append_nil, List.nil_append,
    List.append_assoc]
  simp [hb]

set_option maxRecDepth 100000 in
/-- C39 (the code at the failing input): for the 11 bytes of `Hello World`
encrypted with the key `0x5A` and the name `s`, the snippet declares the
destination buffer as `char s[c];`: the size 12 is printed in base 16, the
stream still being in `std::hex` after the array loop, while the loop bound
and the terminator index are printed in base 10 (`11`). The decimal numeral
of `n + 1` is `12`. -/
theorem generateDecryptionCode_buffer_size_in_hex :
    generateDecryptionCode (xorEncrypt (ascii "Hello World") 90) 90 (ascii "s") =
      ascii ("unsigned char s_enc[] = \x7b0x12, 0x3f, 0x36, 0x36, 0x35, 0x7a, 0x0d, 0x35, 0x28, " ++
        "0x36, 0x3e\x7d;\nchar s[c];\nfor (int i = 0; i < 11; i++) \x7b\n" ++
        "    s[i] = s_enc[i] ^ 0x5a;\n\x7d\ns[11] = '\\0';\n") ∧
    (xorEncrypt (ascii "Hello World") 90).length = 11 ∧
    to_string (11 + 1) = ascii "12" ∧
    numeral true (11 + 1) = ascii "c" := by
  decide

end CryptoUtils

/-! ### NameGenerator -/

namespace RandomGenerator

variable {G : Type}

theorem randomChoice_ok {α : Type} (R : StdRandom G) (hR : R.IntInRange) (choices : List α)
    (hne : choices ≠ []) (g : G) :
    ∃ x g', x ∈ choices ∧ randomChoice R choices g = .ok (some x, g') := by
  have hpos : 0 < choices.length := List.length_pos.mpr hne
  have hlen : (0 : Int) ≤ (choices.length : Int) - 1 := by omega
  have hr := randomInt_bounds R hR 0 ((choices.length : Int) - 1) hlen g
  obtain ⟨i, hi⟩ := Int.eq_ofNat_of_zero_le hr.1
  have hlt : i < choices.length := by omega
  have hneg : ¬ ((i : Int) < 0) := by omega
  have he : choices.isEmpty = false := by
    cases choices with
    | nil => exact absurd rfl hne
    | cons c cs => rfl
  refine ⟨choices.get ⟨i, hlt⟩, (randomInt R 0 ((choices.length : Int) - 1) g).2,
    List.get_mem _ _ _, ?_⟩
  simp only [randomChoice, he, Bool.false_eq_true, if_false, hneg, hi, Int.toNat_ofNat,
    List.get?_eq_get hlt]

theorem charAt_mem (table : Str) (index : Int) (h0 : 0 ≤ index)
    (h1 : index ≤ (table.length : Int) - 1) : charAt table index ∈ table := by
  obtain ⟨i, hi⟩ := Int.eq_ofNat_of_zero_le h0
  have hlt : i < table.length := by omega
  have hneg : ¬ index < 0 := by omega
  simp only [charAt, hneg, if_false, hi, Int.toNat_ofNat, List.getD_eq_getElem?_getD,
    List.getElem?_eq_getElem hlt, Option.getD_some]
  exact List.getElem_mem _

theorem randomCharsLoop_spec (R : StdRandom G) (hR : R.IntInRange) (table : Str)
    (ht : table ≠ []) (n : Nat) : ∀ (result : Str) (g : G),
    (randomCharsLoop R table n result g).1.length = result.length + n ∧
    ∃ tail, (randomCharsLoop R table n result g).1 = result ++ tail ∧ ∀ c ∈ tail, c ∈ table := by
  induction n with
  | zero => intro result g; exact ⟨rfl, [], by simp [randomCharsLoop], by simp⟩
  | succ n ih =>
    intro result g
    have hpos : 0 < table.length := List.length_pos.mpr ht
    have hr := randomInt_bounds R hR 0 ((table.length : Int) - 1) (by omega) g
    have hmem := charAt_mem table _ hr.1 hr.2
    obtain ⟨h1, tail, h2, h3⟩ := ih
      (result ++ [charAt table (randomInt R 0 ((table.length : Int) - 1) g).1])
      (randomInt R 0 ((table.length : Int) - 1) g).2
    simp only [randomCharsLoop]
    refine ⟨?_, charAt table (randomInt R 0 ((table.length : Int) - 1) g).1 :: tail, ?_, ?_⟩
    · rw [h1]; simp; omega
    · rw [h2]; simp
    · intro c hc
      rcases List.mem_cons.mp hc with hc | hc
      · rw [hc]; exact hmem
      · exact h3 c hc

set_option maxRecDepth 100000 in
theorem randomString_spec (R : StdRandom G) (hR : R.IntInRange) (length : Nat) (g : G) :
    (randomString R length g).1.length = length ∧
    ∀ c ∈ (randomString R length g).1, Regex.isWord c = true := by
  obtain ⟨h1, tail, h2, h3⟩ := randomCharsLoop_spec R hR charset (by decide) length [] g
  have hw : ∀ c ∈ charset, Regex.isWord c = true := by decide
  refine ⟨by simpa using h1, ?_⟩
  intro c hc
  have hc2 : c ∈ tail := by
    have : (randomString R length g).1 = tail := by simpa [randomString] using h2
    rw [this] at hc
    exact hc
  exact hw c (h3 c hc2)

end RandomGenerator

namespace NameGenerator

variable {G : Type}

theorem s_prefixes_ne_nil : s_prefixes ≠ [] := by
  intro h
  cases h

set_option maxRecDepth 100000 in
theorem s_prefixes_spec : ∀ p ∈ s_prefixes, 2 ≤ p.length ∧ p.length ≤ 4 ∧
    (∃ c rest, p = c :: rest ∧ 97 ≤ c.val ∧ c.val ≤ 122) ∧ ∀ c ∈ p, Regex.isWord c = true := by
  intro p hp
  simp only [s_prefixes, List.mem_cons, List.mem_singleton, List.not_mem_nil, or_false] at hp
  rcases hp with h | h | h | h | h | h | h | h | h | h | h | h | h | h | h | h <;> subst h <;>
    exact ⟨by decide, by decide, ⟨_, _, rfl, by decide, by decide⟩, by decide⟩

set_option maxRecDepth 100000 in
/-- For a requested length from 5 up to `max_size()`, and draws that keep to
their range, `generateFunctionName` returns a valid identifier of exactly the
requested length, in both modes. -/
theorem generateFunctionName_valid (R : StdRandom G) (hR : R.IntInRange) (length : Nat)
    (h5 : 5 ≤ length) (hmax : length ≤ string_max_size) (g : G) :
    ∃ name g', generateFunctionName R length g = .ok (some name, g') ∧
      name.length = length ∧ ValidIdentifier name := by
  have hmax2 : length ≤ 4611686018427387903 := hmax
  unfold generateFunctionName
  by_cases hb : (RandomGenerator.randomBool R (1 / 2) g).1 = true
  · obtain ⟨p, g1, hp, hc⟩ := RandomGenerator.randomChoice_ok R hR s_prefixes s_prefixes_ne_nil
      (RandomGenerator.randomBool R (1 / 2) g).2
    obtain ⟨hp2, hp4, ⟨c0, rest0, hp0, hc0⟩, hpw⟩ := s_prefixes_spec p hp
    have hsub : size_sub (size_sub length p.length) 1 = length - p.length - 1 := by
      unfold size_sub
      omega
    have hok : ¬ length - p.length - 1 > string_max_size := by
      unfold string_max_size
      omega
    obtain ⟨hl, hw⟩ := RandomGenerator.randomString_spec R hR (length - p.length - 1) g1
    simp only [hb, if_true, hc, hsub, RandomGenerator.randomStringReserve, hok, if_false]
    refine ⟨_, _, rfl, ?_, ⟨c0, rest0 ++ ascii "_" ++
      (RandomGenerator.randomString R (length - p.length - 1) g1).1, ?_, Or.inr hc0⟩, ?_⟩
    · simp only [List.length_append, hl]
      have : (ascii "_").length = 1 := by decide
      omega
    · rw [hp0]; simp
    · intro c hc
      simp only [List.mem_append] at hc
      rcases hc with (hc | hc) | hc
      · exact hpw c hc
      · have hu : ∀ c ∈ ascii "_", Regex.isWord c = true := by decide
        exact hu c hc
      · exact hw c hc
  · have hsub : size_sub length 1 = length - 1 := by
      unfold size_sub
      omega
    have hok : ¬ length - 1 > string_max_size := by
      unfold string_max_size
      omega
    obtain ⟨hl, hw⟩ := RandomGenerator.randomString_spec R hR (length - 1)
      (RandomGenerator.randomInt R 0 25 (RandomGenerator.randomBool R (1 / 2) g).2).2
    have hr := RandomGenerator.randomInt_bounds R hR 0 25 (by decide)
      (RandomGenerator.randomBool R (1 / 2) g).2
    have hv := toByte_val_of_lt
      (97 + (RandomGenerator.randomInt R 0 25 (RandomGenerator.randomBool R (1 / 2) g).2).1)
      (by omega) (by omega)
    simp only [hb, Bool.false_eq_true, if_false, hsub, RandomGenerator.randomStringReserve, hok]
    refine ⟨_, _, rfl, ?_, ⟨_, _, rfl, Or.inr (by omega)⟩, ?_⟩
    · simp only [List.length_append, List.length_singleton, hl]
      omega
    · intro c hc
      simp only [List.singleton_append, List.mem_cons] at hc
      rcases hc with hc | hc
      · subst hc
        simp only [Regex.isWord, Bool.or_eq_true, Bool.and_eq_true, decide_eq_true_eq,
          beq_iff_eq]
        omega
      · exact hw c hc

/-- For a requested length of at most 2, whenever the mode with a fixed
word in front is drawn, the length handed to `randomString` has wrapped
around and the call throws `std::length_error`. -/
theorem generateFunctionName_throws (R : StdRandom G) (hR : R.IntInRange) (length : Nat)
    (h2 : length ≤ 2) (g : G) (hb : (RandomGenerator.randomBool R (1 / 2) g).1 = true) :
    generateFunctionName R length g = .error (.lengthError "basic_string::_M_create") := by
  obtain ⟨p, g1, hp, hc⟩ := RandomGenerator.randomChoice_ok R hR s_prefixes s_prefixes_ne_nil
    (RandomGenerator.randomBool R (1 / 2) g).2
  obtain ⟨hp2, hp4, _, _⟩ := s_prefixes_spec p hp
  have hbig : size_sub (size_sub length p.length) 1 > string_max_size := by
    unfold size_sub string_max_size
    omega
  simp only [generateFunctionName, hb, if_true, hc, RandomGenerator.randomStringReserve, hbig]

theorem lcg_randomBool_half_zero : RandomGenerator.randomBool lcg (1 / 2) 0 = (true, 12345) := by
  have h : lcgNext 0 = 12345 := by decide
  simp only [RandomGenerator.randomBool, RandomGenerator.randomDouble, lcg, h]
  norm_num

set_option maxRecDepth 100000 in
/-- C33 (the code at the failing input): from a generator state that draws the
mode with a fixed word in front (here the word `comp`), the requested lengths
1 and 4 make the `size_t` difference `length - prefix.length() - 1` wrap
around to `2^64 - 4` and `2^64 - 1`; `randomString` is called with that length
and throws `std::length_error`, so no identifier is returned. With the
requested length 8 the same state gives `comp_ZWj`. -/
theorem generateFunctionName_short_length_throws :
    (RandomGenerator.randomBool lcg (1 / 2) 0).1 = true ∧
    RandomGenerator.randomChoice lcg s_prefixes 12345 = .ok (some (ascii "comp"), 1406932606) ∧
    size_sub (size_sub 1 (ascii "comp").length) 1 = 18446744073709551612 ∧
    size_sub (size_sub 4 (ascii "comp").length) 1 = 18446744073709551615 ∧
    generateFunctionName lcg 1 0 = .error (.lengthError "basic_string::_M_create") ∧
    generateFunctionName lcg 4 0 = .error (.lengthError "basic_string::_M_create") ∧
    (generateFunctionName lcg 8 0).toOption.map (fun r => r.1) = some (some (ascii "comp_ZWj")) := by
  have hb := lcg_randomBool_half_zero
  refine ⟨by rw [hb], ?_, by decide, by decide, ?_, ?_, ?_⟩
  · rfl
  · simp only [generateFunctionName, hb]; rfl
  · simp only [generateFunctionName, hb]; rfl
  · simp only [generateFunctionName, hb]; rfl

end NameGenerator

/-! ### ControlFlowRewriter::addFakeBranches -/

namespace ControlFlowRewriter

variable {G : Type}

theorem fakeBranchLoop_spec (R : StdRandom G) (probability : ℚ) (lines : List Str) :
    ∀ (result : Str) (g : G), ∃ flags : List Bool, flags.length = lines.length ∧
      (fakeBranchLoop R probability lines result g).1 = result ++
        (List.zipWith (fun line (flag : Bool) => line ++ ascii "\n" ++
          (if flag then ascii "    if (0) \x7b volatile int __fake = 1; \x7d" ++ ascii "\n" else []))
          lines flags).flatten := by
  induction lines with
  | nil => intro result g; exact ⟨[], rfl, by simp [fakeBranchLoop]⟩
  | cons line rest ih =>
    intro result g
    have hd : ascii "    if (0) \x7b volatile int __fake = 1; \x7d\n" =
        ascii "    if (0) \x7b volatile int __fake = 1; \x7d" ++ ascii "\n" := by decide
    by_cases hb : (RandomGenerator.randomBool R probability g).1 = true
    · obtain ⟨flags, hl, he⟩ := ih
        (result ++ line ++ ascii "\n" ++ ascii "    if (0) \x7b volatile int __fake = 1; \x7d\n")
        (RandomGenerator.randomBool R probability g).2
      have hstep : fakeBranchLoop R probability (line :: rest) result g =
          fakeBranchLoop R probability rest
            (result ++ line ++ ascii "\n" ++ ascii "    if (0) \x7b volatile int __fake = 1; \x7d\n")
            (RandomGenerator.randomBool R probability g).2 := by
        simp only [fakeBranchLoop, hb, if_true]
      refine ⟨true :: flags, by simp [hl], ?_⟩
      rw [hstep, he, hd]
      simp only [List.zipWith_cons_cons, List.flatten_cons, if_true, List.append_assoc]
    · obtain ⟨flags, hl, he⟩ := ih (result ++ line ++ ascii "\n")
        (RandomGenerator.randomBool R probability g).2
      have hstep : fakeBranchLoop R probability (line :: rest) result g =
          fakeBranchLoop R probability rest (result ++ line ++ ascii "\n")
            (RandomGenerator.randomBool R probability g).2 := by
        simp only [fakeBranchLoop, hb, if_false, Bool.false_eq_true]
      refine ⟨false :: flags, by simp [hl], ?_⟩
      rw [hstep, he]
      simp only [List.zipWith_cons_cons, List.flatten_cons, if_false, Bool.false_eq_true,
        List.append_nil, List.append_assoc]

theorem fakeBranchLoop_zero (R : StdRandom G) (hR : R.RealInUnit) (lines : List Str) :
    ∀ (result : Str) (g : G),
      (fakeBranchLoop R 0 lines result g).1 =
        result ++ (lines.map (fun line => line ++ ascii "\n")).flatten := by
  induction lines with
  | nil => intro result g; simp [fakeBranchLoop]
  | cons line rest ih =>
    intro result g
    have hb := RandomGenerator.randomBool_zero R hR g
    have hstep : fakeBranchLoop R 0 (line :: rest) result g =
        fakeBranchLoop R 0 rest (result ++ line ++ ascii "\n")
          (RandomGenerator.randomBool R 0 g).2 := by
      simp only [fakeBranchLoop, hb, if_false, Bool.false_eq_true]
    rw [hstep, ih]
    simp only [List.map_cons, List.flatten_cons, List.append_assoc]

/-- C32: for every code text, probability and generator state, the output of
`addFakeBranches` is the lines of the input in their order, each followed by
a newline and, for some of them, directly by the fixed decoy line
`    if (0) { volatile int __fake = 1; }`; nothing else is written. The
condition of the decoy is the constant `0`, which evaluates to 0 (false)
whatever the state of the program. With probability 0, the real draws lying in
`[0, 1)`, no decoy is written: the output is the lines of the input, each
followed by a newline, that is the input itself up to a final newline. -/
theorem addFakeBranches_spec (R : StdRandom G) (code : Str) (probability : ℚ) (g : G) :
    (∃ flags : List Bool, flags.length = (splitLines code).length ∧
      (addFakeBranches R code probability g).1 =
        (List.zipWith (fun line (flag : Bool) => line ++ ascii "\n" ++
          (if flag then ascii "    if (0) \x7b volatile int __fake = 1; \x7d" ++ ascii "\n" else []))
          (splitLines code) flags).flatten) ∧
    ascii "    if (0) \x7b volatile int __fake = 1; \x7d" =
      ascii "    if (" ++ (CExpr.lit 0).render [] ++ ascii ") \x7b volatile int __fake = 1; \x7d" ∧
    (∀ x : Int, (CExpr.lit 0).eval x = some 0) ∧
    (R.RealInUnit →
      (addFakeBranches R code 0 g).1 =
        ((splitLines code).map (fun line => line ++ ascii "\n")).flatten ∧
      (addFakeBranches R code 0 g).1 =
        if code = [] ∨ code.getLast? = some 10 then code else code ++ [10]) := by
  refine ⟨?_, by decide, fun _ => rfl, ?_⟩
  · obtain ⟨flags, hl, he⟩ := fakeBranchLoop_spec R probability (splitLines code) [] g
    exact ⟨flags, hl, by rw [addFakeBranches, he, List.nil_append]⟩
  · intro hR
    have h := fakeBranchLoop_zero R hR (splitLines code) [] g
    rw [List.nil_append] at h
    exact ⟨h, by rw [addFakeBranches, h, splitLines_of_flatten_eq]⟩

end ControlFlowRewriter

/-! ### ControlFlowRewriter::splitBasicBlocks -/

theorem findAt_singleton_isSome (c : Byte) (s : Str) :
    ∀ i, (findAt s [c] i).isSome = true ↔ c ∈ s := by
  induction s with
  | nil => intro i; simp [findAt]
  | cons x xs ih =>
    intro i
    by_cases hx : x = c
    · subst hx
      simp [findAt, List.isPrefixOf]
    · have hne : ¬ c = x := fun h => hx h.symm
      simp [findAt, List.isPrefixOf, hx, hne, ih]

theorem find_close_isSome (line : Str) :
    (find line (ascii "\x7d")).isSome = true ↔ (125 : Byte) ∈ line :=
  findAt_singleton_isSome 125 line 0

theorem renderLines_nil : renderLines [] = [] := rfl

theorem renderLines_append (a b : List Str) :
    renderLines (a ++ b) = renderLines a ++ renderLines b := by
  simp [renderLines]

theorem renderLines_eq_nil (grp : List Str) : renderLines grp = [] ↔ grp = [] := by
  cases grp with
  | nil => simp [renderLines]
  | cons l ls => simp [renderLines, ascii_newline]

namespace ControlFlowRewriter

theorem splitLoop_groups (lines : List Str) :
    ∀ (cur : List Str) (done : List (List Str)),
      (∀ line ∈ cur, (125 : Byte) ∉ line) → (∀ grp ∈ done, ClosedGroup grp) →
      ∃ (cur1 : List Str) (done1 : List (List Str)),
        splitLoop lines (renderLines cur) (done.map renderLines) =
          (renderLines cur1, done1.map renderLines) ∧
        (∀ line ∈ cur1, (125 : Byte) ∉ line) ∧ (∀ grp ∈ done1, ClosedGroup grp) ∧
        done1.flatten ++ cur1 = done.flatten ++ cur ++ lines := by
  induction lines with
  | nil =>
    intro cur done hc hd
    exact ⟨cur, done, rfl, hc, hd, by simp⟩
  | cons line rest ih =>
    intro cur done hc hd
    by_cases hf : (125 : Byte) ∈ line
    · have hfind : (find line (ascii "\x7d")).isSome = true := (find_close_isSome line).mpr hf
      obtain ⟨cur1, done1, he, hc1, hd1, hfl⟩ := ih [] (done ++ [cur ++ [line]])
        (by simp) (by
          intro grp hg
          rcases List.mem_append.mp hg with hg | hg
          · exact hd grp hg
          · rw [List.mem_singleton] at hg
            subst hg
            exact ⟨cur, line, rfl, hf, hc⟩)
      refine ⟨cur1, done1, ?_, hc1, hd1, ?_⟩
      · rw [← he]
        simp only [splitLoop, hfind, if_true, List.map_append, List.map_cons, List.map_nil,
          renderLines_append, renderLines_nil]
        simp [renderLines]
      · rw [hfl]; simp
    · have hfind : ¬ (find line (ascii "\x7d")).isSome = true :=
        fun h => hf ((find_close_isSome line).mp h)
      obtain ⟨cur1, done1, he, hc1, hd1, hfl⟩ := ih (cur ++ [line]) done
        (by
          intro l hl
          rcases List.mem_append.mp hl with hl | hl
          · exact hc l hl
          · rw [List.mem_singleton] at hl
            subst hl
            exact hf) hd
      refine ⟨cur1, done1, ?_, hc1, hd1, ?_⟩
      · rw [← he]
        simp only [splitLoop, hfind, if_false, Bool.false_eq_true, renderLines_append]
        simp [renderLines]
      · rw [hfl]; simp

theorem closedGroup_count (grp : List Str) (h : ClosedGroup grp) :
    (grp.filter (fun line => decide ((125 : Byte) ∈ line))).length = 1 ∧
    ∃ last, grp.getLast? = some last ∧ (125 : Byte) ∈ last := by
  obtain ⟨init, last, rfl, hl, hi⟩ := h
  refine ⟨?_, last, by simp, hl⟩
  have h0 : init.filter (fun line => decide ((125 : Byte) ∈ line)) = [] := by
    rw [List.filter_eq_nil_iff]
    intro l hlm
    simpa using hi l hlm
  simp [List.filter_append, h0, hl]

theorem closedGroups_count (done : List (List Str)) (h : ∀ grp ∈ done, ClosedGroup grp) :
    (done.flatten.filter (fun line => decide ((125 : Byte) ∈ line))).length = done.length := by
  induction done with
  | nil => rfl
  | cons grp rest ih =>
    have h1 := (closedGroup_count grp (h grp (List.mem_cons_self _ _))).1
    have h2 := ih (fun g hg => h g (List.mem_cons_of_mem _ hg))
    simp only [List.flatten_cons, List.filter_append, List.length_append, h1, h2,
      List.length_cons]
    omega

/-- C34: for every code text, the blocks that `splitBasicBlocks` returns are
the texts of consecutive groups of the lines of the input (every line followed
by a newline), the groups taken in order making up all the lines. No group and
no block is empty; every group other than the last ends with a line that
contains `}` and has no `}` in an earlier line; the last group is such a group
or else has no `}` at all. The number of blocks is the number of lines that
contain `}`, plus one when the final line contains no `}`; the empty input
gives no block. -/
theorem splitBasicBlocks_groups (code : Str) :
    (∃ groups : List (List Str),
      groups.flatten = splitLines code ∧
      splitBasicBlocks code = groups.map renderLines ∧
      (∀ grp ∈ groups, grp ≠ []) ∧
      (∀ grp ∈ groups.dropLast, ClosedGroup grp) ∧
      (∀ grp, groups.getLast? = some grp → ClosedGroup grp ∨ OpenGroup grp)) ∧
    (∀ block ∈ splitBasicBlocks code, block ≠ []) ∧
    (splitBasicBlocks code).length =
      ((splitLines code).filter (fun line => decide ((125 : Byte) ∈ line))).length +
        (if ∃ line, (splitLines code).getLast? = some line ∧ (125 : Byte) ∉ line then 1 else 0) ∧
    splitBasicBlocks [] = [] := by
  obtain ⟨cur1, done1, he, hc1, hd1, hfl⟩ := splitLoop_groups (splitLines code) [] []
    (by simp) (by simp)
  simp only [renderLines_nil, List.map_nil, List.flatten_nil, List.nil_append] at he hfl
  have hne : ∀ grp ∈ done1, grp ≠ [] := by
    intro grp hg
    obtain ⟨init, last, rfl, _, _⟩ := hd1 grp hg
    simp
  by_cases hcur : cur1 = []
  · subst hcur
    have hblocks : splitBasicBlocks code = done1.map renderLines := by
      simp [splitBasicBlocks, he, renderLines_nil]
    rw [List.append_nil] at hfl
    refine ⟨⟨done1, hfl, hblocks, hne, fun grp hg => hd1 grp (List.mem_of_mem_dropLast hg),
      fun grp hg => Or.inl (hd1 grp (List.mem_of_getLast?_eq_some hg))⟩, ?_, ?_, by decide⟩
    · intro block hb
      rw [hblocks, List.mem_map] at hb
      obtain ⟨grp, hg, rfl⟩ := hb
      exact fun h => hne grp hg ((renderLines_eq_nil grp).mp h)
    · have hno : ¬ ∃ line, (splitLines code).getLast? = some line ∧ (125 : Byte) ∉ line := by
        rintro ⟨line, hl, hn⟩
        rw [← hfl] at hl
        cases hdone : done1.getLast? with
        | none =>
          rw [List.getLast?_eq_none_iff] at hdone
          subst hdone
          simp at hl
        | some grp =>
          have hgm := List.mem_of_getLast?_eq_some hdone
          obtain ⟨last, hlast, hin⟩ := (closedGroup_count grp (hd1 grp hgm)).2
          have hfl2 : done1.flatten.getLast? = some last := by
            obtain ⟨pre, hpre⟩ : ∃ pre, done1 = pre ++ [grp] := by
              have := List.dropLast_append_getLast? grp hdone
              exact ⟨done1.dropLast, this.symm⟩
            obtain ⟨init, last2, hgrp, _, _⟩ := hd1 grp hgm
            rw [hpre, hgrp]
            rw [hgrp] at hlast
            simp at hlast
            subst hlast
            simp [List.flatten_append]
          rw [hfl2] at hl
          cases hl
          exact hn hin
      rw [hblocks, List.length_map, if_neg hno, ← hfl, closedGroups_count done1 hd1]
      rfl
  · have hrn : renderLines cur1 ≠ [] := fun h => hcur ((renderLines_eq_nil cur1).mp h)
    have hblocks : splitBasicBlocks code = (done1 ++ [cur1]).map renderLines := by
      have hem : (renderLines cur1).isEmpty = false := by
        cases hr : renderLines cur1 with
        | nil => exact absurd hr hrn
        | cons x xs => rfl
      simp [splitBasicBlocks, he, hem]
    have hflat : (done1 ++ [cur1]).flatten = splitLines code := by
      rw [← hfl]; simp
    have hne2 : ∀ grp ∈ done1 ++ [cur1], grp ≠ [] := by
      intro grp hg
      rcases List.mem_append.mp hg with hg | hg
      · exact hne grp hg
      · rw [List.mem_singleton] at hg
        subst hg
        exact hcur
    refine ⟨⟨done1 ++ [cur1], hflat, hblocks, hne2, ?_, ?_⟩, ?_, ?_, by decide⟩
    · intro grp hg
      rw [List.dropLast_concat] at hg
      exact hd1 grp hg
    · intro grp hg
      rw [List.getLast?_concat] at hg
      cases hg
      exact Or.inr ⟨hcur, hc1⟩
    · intro block hb
      rw [hblocks, List.mem_map] at hb
      obtain ⟨grp, hg, rfl⟩ := hb
      exact fun h => hne2 grp hg ((renderLines_eq_nil grp).mp h)
    · obtain ⟨l, hl⟩ : ∃ l, cur1.getLast? = some l := by
        cases hcl : cur1.getLast? with
        | none => exact absurd (List.getLast?_eq_none_iff.mp hcl) hcur
        | some l => exact ⟨l, rfl⟩
      have hyes : ∃ line, (splitLines code).getLast? = some line ∧ (125 : Byte) ∉ line := by
        refine ⟨l, ?_, hc1 l (List.mem_of_getLast?_eq_some hl)⟩
        rw [← hfl, List.getLast?_append, hl]
        rfl
      have h0 : cur1.filter (fun line => decide ((125 : Byte) ∈ line)) = [] := by
        rw [List.filter_eq_nil_iff]
        intro x hx
        simpa using hc1 x hx
      rw [hblocks, List.length_map, if_pos hyes, ← hfl, List.filter_append, h0, List.append_nil,
        closedGroups_count done1 hd1]
      simp

end ControlFlowRewriter

namespace ControlFlowRewriter

set_option maxRecDepth 100000 in
theorem splitBasicBlocks_sample :
    splitBasicBlocks (ascii "f() \x7b\nx;\n\x7d\ng() \x7b \x7d\ny;") =
      [ascii "f() \x7b\nx;\n\x7d\n", ascii "g() \x7b \x7d\n", ascii "y;\n"] := by
  decide

end ControlFlowRewriter

/-! ### ControlFlowRewriter::generateSwitchDispatcher as a state machine -/

namespace ControlFlowRewriter

theorem dispatcherLoop_cases (size : Nat) (blocks : List BasicBlock) :
    ∀ (i : Nat) (ss : Str),
      dispatcherLoop size blocks i ss =
        ss ++ ((dispatchCases size blocks i).map caseText).flatten := by
  induction blocks with
  | nil => intro i ss; simp [dispatcherLoop, dispatchCases]
  | cons block rest ih =>
    intro i ss
    simp only [dispatcherLoop, dispatchCases, ih, caseText, List.map_cons, List.flatten_cons,
      List.append_assoc]

theorem dispatchCases_index (size : Nat) (blocks : List BasicBlock) :
    ∀ i, (dispatchCases size blocks i).map (fun c => c.index) =
      (List.range blocks.length).map (fun j => i + j) := by
  induction blocks with
  | nil => intro i; rfl
  | cons block rest ih =>
    intro i
    simp only [dispatchCases, List.map_cons, ih, List.length_cons, List.range_succ_eq_map,
      List.map_map]
    refine congrArg₂ _ rfl ?_
    apply List.map_congr_left
    intro j _
    simp only [Function.comp, Nat.succ_eq_add_one]
    omega

theorem dispatchCases_next (size : Nat) (blocks : List BasicBlock) :
    ∀ i, ∀ c ∈ dispatchCases size blocks i, c.next = (c.index + 1) % size := by
  induction blocks with
  | nil => intro i c hc; simp [dispatchCases] at hc
  | cons block rest ih =>
    intro i c hc
    simp only [dispatchCases, List.mem_cons] at hc
    rcases hc with hc | hc
    · subst hc; rfl
    · exact ih (i + 1) c hc

theorem dispatchStep_of_lt (size : Nat) (blocks : List BasicBlock) :
    ∀ i state, i ≤ state → state < i + blocks.length →
      dispatchStep (dispatchCases size blocks i) state = some ((state + 1) % size) := by
  induction blocks with
  | nil => intro i state h1 h2; simp at h2; omega
  | cons block rest ih =>
    intro i state h1 h2
    by_cases hi : i = state
    · subst hi
      simp [dispatchStep, dispatchCases]
    · have h3 : i + 1 ≤ state := by omega
      have h4 : state < i + 1 + rest.length := by
        simp only [List.length_cons] at h2
        omega
      have hrec := ih (i + 1) state h3 h4
      have hbeq : (i == state) = false := by simp [hi]
      simp only [dispatchStep, dispatchCases, List.find?_cons, hbeq] at hrec ⊢
      exact hrec

theorem dispatchRun_valid (blocks : List BasicBlock) (hne : blocks ≠ []) :
    ∀ k state, state < blocks.length →
      ∃ s, dispatchRun (dispatchCases blocks.length blocks 0) k state = some s ∧
        s < blocks.length := by
  have hpos : 0 < blocks.length := List.length_pos.mpr hne
  intro k
  induction k with
  | zero => intro state hs; exact ⟨state, rfl, hs⟩
  | succ k ih =>
    intro state hs
    have hstep := dispatchStep_of_lt blocks.length blocks 0 state (Nat.zero_le _) (by omega)
    obtain ⟨s, h1, h2⟩ := ih ((state + 1) % blocks.length) (Nat.mod_lt _ hpos)
    exact ⟨s, by simp only [dispatchRun, hstep, Option.some_bind, h1], h2⟩

/-- C37: for every non-empty block list of size `n`, the text that
`generateSwitchDispatcher` returns is the fixed prologue, one case text per
block and the fixed epilogue with the `default` branch; the labels of the
cases are `0, 1, ..., n - 1`, and the next state of the case `i` is
`(i + 1) % n`, computed with the non-zero modulus `n`, which is below `n` and
hence the label of a case. In the state machine that the text describes the
state, started at 0, is the label of a case after any number of iterations:
the `default` branch is never taken. For the single block of
`flattenControlFlow` the only case is the case 0, whose next state is 0. -/
theorem generateSwitchDispatcher_states (blocks : List BasicBlock) (hne : blocks ≠ []) :
    generateSwitchDispatcher blocks =
      ascii "int __dispatcher_state = 0;\n" ++ ascii "while (1) \x7b\n"
        ++ ascii "    switch (__dispatcher_state) \x7b\n"
        ++ ((dispatchCases blocks.length blocks 0).map caseText).flatten
        ++ ascii "    default:\n" ++ ascii "        goto __exit;\n" ++ ascii "    \x7d\n"
        ++ ascii "\x7d\n" ++ ascii "__exit:\n" ∧
    (dispatchCases blocks.length blocks 0).map (fun c => c.index) = List.range blocks.length ∧
    blocks.length ≠ 0 ∧
    (∀ c ∈ dispatchCases blocks.length blocks 0,
      c.next = (c.index + 1) % blocks.length ∧ c.next < blocks.length ∧
        c.next ∈ (dispatchCases blocks.length blocks 0).map (fun c => c.index)) ∧
    (∀ k, ∃ s, dispatchRun (dispatchCases blocks.length blocks 0) k 0 = some s ∧
      s < blocks.length ∧ (dispatchStep (dispatchCases blocks.length blocks 0) s).isSome = true) ∧
    (∀ code : Str, dispatchCases (extractBasicBlocks code).length (extractBasicBlocks code) 0 =
      [{ index := 0, code := code, next := 0 }]) := by
  have hpos : 0 < blocks.length := List.length_pos.mpr hne
  have hidx : (dispatchCases blocks.length blocks 0).map (fun c => c.index) =
      List.range blocks.length := by
    rw [dispatchCases_index]
    simp
  refine ⟨?_, hidx, by omega, ?_, ?_, fun code => by simp [dispatchCases, extractBasicBlocks]⟩
  · simp only [generateSwitchDispatcher, dispatcherLoop_cases, List.append_assoc]
  · intro c hc
    have hn := dispatchCases_next blocks.length blocks 0 c hc
    have hlt : c.next < blocks.length := by
      rw [hn]
      exact Nat.mod_lt _ hpos
    refine ⟨hn, hlt, ?_⟩
    rw [hidx, List.mem_range]
    exact hlt
  · intro k
    obtain ⟨s, h1, h2⟩ := dispatchRun_valid blocks hne k 0 hpos
    refine ⟨s, h1, h2, ?_⟩
    rw [dispatchStep_of_lt blocks.length blocks 0 s (Nat.zero_le _) (by omega)]
    rfl

theorem generateSwitchDispatcher_states_witness :
    ([{ label := ascii "a", code := ascii "x = 1;" }, { label := ascii "b", code := ascii "y = 2;" },
      { label := ascii "c", code := ascii "z = 3;" }] : List BasicBlock) ≠ [] ∧
    dispatchRun (dispatchCases 3
      [{ label := ascii "a", code := ascii "x = 1;" }, { label := ascii "b", code := ascii "y = 2;" },
       { label := ascii "c", code := ascii "z = 3;" }] 0) 7 0 = some 1 ∧
    (dispatchCases 3
      [{ label := ascii "a", code := ascii "x = 1;" }, { label := ascii "b", code := ascii "y = 2;" },
       { label := ascii "c", code := ascii "z = 3;" }] 0).map (fun c => (c.index, c.next)) =
      [(0, 1), (1, 2), (2, 0)] ∧
    ∀ k, ∃ s, dispatchRun (dispatchCases
      ([{ label := ascii "a", code := ascii "x = 1;" }, { label := ascii "b", code := ascii "y = 2;" },
        { label := ascii "c", code := ascii "z = 3;" }] : List BasicBlock).length
      [{ label := ascii "a", code := ascii "x = 1;" }, { label := ascii "b", code := ascii "y = 2;" },
       { label := ascii "c", code := ascii "z = 3;" }] 0) k 0 = some s ∧
      s < ([{ label := ascii "a", code := ascii "x = 1;" },
        { label := ascii "b", code := ascii "y = 2;" },
        { label := ascii "c", code := ascii "z = 3;" }] : List BasicBlock).length ∧
      (dispatchStep (dispatchCases
        ([{ label := ascii "a", code := ascii "x = 1;" },
          { label := ascii "b", code := ascii "y = 2;" },
          { label := ascii "c", code := ascii "z = 3;" }] : List BasicBlock).length
        [{ label := ascii "a", code := ascii "x = 1;" }, { label := ascii "b", code := ascii "y = 2;" },
         { label := ascii "c", code := ascii "z = 3;" }] 0) s).isSome = true :=
  ⟨by decide, by decide, by decide,
    (generateSwitchDispatcher_states
      [{ label := ascii "a", code := ascii "x = 1;" }, { label := ascii "b", code := ascii "y = 2;" },
       { label := ascii "c", code := ascii "z = 3;" }] (by decide)).2.2.2.2.1⟩

end ControlFlowRewriter

/-! ### JunkInstructionStrategy: where junk is written -/

namespace RandomGenerator

variable {G : Type}

theorem randomBool_one (R : StdRandom G) (hR : R.RealInUnit) (g : G) :
    (randomBool R 1 g).1 = true := by
  have h := (hR g).2
  simp only [randomBool, randomDouble, decide_eq_true_eq]
  exact h

end RandomGenerator

namespace JunkInstructionStrategy

variable {G : Type}

theorem emitJunk_eq (junkInstructions : List Str) : ∀ result : Str,
    emitJunk result junkInstructions = result ++ renderLines junkInstructions := by
  induction junkInstructions with
  | nil => intro result; simp [emitJunk, renderLines]
  | cons junk rest ih =>
    intro result
    have h := ih (result ++ junk ++ ascii "\n")
    simp only [emitJunk, renderLines, List.foldl_cons, List.map_cons, List.flatten_cons,
      List.append_assoc] at h ⊢
    rw [h]

/-- For every input text, density, `maxPerBlock` and generator state, the
output of `apply` is the lines of the input in their order, each followed by a
newline and then by the junk lines written for it, each followed by a newline
too. Junk is written only for a line that passes the test of the source: it is
not empty, its first character (the one at index 0) is not `#`, and it
contains none of `//`, `/*` and `:`. -/
theorem applyLoop_structure (R : StdRandom G) (J : JunkInstructionStrategy) (lines : List Str) :
    ∀ (result : Str) (g : G), ∃ junk : List (List Str), junk.length = lines.length ∧
      (applyLoop R J lines result g).1 = result ++
        (List.zipWith (fun line js => line ++ ascii "\n" ++ renderLines js) lines junk).flatten ∧
      ∀ p ∈ List.zip lines junk, p.2 ≠ [] → insertable p.1 = true := by
  induction lines with
  | nil => intro result g; exact ⟨[], rfl, by simp [applyLoop], by simp⟩
  | cons line rest ih =>
    intro result g
    by_cases hb : (RandomGenerator.randomBool R J.m_density g).1 = true
    · by_cases hi : insertable line = true
      · obtain ⟨junk, hl, he, hj⟩ := ih
          (emitJunk (result ++ line ++ ascii "\n")
            (generateJunkInstructions R
              (RandomGenerator.randomInt R 1 J.m_maxPerBlock
                (RandomGenerator.randomBool R J.m_density g).2).1
              (RandomGenerator.randomInt R 1 J.m_maxPerBlock
                (RandomGenerator.randomBool R J.m_density g).2).2).1)
          (generateJunkInstructions R
            (RandomGenerator.randomInt R 1 J.m_maxPerBlock
              (RandomGenerator.randomBool R J.m_density g).2).1
            (RandomGenerator.randomInt R 1 J.m_maxPerBlock
              (RandomGenerator.randomBool R J.m_density g).2).2).2
        refine ⟨(generateJunkInstructions R
            (RandomGenerator.randomInt R 1 J.m_maxPerBlock
              (RandomGenerator.randomBool R J.m_density g).2).1
            (RandomGenerator.randomInt R 1 J.m_maxPerBlock
              (RandomGenerator.randomBool R J.m_density g).2).2).1 :: junk, by simp [hl], ?_, ?_⟩
        · have hstep : applyLoop R J (line :: rest) result g = applyLoop R J rest
              (emitJunk (result ++ line ++ ascii "\n")
                (generateJunkInstructions R
                  (RandomGenerator.randomInt R 1 J.m_maxPerBlock
                    (RandomGenerator.randomBool R J.m_density g).2).1
                  (RandomGenerator.randomInt R 1 J.m_maxPerBlock
                    (RandomGenerator.randomBool R J.m_density g).2).2).1)
              (generateJunkInstructions R
                (RandomGenerator.randomInt R 1 J.m_maxPerBlock
                  (RandomGenerator.randomBool R J.m_density g).2).1
                (RandomGenerator.randomInt R 1 J.m_maxPerBlock
                  (RandomGenerator.randomBool R J.m_density g).2).2).2 := by
            simp only [applyLoop, hb, hi, if_true]
          rw [hstep, he, emitJunk_eq]
          simp only [List.zipWith_cons_cons, List.flatten_cons, List.append_assoc]
        · intro p hp hne
          simp only [List.zip_cons_cons, List.mem_cons] at hp
          rcases hp with hp | hp
          · subst hp; exact hi
          · exact hj p hp hne
      · obtain ⟨junk, hl, he, hj⟩ := ih (result ++ line ++ ascii "\n")
          (RandomGenerator.randomBool R J.m_density g).2
        refine ⟨[] :: junk, by simp [hl], ?_, ?_⟩
        · have hstep : applyLoop R J (line :: rest) result g = applyLoop R J rest
              (result ++ line ++ ascii "\n") (RandomGenerator.randomBool R J.m_density g).2 := by
            simp only [applyLoop, hb, hi, if_true, if_false, Bool.false_eq_true]
          rw [hstep, he]
          simp only [List.zipWith_cons_cons, List.flatten_cons, renderLines_nil, List.append_nil,
            List.append_assoc]
        · intro p hp hne
          simp only [List.zip_cons_cons, List.mem_cons] at hp
          rcases hp with hp | hp
          · subst hp; exact absurd rfl hne
          · exact hj p hp hne
    · obtain ⟨junk, hl, he, hj⟩ := ih (result ++ line ++ ascii "\n")
        (RandomGenerator.randomBool R J.m_density g).2
      refine ⟨[] :: junk, by simp [hl], ?_, ?_⟩
      · have hstep : applyLoop R J (line :: rest) result g = applyLoop R J rest
            (result ++ line ++ ascii "\n") (RandomGenerator.randomBool R J.m_density g).2 := by
          simp only [applyLoop, hb, if_false, Bool.false_eq_true]
        rw [hstep, he]
        simp only [List.zipWith_cons_cons, List.flatten_cons, renderLines_nil, List.append_nil,
          List.append_assoc]
      · intro p hp hne
        simp only [List.zip_cons_cons, List.mem_cons] at hp
        rcases hp with hp | hp
        · subst hp; exact absurd rfl hne
        · exact hj p hp hne

theorem insertable_iff (currentLine : Str) :
    insertable currentLine = true ↔
      currentLine ≠ [] ∧ currentLine.head? ≠ some 35 ∧ find currentLine (ascii "//") = none ∧
        find currentLine (ascii "/*") = none ∧ find currentLine (ascii ":") = none := by
  cases currentLine with
  | nil => simp [insertable]
  | cons c cs => simp [insertable, and_assoc]

theorem apply_structure (R : StdRandom G) (J : JunkInstructionStrategy) (input : Str) (g : G) :
    ∃ junk : List (List Str), junk.length = (splitLines input).length ∧
      (apply R J input g).2.1 =
        (List.zipWith (fun line js => line ++ ascii "\n" ++ renderLines js)
          (splitLines input) junk).flatten ∧
      ∀ p ∈ List.zip (splitLines input) junk, p.2 ≠ [] →
        p.1 ≠ [] ∧ p.1.head? ≠ some 35 ∧ find p.1 (ascii "//") = none ∧
          find p.1 (ascii "/*") = none ∧ find p.1 (ascii ":") = none := by
  obtain ⟨junk, hl, he, hj⟩ := applyLoop_structure R J (splitLines input) [] g
  exact ⟨junk, hl, by rw [apply, he, List.nil_append],
    fun p hp hne => (insertable_iff p.1).mp (hj p hp hne)⟩

set_option maxRecDepth 100000 in
/-- C31 (the code at the failing input): the line `  #include <stdio.h>` is a
preprocessor directive, its first non-blank character being `#`, but its
character at index 0 is a blank, so it passes the test of `apply`; with
density 1 (and `maxPerBlock` 1) a junk statement is written directly after
it. -/
theorem apply_junk_after_indented_directive :
    (ascii "  #include <stdio.h>").dropWhile CodeParser.isBlank = ascii "#include <stdio.h>" ∧
    insertable (ascii "  #include <stdio.h>") = true ∧
    insertable (ascii "#include <stdio.h>") = false ∧
    (apply lcg ((({} : JunkInstructionStrategy).setDensity 1).setMaxPerBlock 1)
      (ascii "  #include <stdio.h>") 0).2.1 =
      ascii ("  #include <stdio.h>\n" ++
        "    \x7b volatile char __stack_tmp[8]; __stack_tmp[0] = 0; \x7d\n") := by
  refine ⟨by decide, by decide, by decide, ?_⟩
  have hb : RandomGenerator.randomBool lcg 1 0 = (true, 12345) :=
    Prod.ext (RandomGenerator.randomBool_one lcg lcg_realInUnit 0) (by decide)
  have hs : splitLines (ascii "  #include <stdio.h>") = [ascii "  #include <stdio.h>"] := by decide
  have hi : insertable (ascii "  #include <stdio.h>") = true := by decide
  simp only [apply, hs, applyLoop, setDensity, setMaxPerBlock, hb, hi, if_true]
  decide

end JunkInstructionStrategy

/-! ### CodeParser: the positions recorded for a second function -/

namespace CodeParser

set_option maxRecDepth 1000000 in
/-- C36 (the code at the failing input): in the text
`int f() { a; } int g() { b; }` the header of `g` ends with the `{` at index
23, so that the body of `g` is the text ` b; ` from index 24 to index 28. The
record of `g` has `startPos = 15`: `match.position()` is counted from the
start of the second search (index 9), not from the start of the text. The
character just before `startPos` is a blank, not the `{` of the header, and
the recorded body is empty. The record of the first function is right. -/
theorem parse_second_function_position :
    (parse {} (ascii "int f() \x7b a; \x7d int g() \x7b b; \x7d")).1 = true ∧
    (parse {} (ascii "int f() \x7b a; \x7d int g() \x7b b; \x7d")).2.m_functions.map
      (fun func => (func.name, func.startPos, func.endPos, func.body)) =
      [(ascii "f", 9, 13, ascii " a; "), (ascii "g", 15, 15, [])] ∧
    (ascii "int f() \x7b a; \x7d int g() \x7b b; \x7d").get? (15 - 1) = some 32 ∧
    (ascii "int f() \x7b a; \x7d int g() \x7b b; \x7d").get? 23 = some 123 ∧
    ((ascii "int f() \x7b a; \x7d int g() \x7b b; \x7d").drop 24).take 4 = ascii " b; " ∧
    (Regex.allMatches Regex.funcPattern (ascii "int f() \x7b a; \x7d int g() \x7b b; \x7d")).map
      (fun m => (m.1, Regex.matchLength m.2)) = [(0, 9), (6, 9)] := by
  decide

set_option maxRecDepth 1000000 in
theorem parse_second_function_body_sample :
    (parse {}
      (ascii "namespace n \x7b int f() \x7b a; \x7d int g() \x7b b; \x7d \x7d")).2.m_functions.map
      (fun func => (func.name, func.startPos, func.endPos, func.body)) =
      [(ascii "f", 23, 27, ascii " a; "),
       (ascii "g", 15, 44, ascii "nt f() \x7b a; \x7d int g() \x7b b; \x7d ")] := by
  decide

end CodeParser

/-! ### Delimiter balance under the transformations -/

namespace CodeValidator

theorem delta_nil : delta [] = 0 := rfl

theorem delta_append (a b : Str) : delta (a ++ b) = delta a + delta b := by
  simp only [delta, List.count_append, Prod.mk_add_mk, Nat.cast_add, Prod.mk.injEq]
  refine ⟨?_, ?_, ?_⟩ <;> ring

theorem delta_flatten_zero (parts : List Str) (h : ∀ part ∈ parts, delta part = 0) :
    delta parts.flatten = 0 := by
  induction parts with
  | nil => rfl
  | cons p ps ih =>
    rw [List.flatten_cons, delta_append, h p (List.mem_cons_self _ _),
      ih (fun q hq => h q (List.mem_cons_of_mem _ hq)), add_zero]

theorem delta_of_plain (s : Str)
    (h : ∀ b ∈ s, b ≠ 123 ∧ b ≠ 125 ∧ b ≠ 40 ∧ b ≠ 41 ∧ b ≠ 91 ∧ b ≠ 93) : delta s = 0 := by
  have hc : ∀ d : Byte, (∀ b ∈ s, b ≠ d) → s.count d = 0 := by
    intro d hd
    rw [List.count_eq_zero]
    intro hm
    exact hd d hm rfl
  simp only [delta, hc 123 (fun b hb => (h b hb).1), hc 125 (fun b hb => (h b hb).2.1),
    hc 40 (fun b hb => (h b hb).2.2.1), hc 41 (fun b hb => (h b hb).2.2.2.1),
    hc 91 (fun b hb => (h b hb).2.2.2.2.1), hc 93 (fun b hb => (h b hb).2.2.2.2.2)]
  rfl

theorem validateSyntax_eq_true (code : Str) :
    validateSyntax code = true ↔ code ≠ [] ∧ delta code = 0 := by
  cases code with
  | nil => simp [validateSyntax]
  | cons c cs =>
    obtain ⟨h1, h2, h3⟩ := foldl_countChar (c :: cs) {}
    simp only [validateSyntax, List.isEmpty_cons, Bool.false_eq_true, if_false, Bool.and_eq_true,
      beq_iff_eq, h1, h2, h3, delta, ne_eq, List.cons_ne_nil, not_false_eq_true, true_and,
      Prod.mk_eq_zero]
    constructor
    · rintro ⟨⟨a, b⟩, c⟩
      refine ⟨?_, ?_, ?_⟩ <;> omega
    · rintro ⟨a, b, c⟩
      refine ⟨⟨?_, ?_⟩, ?_⟩ <;> omega

end CodeValidator

theorem digitChar_large (d : Nat) (hd : ¬ d < 16) : Nat.digitChar d = '*' := by
  unfold Nat.digitChar
  repeat rw [if_neg (by omega)]

set_option maxRecDepth 100000 in
theorem digitChar_plain (d : Nat) :
    (Fin.ofNat (Nat.digitChar d).toNat : Byte) ≠ 123 ∧
    (Fin.ofNat (Nat.digitChar d).toNat : Byte) ≠ 125 ∧
    (Fin.ofNat (Nat.digitChar d).toNat : Byte) ≠ 40 ∧
    (Fin.ofNat (Nat.digitChar d).toNat : Byte) ≠ 41 ∧
    (Fin.ofNat (Nat.digitChar d).toNat : Byte) ≠ 91 ∧
    (Fin.ofNat (Nat.digitChar d).toNat : Byte) ≠ 93 := by
  by_cases hd : d < 16
  · interval_cases d <;> decide
  · rw [digitChar_large d hd]
    decide

theorem toDigitsCore_digitChar (base : Nat) : ∀ (fuel n : Nat) (ds : List Char),
    (∀ c ∈ ds, ∃ d, c = Nat.digitChar d) →
    ∀ c ∈ Nat.toDigitsCore base fuel n ds, ∃ d, c = Nat.digitChar d := by
  intro fuel
  induction fuel with
  | zero => intro n ds h c hc; exact h c (by simpa [Nat.toDigitsCore] using hc)
  | succ fuel ih =>
    intro n ds h c hc
    have hds : ∀ c ∈ Nat.digitChar (n % base) :: ds, ∃ d, c = Nat.digitChar d := by
      intro c hc
      rcases List.mem_cons.mp hc with hc | hc
      · exact ⟨_, hc⟩
      · exact h c hc
    simp only [Nat.toDigitsCore] at hc
    split_ifs at hc
    · exact hds c hc
    · exact ih _ _ hds c hc

set_option maxRecDepth 100000 in
theorem to_string_plain (n : Int) :
    ∀ b ∈ to_string n, b ≠ 123 ∧ b ≠ 125 ∧ b ≠ 40 ∧ b ≠ 41 ∧ b ≠ 91 ∧ b ≠ 93 := by
  have hnat : ∀ m : Nat, ∀ b ∈ ascii (toString m),
      b ≠ 123 ∧ b ≠ 125 ∧ b ≠ 40 ∧ b ≠ 41 ∧ b ≠ 91 ∧ b ≠ 93 := by
    intro m b hb
    have hb2 : b ∈ (Nat.toDigits 10 m).map (fun c => (Fin.ofNat c.toNat : Byte)) := hb
    rw [List.mem_map] at hb2
    obtain ⟨c, hc, rfl⟩ := hb2
    obtain ⟨d, rfl⟩ := toDigitsCore_digitChar 10 (m + 1) m [] (by simp) c hc
    exact digitChar_plain d
  intro b hb
  cases n with
  | ofNat m => exact hnat m b hb
  | negSucc m =>
    have hb2 : b ∈ ascii "-" ++ ascii (toString (m + 1)) := by
      have e : to_string (Int.negSucc m) = ascii "-" ++ ascii (toString (m + 1)) := by
        show ascii ("-" ++ toString (Nat.succ m)) = _
        simp [ascii, String.toList]
      rw [e] at hb
      exact hb
    rcases List.mem_append.mp hb2 with h | h
    · have hm : ∀ x ∈ ascii "-", x ≠ 123 ∧ x ≠ 125 ∧ x ≠ 40 ∧ x ≠ 41 ∧ x ≠ 91 ∧ x ≠ 93 := by
        decide
      exact hm b h
    · exact hnat (m + 1) b h

namespace CodeValidator

theorem delta_to_string (n : Int) : delta (to_string n) = 0 :=
  delta_of_plain _ (to_string_plain n)

theorem delta_newline : delta (ascii "\n") = 0 := by decide

theorem delta_renderLines (lines : List Str) :
    delta (renderLines lines) = delta lines.flatten := by
  induction lines with
  | nil => rfl
  | cons l ls ih =>
    have h := ih
    simp only [renderLines, List.map_cons, List.flatten_cons, delta_append, delta_newline,
      add_zero] at h ⊢
    rw [h]

theorem delta_splitLines (s : Str) : delta (renderLines (splitLines s)) = delta s := by
  have h := splitLines_of_flatten_eq s
  unfold renderLines
  rw [h]
  split_ifs
  · rfl
  · rw [delta_append]
    have : delta [10] = 0 := by decide
    rw [this, add_zero]

end CodeValidator

theorem splitLines_ne_nil (s : Str) (h : s ≠ []) : splitLines s ≠ [] := by
  cases s with
  | nil => exact absurd rfl h
  | cons c cs => simp [splitLines, readLines, getline]

namespace JunkInstructionStrategy

variable {G : Type}

set_option maxRecDepth 100000 in
theorem junkGroup_delta (R : StdRandom G) (g : G) :
    ∀ l ∈ (junkGroup R g).1, CodeValidator.delta l = 0 := by
  have hflat : CodeValidator.delta (junkGroup R g).1.flatten = 0 ∧
      ∀ l ∈ (junkGroup R g).1, CodeValidator.delta l = 0 := by
    unfold junkGroup
    simp only
    split_ifs <;>
      simp only [List.flatten_cons, List.flatten_nil, List.append_nil, List.mem_cons,
        List.mem_singleton, List.not_mem_nil, or_false, forall_eq_or_imp, forall_eq,
        CodeValidator.delta_append, CodeValidator.delta_to_string, add_zero, zero_add,
        false_implies, implies_true, and_true] <;>
      decide
  exact hflat.2

theorem junkLoop_delta (R : StdRandom G) : ∀ (n : Nat) (instructions : List Str) (g : G),
    (∀ l ∈ instructions, CodeValidator.delta l = 0) →
    ∀ l ∈ (junkLoop R n instructions g).1, CodeValidator.delta l = 0 := by
  intro n
  induction n with
  | zero => intro instructions g h l hl; exact h l hl
  | succ n ih =>
    intro instructions g h l hl
    refine ih (instructions ++ (junkGroup R g).1) (junkGroup R g).2 ?_ l hl
    intro x hx
    rcases List.mem_append.mp hx with hx | hx
    · exact h x hx
    · exact junkGroup_delta R g x hx

theorem generateJunkInstructions_delta (R : StdRandom G) (count : Int) (g : G) :
    CodeValidator.delta (renderLines (generateJunkInstructions R count g).1) = 0 := by
  rw [CodeValidator.delta_renderLines]
  exact CodeValidator.delta_flatten_zero _ (junkLoop_delta R count.toNat [] g (by simp))

theorem junkApplyLoop_delta (R : StdRandom G) (J : JunkInstructionStrategy) (lines : List Str) :
    ∀ (result : Str) (g : G), ∃ t, (applyLoop R J lines result g).1 = result ++ t ∧
      CodeValidator.delta t = CodeValidator.delta (renderLines lines) ∧ (lines ≠ [] → t ≠ []) := by
  induction lines with
  | nil => intro result g; exact ⟨[], by simp [applyLoop], rfl, fun h => absurd rfl h⟩
  | cons line rest ih =>
    intro result g
    have hrl : renderLines (line :: rest) = line ++ ascii "\n" ++ renderLines rest := by
      simp [renderLines]
    by_cases hb : (RandomGenerator.randomBool R J.m_density g).1 = true ∧ insertable line = true
    · obtain ⟨t, he, hd, _⟩ := ih
        (emitJunk (result ++ line ++ ascii "\n")
          (generateJunkInstructions R
            (RandomGenerator.randomInt R 1 J.m_maxPerBlock
              (RandomGenerator.randomBool R J.m_density g).2).1
            (RandomGenerator.randomInt R 1 J.m_maxPerBlock
              (RandomGenerator.randomBool R J.m_density g).2).2).1)
        (generateJunkInstructions R
          (RandomGenerator.randomInt R 1 J.m_maxPerBlock
            (RandomGenerator.randomBool R J.m_density g).2).1
          (RandomGenerator.randomInt R 1 J.m_maxPerBlock
            (RandomGenerator.randomBool R J.m_density g).2).2).2
      have hstep : applyLoop R J (line :: rest) result g = applyLoop R J rest
          (emitJunk (result ++ line ++ ascii "\n")
            (generateJunkInstructions R
              (RandomGenerator.randomInt R 1 J.m_maxPerBlock
                (RandomGenerator.randomBool R J.m_density g).2).1
              (RandomGenerator.randomInt R 1 J.m_maxPerBlock
                (RandomGenerator.randomBool R J.m_density g).2).2).1)
          (generateJunkInstructions R
            (RandomGenerator.randomInt R 1 J.m_maxPerBlock
              (RandomGenerator.randomBool R J.m_density g).2).1
            (RandomGenerator.randomInt R 1 J.m_maxPerBlock
              (RandomGenerator.randomBool R J.m_density g).2).2).2 := by
        simp only [applyLoop, hb.1, hb.2, if_true]
      refine ⟨line ++ ascii "\n" ++ renderLines (generateJunkInstructions R
          (RandomGenerator.randomInt R 1 J.m_maxPerBlock
            (RandomGenerator.randomBool R J.m_density g).2).1
          (RandomGenerator.randomInt R 1 J.m_maxPerBlock
            (RandomGenerator.randomBool R J.m_density g).2).2).1 ++ t, ?_, ?_, ?_⟩
      · rw [hstep, he, emitJunk_eq]
        simp only [List.append_assoc]
      · rw [hrl]
        simp only [CodeValidator.delta_append, generateJunkInstructions_delta, hd, add_zero]
      · intro _ h
        have hl := congrArg List.length h
        simp [ascii_newline] at hl
    · obtain ⟨t, he, hd, _⟩ := ih (result ++ line ++ ascii "\n")
        (RandomGenerator.randomBool R J.m_density g).2
      have hstep : applyLoop R J (line :: rest) result g = applyLoop R J rest
          (result ++ line ++ ascii "\n") (RandomGenerator.randomBool R J.m_density g).2 := by
        by_cases h1 : (RandomGenerator.randomBool R J.m_density g).1 = true
        · have h2 : ¬ insertable line = true := fun h2 => hb ⟨h1, h2⟩
          simp only [applyLoop, h1, h2, if_true, if_false, Bool.false_eq_true]
        · simp only [applyLoop, h1, if_false, Bool.false_eq_true]
      refine ⟨line ++ ascii "\n" ++ t, ?_, ?_, ?_⟩
      · rw [hstep, he]
        simp only [List.append_assoc]
      · rw [hrl]
        simp only [CodeValidator.delta_append, hd]
      · intro _ h
        have hl := congrArg List.length h
        simp [ascii_newline] at hl

theorem junkApply_valid (R : StdRandom G) (J : JunkInstructionStrategy) (input : Str) (g : G)
    (hne : input ≠ []) :
    (apply R J input g).2.1 ≠ [] ∧
    CodeValidator.delta (apply R J input g).2.1 = CodeValidator.delta input := by
  obtain ⟨t, he, hd, hn⟩ := junkApplyLoop_delta R J (splitLines input) [] g
  rw [List.nil_append] at he
  refine ⟨?_, ?_⟩
  · show (applyLoop R J (splitLines input) [] g).1 ≠ []
    rw [he]
    exact hn (splitLines_ne_nil input hne)
  · show CodeValidator.delta (applyLoop R J (splitLines input) [] g).1 = _
    rw [he, hd, CodeValidator.delta_splitLines]

end JunkInstructionStrategy

namespace OpaquePredicateStrategy

variable {G : Type}

set_option maxRecDepth 100000 in
theorem generateOpaquePredicate_delta (R : StdRandom G) (alwaysTrue : Bool) (g : G) :
    CodeValidator.delta (generateOpaquePredicate R alwaysTrue g).1 = 0 := by
  unfold generateOpaquePredicate
  simp only
  split_ifs <;>
    simp only [CodeValidator.delta_append, CodeValidator.delta_to_string, add_zero, zero_add] <;>
    decide

theorem predicateApplyLoop_delta (R : StdRandom G) (lines : List Str) :
    ∀ (previous : Option Str) (result : Str) (g : G),
      ∃ t, (applyLoop R lines previous result g).1 = result ++ t ∧
        CodeValidator.delta t = CodeValidator.delta (renderLines lines) ∧
        (lines ≠ [] → t ≠ []) := by
  induction lines with
  | nil => intro previous result g; exact ⟨[], by simp [applyLoop], rfl, fun h => absurd rfl h⟩
  | cons line rest ih =>
    intro previous result g
    have hrl : renderLines (line :: rest) = line ++ ascii "\n" ++ renderLines rest := by
      simp [renderLines]
    by_cases hc : ((find line (ascii "\x7b")).isSome && previous.isSome &&
        ((previous.bind (fun l => find l (ascii "("))).isSome)) = true
    · by_cases hb : (RandomGenerator.randomBool R double_0_4 g).1 = true
      · obtain ⟨t, he, hd, _⟩ := ih (some line)
          (result ++ line ++ ascii "\n"
            ++ (generateOpaquePredicate R true (RandomGenerator.randomBool R double_0_4 g).2).1
            ++ ascii "\n")
          (generateOpaquePredicate R true (RandomGenerator.randomBool R double_0_4 g).2).2
        have hstep : applyLoop R (line :: rest) previous result g = applyLoop R rest (some line)
            (result ++ line ++ ascii "\n"
              ++ (generateOpaquePredicate R true (RandomGenerator.randomBool R double_0_4 g).2).1
              ++ ascii "\n")
            (generateOpaquePredicate R true (RandomGenerator.randomBool R double_0_4 g).2).2 := by
          simp only [applyLoop, hc, hb, if_true]
        refine ⟨line ++ ascii "\n"
            ++ (generateOpaquePredicate R true (RandomGenerator.randomBool R double_0_4 g).2).1
            ++ ascii "\n" ++ t, ?_, ?_, ?_⟩
        · rw [hstep, he]
          simp only [List.append_assoc]
        · rw [hrl]
          simp only [CodeValidator.delta_append, generateOpaquePredicate_delta,
            CodeValidator.delta_newline, hd, add_zero]
        · intro _ h
          have hl := congrArg List.length h
          simp [ascii_newline] at hl
      · obtain ⟨t, he, hd, _⟩ := ih (some line) (result ++ line ++ ascii "\n")
          (RandomGenerator.randomBool R double_0_4 g).2
        have hstep : applyLoop R (line :: rest) previous result g = applyLoop R rest (some line)
            (result ++ line ++ ascii "\n") (RandomGenerator.randomBool R double_0_4 g).2 := by
          simp only [applyLoop, hc, hb, if_true, if_false, Bool.false_eq_true]
        refine ⟨line ++ ascii "\n" ++ t, ?_, ?_, ?_⟩
        · rw [hstep, he]
          simp only [List.append_assoc]
        · rw [hrl]
          simp only [CodeValidator.delta_append, hd]
        · intro _ h
          have hl := congrArg List.length h
          simp [ascii_newline] at hl
    · obtain ⟨t, he, hd, _⟩ := ih (some line) (result ++ line ++ ascii "\n") g
      have hstep : applyLoop R (line :: rest) previous result g = applyLoop R rest (some line)
          (result ++ line ++ ascii "\n") g := by
        simp only [applyLoop, hc, if_false, Bool.false_eq_true]
      refine ⟨line ++ ascii "\n" ++ t, ?_, ?_, ?_⟩
      · rw [hstep, he]
        simp only [List.append_assoc]
      · rw [hrl]
        simp only [CodeValidator.delta_append, hd]
      · intro _ h
        have hl := congrArg List.length h
        simp [ascii_newline] at hl

theorem predicateApply_valid (R : StdRandom G) (input : Str) (g : G) (hne : input ≠ []) :
    (apply R input g).2.1 ≠ [] ∧
    CodeValidator.delta (apply R input g).2.1 = CodeValidator.delta input := by
  obtain ⟨t, he, hd, hn⟩ := predicateApplyLoop_delta R (splitLines input) none [] g
  rw [List.nil_append] at he
  refine ⟨?_, ?_⟩
  · show (applyLoop R (splitLines input) none [] g).1 ≠ []
    rw [he]
    exact hn (splitLines_ne_nil input hne)
  · show CodeValidator.delta (applyLoop R (splitLines input) none [] g).1 = _
    rw [he, hd, CodeValidator.delta_splitLines]

end OpaquePredicateStrategy

namespace Regex

theorem searchLoop_matched (items : List Item) : ∀ (fuel : Nat) (s : Str),
    ∀ m ∈ searchLoop items fuel s, ∃ t, matchItems items t = some m.2 := by
  intro fuel
  induction fuel with
  | zero => intro s m hm; simp [searchLoop] at hm
  | succ fuel ih =>
    intro s m hm
    simp only [searchLoop] at hm
    cases hr : regex_search items s with
    | none => simp [hr] at hm
    | some m0 =>
      simp only [hr, List.mem_cons] at hm
      rcases hm with hm | hm
      · subst hm
        obtain ⟨_, _, h3⟩ := searchAt_sound items s 0 m.1 m.2 hr
        exact ⟨_, h3⟩
      · exact ih _ m hm

end Regex

theorem find_some_split (s pat : Str) (pos : Nat) (h : find s pat = some pos) :
    s = s.take pos ++ pat ++ s.drop (pos + pat.length) := by
  obtain ⟨_, h2, _⟩ := findAt_zero_some pat s pos h
  obtain ⟨t, ht⟩ := List.isPrefixOf_iff_prefix.mp h2
  have hd : s.drop (pos + pat.length) = t := by
    rw [← List.drop_drop, ← ht, List.drop_left]
  rw [hd, List.append_assoc, ht, List.take_append_drop]

namespace StringEncryptionStrategy

variable {G : Type}

theorem stringPattern_pieces (s : Str) (pieces : List Str)
    (h : Regex.matchItems stringPattern s = some pieces) :
    ∃ x, pieces = [[34], x, [34]] := by
  have e1 : Regex.matchItems stringPattern s =
      if ([34] : Str).isPrefixOf s then
        (Regex.matchItems [.plus (fun c => c != 34), .lit [34]] (s.drop 1)).map
          (fun r => [34] :: r)
      else none := rfl
  rw [e1] at h
  by_cases hp : ([34] : Str).isPrefixOf s = true
  · rw [if_pos hp, Option.map_eq_some'] at h
    obtain ⟨r, hr, e⟩ := h
    subst e
    generalize s.drop 1 = s1 at hr
    cases s1 with
    | nil => simp [Regex.matchItems] at hr
    | cons c cs =>
      have e2 : Regex.matchItems [.plus (fun c => c != 34), .lit [34]] (c :: cs) =
          if (c != 34) = true then
            (Regex.matchStar (fun c => c != 34) (Regex.matchItems [.lit [34]]) cs).map
              (fun r => (c :: r.1) :: r.2)
          else none := rfl
      rw [e2] at hr
      by_cases hc : (c != 34) = true
      · rw [if_pos hc, Option.map_eq_some'] at hr
        obtain ⟨q, hq, e3⟩ := hr
        subst e3
        obtain ⟨rest, _, hk, _⟩ := Regex.matchStar_sound _ _ cs q.1 q.2 hq
        by_cases hp2 : ([34] : Str).isPrefixOf rest = true
        · simp only [Regex.matchItems, hp2, if_true, Option.map_some', Option.some.injEq] at hk
          exact ⟨c :: q.1, by rw [← hk]⟩
        · simp [Regex.matchItems, hp2] at hk
      · rw [if_neg hc] at hr
        cases hr
  · rw [if_neg hp] at h
    cases h

set_option maxRecDepth 100000 in
theorem collect_delta (R : StdRandom G) (minLength : Int) (matches_ : List (Nat × List Str)) :
    ∀ (replacements : List (Str × Str)) (g : G),
      (∀ m ∈ matches_, ∃ x, m.2 = [[34], x, [34]]) →
      (∀ p ∈ replacements, CodeValidator.delta p.2 = CodeValidator.delta p.1 ∧ p.2 ≠ []) →
      ∀ p ∈ (collect R minLength matches_ replacements g).1,
        CodeValidator.delta p.2 = CodeValidator.delta p.1 ∧ p.2 ≠ [] := by
  induction matches_ with
  | nil => intro replacements g _ hr p hp; exact hr p (by simpa [collect] using hp)
  | cons m rest ih =>
    intro replacements g hm hr p hp
    have hrest : ∀ m ∈ rest, ∃ x, m.2 = [[34], x, [34]] :=
      fun m0 h0 => hm m0 (List.mem_cons_of_mem _ h0)
    obtain ⟨x, hx⟩ := hm m (List.mem_cons_self _ _)
    by_cases hl : longEnough minLength (m.2.getD 1 []) = true
    · simp only [collect, hl, if_true] at hp
      refine ih _ _ hrest ?_ p hp
      intro q hq
      rcases List.mem_append.mp hq with hq | hq
      · exact hr q hq
      · rw [List.mem_singleton] at hq
        subst hq
        have hq1 : CodeValidator.delta (ascii "/* encrypted */ \"") = 0 := by decide
        have hq2 : CodeValidator.delta (ascii "\"") = 0 := by decide
        have hq3 : CodeValidator.delta ([34] : Str) = 0 := by decide
        refine ⟨?_, ?_⟩
        · simp only [hx, List.getD_cons_succ, List.getD_cons_zero, List.flatten_cons,
            List.flatten_nil, List.append_nil, CodeValidator.delta_append, hq1, hq2, hq3,
            add_zero, zero_add]
        · intro h
          have hlen := congrArg List.length h
          simp only [List.length_append, List.length_nil] at hlen
          have : 0 < (ascii "\"").length := by decide
          omega
    · simp only [collect, hl, if_false, Bool.false_eq_true] at hp
      exact ih _ _ hrest hr p hp

theorem applyReplacements_delta : ∀ (replacements : List (Str × Str)) (result : Str),
    (∀ p ∈ replacements, CodeValidator.delta p.2 = CodeValidator.delta p.1 ∧ p.2 ≠ []) →
    result ≠ [] →
    applyReplacements replacements result ≠ [] ∧
    CodeValidator.delta (applyReplacements replacements result) = CodeValidator.delta result := by
  intro replacements
  induction replacements with
  | nil => intro result _ hne; exact ⟨hne, rfl⟩
  | cons p rest ih =>
    intro result hr hne
    have hrest : ∀ q ∈ rest, CodeValidator.delta q.2 = CodeValidator.delta q.1 ∧ q.2 ≠ [] :=
      fun q hq => hr q (List.mem_cons_of_mem _ hq)
    obtain ⟨hd, hn⟩ := hr p (List.mem_cons_self _ _)
    obtain ⟨oldStr, newStr⟩ := p
    cases hf : find result oldStr with
    | none =>
      simp only [applyReplacements, hf]
      exact ih result hrest hne
    | some pos =>
      simp only [applyReplacements, hf]
      have hsplit := find_some_split result oldStr pos hf
      have hne2 : result.take pos ++ newStr ++ result.drop (pos + oldStr.length) ≠ [] := by
        intro h
        have hlen := congrArg List.length h
        have : 0 < newStr.length := List.length_pos.mpr hn
        simp only [List.length_append, List.length_nil] at hlen
        omega
      obtain ⟨h1, h2⟩ := ih _ hrest hne2
      refine ⟨h1, ?_⟩
      rw [h2]
      have hd2 : CodeValidator.delta newStr = CodeValidator.delta oldStr := hd
      conv_rhs => rw [hsplit]
      simp only [CodeValidator.delta_append, hd2]

theorem encryptApply_valid (R : StdRandom G) (S : StringEncryptionStrategy) (input : Str) (g : G)
    (hne : input ≠ []) :
    (apply R S input g).2.1 ≠ [] ∧
    CodeValidator.delta (apply R S input g).2.1 = CodeValidator.delta input := by
  have hm : ∀ m ∈ Regex.allMatches stringPattern input, ∃ x, m.2 = [[34], x, [34]] := by
    intro m hm
    obtain ⟨t, ht⟩ := Regex.searchLoop_matched stringPattern _ _ m hm
    exact stringPattern_pieces t m.2 ht
  have hc := collect_delta R S.m_minLength (Regex.allMatches stringPattern input) [] g hm
    (by simp)
  exact applyReplacements_delta _ input hc hne

end StringEncryptionStrategy

namespace ControlFlowRewriter

variable {G : Type}

set_option maxRecDepth 100000 in
theorem flattenControlFlow_valid (code : Str) :
    flattenControlFlow code ≠ [] ∧
    CodeValidator.delta (flattenControlFlow code) = CodeValidator.delta code := by
  rw [flattenControlFlow_form]
  refine ⟨by simp [ascii, String.toList], ?_⟩
  have h1 : CodeValidator.delta (ascii
      ("int __dispatcher_state = 0;\nwhile (1) \x7b\n    switch (__dispatcher_state) \x7b\n" ++
        "    case 0:\n")) = (2, 0, 0) := by decide
  have h2 : CodeValidator.delta (ascii
      ("\n        __dispatcher_state = 0;\n        break;\n    default:\n" ++
        "        goto __exit;\n    \x7d\n\x7d\n__exit:\n")) = (-2, 0, 0) := by decide
  rw [CodeValidator.delta_append, CodeValidator.delta_append, h1, h2]
  obtain ⟨a, b, c⟩ := CodeValidator.delta code
  simp only [Prod.mk_add_mk, Prod.mk.injEq]
  refine ⟨?_, ?_, ?_⟩ <;> omega

set_option maxRecDepth 100000 in
theorem fakeBranchLoop_delta (R : StdRandom G) (probability : ℚ) (lines : List Str) :
    ∀ (result : Str) (g : G), ∃ t, (fakeBranchLoop R probability lines result g).1 = result ++ t ∧
      CodeValidator.delta t = CodeValidator.delta (renderLines lines) ∧ (lines ≠ [] → t ≠ []) := by
  induction lines with
  | nil => intro result g; exact ⟨[], by simp [fakeBranchLoop], rfl, fun h => absurd rfl h⟩
  | cons line rest ih =>
    intro result g
    have hrl : renderLines (line :: rest) = line ++ ascii "\n" ++ renderLines rest := by
      simp [renderLines]
    have hdecoy : CodeValidator.delta
        (ascii "    if (0) \x7b volatile int __fake = 1; \x7d\n") = 0 := by decide
    by_cases hb : (RandomGenerator.randomBool R probability g).1 = true
    · obtain ⟨t, he, hd, _⟩ := ih
        (result ++ line ++ ascii "\n" ++ ascii "    if (0) \x7b volatile int __fake = 1; \x7d\n")
        (RandomGenerator.randomBool R probability g).2
      have hstep : fakeBranchLoop R probability (line :: rest) result g =
          fakeBranchLoop R probability rest
            (result ++ line ++ ascii "\n" ++ ascii "    if (0) \x7b volatile int __fake = 1; \x7d\n")
            (RandomGenerator.randomBool R probability g).2 := by
        simp only [fakeBranchLoop, hb, if_true]
      refine ⟨line ++ ascii "\n" ++ ascii "    if (0) \x7b volatile int __fake = 1; \x7d\n" ++ t,
        ?_, ?_, ?_⟩
      · rw [hstep, he]
        simp only [List.append_assoc]
      · rw [hrl]
        simp only [CodeValidator.delta_append, hdecoy, hd, add_zero]
      · intro _ h
        have hl := congrArg List.length h
        simp [ascii_newline] at hl
    · obtain ⟨t, he, hd, _⟩ := ih (result ++ line ++ ascii "\n")
        (RandomGenerator.randomBool R probability g).2
      have hstep : fakeBranchLoop R probability (line :: rest) result g =
          fakeBranchLoop R probability rest (result ++ line ++ ascii "\n")
            (RandomGenerator.randomBool R probability g).2 := by
        simp only [fakeBranchLoop, hb, if_false, Bool.false_eq_true]
      refine ⟨line ++ ascii "\n" ++ t, ?_, ?_, ?_⟩
      · rw [hstep, he]
        simp only [List.append_assoc]
      · rw [hrl]
        simp only [CodeValidator.delta_append, hd]
      · intro _ h
        have hl := congrArg List.length h
        simp [ascii_newline] at hl

theorem addFakeBranches_valid (R : StdRandom G) (code : Str) (probability : ℚ) (g : G)
    (hne : code ≠ []) :
    (addFakeBranches R code probability g).1 ≠ [] ∧
    CodeValidator.delta (addFakeBranches R code probability g).1 = CodeValidator.delta code := by
  obtain ⟨t, he, hd, hn⟩ := fakeBranchLoop_delta R probability (splitLines code) [] g
  rw [List.nil_append] at he
  refine ⟨?_, ?_⟩
  · rw [addFakeBranches, he]
    exact hn (splitLines_ne_nil code hne)
  · rw [addFakeBranches, he, hd, CodeValidator.delta_splitLines]

end ControlFlowRewriter

namespace ControlFlowFlatteningStrategy

set_option maxRecDepth 100000 in
theorem flatteningApply_valid (input : Str) :
    (apply input).2 ≠ [] ∧ CodeValidator.delta (apply input).2 = CodeValidator.delta input := by
  have hm : CodeValidator.delta (ascii "/* Control Flow Flattening Applied */\n") = 0 := by
    decide
  refine ⟨?_, ?_⟩
  · show ascii "/* Control Flow Flattening Applied */\n" ++ input ≠ []
    simp [ascii, String.toList]
  · show CodeValidator.delta (ascii "/* Control Flow Flattening Applied */\n" ++ input) = _
    rw [CodeValidator.delta_append, hm, zero_add]

end ControlFlowFlatteningStrategy

/-! ### The built-in strategies in the engine -/

namespace BuiltIn

variable {G : Type}

theorem of_junk (R : StdRandom G) (J : JunkInstructionStrategy) : BuiltIn R (J.toStrategy R) :=
  BuiltIn.junk J J.m_level J.m_enabled

theorem of_opaquePredicate (R : StdRandom G) (O : OpaquePredicateStrategy) :
    BuiltIn R (O.toStrategy R) :=
  BuiltIn.opaquePredicate O O.m_level O.m_enabled

theorem of_stringEncryption (R : StdRandom G) (S : StringEncryptionStrategy) :
    BuiltIn R (S.toStrategy R) :=
  BuiltIn.stringEncryption S S.m_level S.m_enabled

theorem of_symbol (R : StdRandom G) (S : SymbolObfuscationStrategy) : BuiltIn R S.toStrategy :=
  BuiltIn.symbol S S.m_level S.m_enabled

theorem of_flattening (R : StdRandom G) (F : ControlFlowFlatteningStrategy) :
    BuiltIn R F.toStrategy :=
  BuiltIn.flattening F F.m_level F.m_enabled

theorem closed_setLevel (R : StdRandom G) (s : ObfuscationStrategy G) (h : BuiltIn R s) (level : Int) :
    BuiltIn R (s.setLevel level) := by
  cases h with
  | junk J _ enabled => exact BuiltIn.junk J level enabled
  | opaquePredicate O _ enabled => exact BuiltIn.opaquePredicate O level enabled
  | stringEncryption S _ enabled => exact BuiltIn.stringEncryption S level enabled
  | symbol S _ enabled => exact BuiltIn.symbol S level enabled
  | flattening F _ enabled => exact BuiltIn.flattening F level enabled

theorem closed_setEnabled (R : StdRandom G) (s : ObfuscationStrategy G) (h : BuiltIn R s)
    (enabled : Bool) : BuiltIn R (s.setEnabled enabled) := by
  cases h with
  | junk J level _ => exact BuiltIn.junk J level enabled
  | opaquePredicate O level _ => exact BuiltIn.opaquePredicate O level enabled
  | stringEncryption S level _ => exact BuiltIn.stringEncryption S level enabled
  | symbol S level _ => exact BuiltIn.symbol S level enabled
  | flattening F level _ => exact BuiltIn.flattening F level enabled

theorem of_createStrategy (R : StdRandom G) (name : Str) (s : ObfuscationStrategy G)
    (h : StrategyFactory.createStrategy R name = some s) : BuiltIn R s := by
  unfold StrategyFactory.createStrategy at h
  split_ifs at h <;> cases h
  · exact of_junk R _
  · exact of_opaquePredicate R _
  · exact of_stringEncryption R _
  · exact of_symbol R _
  · exact of_flattening R _

set_option maxRecDepth 100000 in
theorem builtin_apply (R : StdRandom G) (s : ObfuscationStrategy G) (h : BuiltIn R s)
    (level : Int) (input output : Str) (g : G) :
    (s.apply level input output g).1 = true ∧
    (input ≠ [] → (s.apply level input output g).2.1 ≠ [] ∧
      CodeValidator.delta (s.apply level input output g).2.1 = CodeValidator.delta input) := by
  cases h with
  | junk J _ _ => exact ⟨rfl, JunkInstructionStrategy.junkApply_valid R J input g⟩
  | opaquePredicate O _ _ => exact ⟨rfl, OpaquePredicateStrategy.predicateApply_valid R input g⟩
  | stringEncryption S _ _ => exact ⟨rfl, StringEncryptionStrategy.encryptApply_valid R S input g⟩
  | symbol S _ _ => exact ⟨rfl, fun hne => ⟨hne, rfl⟩⟩
  | flattening F _ _ =>
    exact ⟨rfl, fun _ => ControlFlowFlatteningStrategy.flatteningApply_valid input⟩

end BuiltIn

namespace ObfuscationEngine

variable {G : Type}

theorem applyStrategiesLoop_builtin (R : StdRandom G) (strategies : List (ObfuscationStrategy G))
    (hall : ∀ s ∈ strategies, BuiltIn R s) :
    ∀ (currentCode nextCode : Str) (applied : Int) (g : G),
      (applyStrategiesLoop strategies currentCode nextCode applied g).2.2.1 =
        applied + ((strategies.filter (fun s => s.m_enabled)).length : Int) ∧
      (currentCode ≠ [] →
        (applyStrategiesLoop strategies currentCode nextCode applied g).1 ≠ [] ∧
        CodeValidator.delta (applyStrategiesLoop strategies currentCode nextCode applied g).1 =
          CodeValidator.delta currentCode) ∧
      ((∀ s ∈ strategies, s.m_enabled = false) →
        (applyStrategiesLoop strategies currentCode nextCode applied g).1 = currentCode) := by
  induction strategies with
  | nil => intro c n a g; simp [applyStrategiesLoop]
  | cons s rest ih =>
    intro c n a g
    have hrest : ∀ x ∈ rest, BuiltIn R x := fun x hx => hall x (List.mem_cons_of_mem _ hx)
    have hs := BuiltIn.builtin_apply R s (hall s (List.mem_cons_self _ _)) s.m_level c n g
    by_cases he : s.m_enabled = true
    · obtain ⟨i1, i2, _⟩ := ih hrest (s.apply s.m_level c n g).2.1 (s.apply s.m_level c n g).2.1
        (a + 1) (s.apply s.m_level c n g).2.2
      have hstep : applyStrategiesLoop (s :: rest) c n a g =
          applyStrategiesLoop rest (s.apply s.m_level c n g).2.1 (s.apply s.m_level c n g).2.1
            (a + 1) (s.apply s.m_level c n g).2.2 := by
        simp only [applyStrategiesLoop, he, hs.1, Bool.not_true, Bool.false_eq_true, if_false,
          if_true]
      rw [hstep]
      refine ⟨?_, ?_, ?_⟩
      · rw [i1]
        simp only [List.filter_cons, he, if_true, List.length_cons, Nat.cast_add, Nat.cast_one]
        ring
      · intro hne
        obtain ⟨h1, h2⟩ := hs.2 hne
        obtain ⟨h3, h4⟩ := i2 h1
        exact ⟨h3, by rw [h4, h2]⟩
      · intro hd
        have := hd s (List.mem_cons_self _ _)
        rw [he] at this
        cases this
    · have he2 : s.m_enabled = false := by simpa using he
      obtain ⟨i1, i2, i3⟩ := ih hrest c n a g
      have hstep : applyStrategiesLoop (s :: rest) c n a g = applyStrategiesLoop rest c n a g := by
        simp only [applyStrategiesLoop, he2, Bool.not_false, if_true]
      rw [hstep]
      refine ⟨?_, i2, fun hd => i3 (fun x hx => hd x (List.mem_cons_of_mem _ hx))⟩
      rw [i1]
      simp only [List.filter_cons, he2, Bool.false_eq_true, if_false]

theorem addStrategy_builtin (R : StdRandom G) (E : ObfuscationEngine G)
    (hE : ∀ s ∈ E.m_strategies, BuiltIn R s) (strategy : Option (ObfuscationStrategy G))
    (hs : ∀ s, strategy = some s → BuiltIn R s) :
    ∀ s ∈ (E.addStrategy strategy).m_strategies, BuiltIn R s := by
  cases strategy with
  | none => exact hE
  | some s0 =>
    intro s hm
    simp only [addStrategy, List.mem_append, List.mem_singleton] at hm
    rcases hm with hm | hm
    · exact hE s hm
    · subst hm
      exact BuiltIn.closed_setLevel R s0 (hs s0 rfl) _

theorem fullEngine_builtin (R : StdRandom G) :
    ∀ s ∈ (Sample.fullEngine R).m_strategies, BuiltIn R s := by
  unfold Sample.fullEngine
  refine addStrategy_builtin R _ (addStrategy_builtin R _ (addStrategy_builtin R _
    (addStrategy_builtin R _ (addStrategy_builtin R _ ?_ _ ?_) _ ?_) _ ?_) _ ?_) _ ?_
  · intro s hs
    simp [setObfuscationLevel] at hs
  · exact fun s h => BuiltIn.of_createStrategy R _ s h
  · exact fun s h => BuiltIn.of_createStrategy R _ s h
  · intro s h
    cases hc : StrategyFactory.createStrategy R (ascii "StringEncryption") with
    | none => simp [hc] at h
    | some s0 =>
      simp only [hc, Option.map_some', Option.some.injEq] at h
      subst h
      exact BuiltIn.closed_setEnabled R s0 (BuiltIn.of_createStrategy R _ s0 hc) false
  · exact fun s h => BuiltIn.of_createStrategy R _ s h
  · exact fun s h => BuiltIn.of_createStrategy R _ s h

end ObfuscationEngine

/-! ### Claims on the built-in transformations -/

namespace CodeValidator

variable {G : Type}

/-- C38: every built-in transformation preserves the balance that
`validateSyntax` checks. For every input that `validateSyntax` accepts, every
setting of the parameters and every generator state, the outputs of the five
strategies, of `flattenControlFlow` and of `addFakeBranches` are accepted too,
and so is the output of `obfuscate` (which succeeds) for every engine whose
chain is made of built-in strategies. -/
theorem transformations_preserve_validateSyntax (R : StdRandom G) (input : Str)
    (hv : validateSyntax input = true) :
    (∀ (J : JunkInstructionStrategy) (g : G),
      validateSyntax (JunkInstructionStrategy.apply R J input g).2.1 = true) ∧
    (∀ g : G, validateSyntax (OpaquePredicateStrategy.apply R input g).2.1 = true) ∧
    (∀ (S : StringEncryptionStrategy) (g : G),
      validateSyntax (StringEncryptionStrategy.apply R S input g).2.1 = true) ∧
    validateSyntax (SymbolObfuscationStrategy.apply input).2 = true ∧
    validateSyntax (ControlFlowFlatteningStrategy.apply input).2 = true ∧
    validateSyntax (ControlFlowRewriter.flattenControlFlow input) = true ∧
    (∀ (probability : ℚ) (g : G),
      validateSyntax (ControlFlowRewriter.addFakeBranches R input probability g).1 = true) ∧
    (∀ (s : ObfuscationStrategy G), BuiltIn R s → ∀ (level : Int) (output : Str) (g : G),
      validateSyntax (s.apply level input output g).2.1 = true) ∧
    (∀ E : ObfuscationEngine G, (∀ s ∈ E.m_strategies, BuiltIn R s) →
      ∀ (outputCode : Str) (g : G) (elapsed : ℚ),
        (E.obfuscate input outputCode g elapsed).ret = true ∧
        validateSyntax (E.obfuscate input outputCode g elapsed).outputCode = true) := by
  obtain ⟨hne, hd⟩ := (validateSyntax_eq_true input).mp hv
  have hs : ∀ (s : ObfuscationStrategy G), BuiltIn R s → ∀ (level : Int) (output : Str) (g : G),
      validateSyntax (s.apply level input output g).2.1 = true := by
    intro s hb level output g
    obtain ⟨h1, h2⟩ := (BuiltIn.builtin_apply R s hb level input output g).2 hne
    exact (validateSyntax_eq_true _).mpr ⟨h1, by rw [h2, hd]⟩
  refine ⟨?_, ?_, ?_, ?_, ?_, ?_, ?_, hs, ?_⟩
  · intro J g
    obtain ⟨h1, h2⟩ := JunkInstructionStrategy.junkApply_valid R J input g hne
    exact (validateSyntax_eq_true _).mpr ⟨h1, by rw [h2, hd]⟩
  · intro g
    obtain ⟨h1, h2⟩ := OpaquePredicateStrategy.predicateApply_valid R input g hne
    exact (validateSyntax_eq_true _).mpr ⟨h1, by rw [h2, hd]⟩
  · intro S g
    obtain ⟨h1, h2⟩ := StringEncryptionStrategy.encryptApply_valid R S input g hne
    exact (validateSyntax_eq_true _).mpr ⟨h1, by rw [h2, hd]⟩
  · exact hv
  · obtain ⟨h1, h2⟩ := ControlFlowFlatteningStrategy.flatteningApply_valid input
    exact (validateSyntax_eq_true _).mpr ⟨h1, by rw [h2, hd]⟩
  · obtain ⟨h1, h2⟩ := ControlFlowRewriter.flattenControlFlow_valid input
    exact (validateSyntax_eq_true _).mpr ⟨h1, by rw [h2, hd]⟩
  · intro probability g
    obtain ⟨h1, h2⟩ := ControlFlowRewriter.addFakeBranches_valid R input probability g hne
    exact (validateSyntax_eq_true _).mpr ⟨h1, by rw [h2, hd]⟩
  · intro E hE outputCode g elapsed
    have hvi : ObfuscationEngine.validateInput input = true :=
      ObfuscationEngine.validateInput_of_ne_nil input hne
    obtain ⟨_, h2, _⟩ := ObfuscationEngine.applyStrategiesLoop_builtin R E.m_strategies hE
      input [] 0 g
    obtain ⟨h3, h4⟩ := h2 hne
    have hout : (E.obfuscate input outputCode g elapsed).outputCode =
        (ObfuscationEngine.applyStrategiesLoop E.m_strategies input [] 0 g).1 := by
      simp [ObfuscationEngine.obfuscate, hvi, ObfuscationEngine.applyStrategies]
    refine ⟨by simp [ObfuscationEngine.obfuscate, hvi, ObfuscationEngine.applyStrategies], ?_⟩
    rw [hout]
    exact (validateSyntax_eq_true _).mpr ⟨h3, by rw [h4, hd]⟩

end CodeValidator

namespace CodeValidator

set_option maxRecDepth 100000 in
theorem transformations_preserve_validateSyntax_witness :
    validateSyntax Sample.addSource = true ∧
    validateSyntax (JunkInstructionStrategy.apply lcg {} Sample.addSource 42).2.1 = true ∧
    validateSyntax (OpaquePredicateStrategy.apply lcg Sample.addSource 42).2.1 = true ∧
    validateSyntax (StringEncryptionStrategy.apply lcg {} Sample.addSource 42).2.1 = true ∧
    validateSyntax (ControlFlowRewriter.flattenControlFlow Sample.addSource) = true ∧
    ((Sample.fullEngine lcg).obfuscate Sample.addSource [] 42 0).ret = true ∧
    validateSyntax ((Sample.fullEngine lcg).obfuscate Sample.addSource [] 42 0).outputCode = true :=
  ⟨by decide,
    (transformations_preserve_validateSyntax lcg Sample.addSource (by decide)).1 {} 42,
    (transformations_preserve_validateSyntax lcg Sample.addSource (by decide)).2.1 42,
    (transformations_preserve_validateSyntax lcg Sample.addSource (by decide)).2.2.1 {} 42,
    (transformations_preserve_validateSyntax lcg Sample.addSource (by decide)).2.2.2.2.2.1,
    (transformations_preserve_validateSyntax lcg Sample.addSource (by decide)).2.2.2.2.2.2.2.2
      (Sample.fullEngine lcg) (ObfuscationEngine.fullEngine_builtin lcg) [] 42 0⟩

end CodeValidator

namespace ObfuscationEngine

variable {G : Type}

end ObfuscationEngine

/-! ### CodeParser: what holds of every recorded function -/

theorem braceScan_zero : ∀ (rest : Str) (bc : Int) (i : Nat), 0 < bc →
    (braceScan bc i rest).1 = 0 →
    ∃ k, (braceScan bc i rest).2 = i + k + 1 ∧ k < rest.length ∧ rest.get? k = some 125 ∧
      bc + netBraces (rest.take k) = 1 ∧ ∀ n, n ≤ k → 0 < bc + netBraces (rest.take n) := by
  intro rest
  induction rest with
  | nil =>
    intro bc i hbc h
    simp only [braceScan] at h
    omega
  | cons c cs ih =>
    intro bc i hbc h
    have hstep : braceScan bc i (c :: cs) =
        braceScan (if c = 123 then bc + 1 else if c = 125 then bc - 1 else bc) (i + 1) cs := by
      simp only [braceScan, gt_iff_lt, hbc, if_true]
    rw [hstep] at h ⊢
    by_cases hz : (if c = 123 then bc + 1 else if c = 125 then bc - 1 else bc) = 0
    · have hc : c = 125 ∧ bc = 1 := by
        by_cases h1 : c = 123
        · rw [if_pos h1] at hz; omega
        · rw [if_neg h1] at hz
          by_cases h2 : c = 125
          · rw [if_pos h2] at hz; exact ⟨h2, by omega⟩
          · rw [if_neg h2] at hz; omega
      refine ⟨0, ?_, by simp, by simp [hc.1], by simp [netBraces, hc.2], ?_⟩
      · rw [hz, braceScan_stop]
      · intro n hn
        have : n = 0 := by omega
        subst this
        simp [netBraces, hbc]
    · have hpos : 0 < (if c = 123 then bc + 1 else if c = 125 then bc - 1 else bc) := by
        by_cases h1 : c = 123
        · rw [if_pos h1]; omega
        · rw [if_neg h1] at hz ⊢
          by_cases h2 : c = 125
          · rw [if_pos h2] at hz ⊢; omega
          · rw [if_neg h2]; exact hbc
      obtain ⟨k, h1, h2, h3, h4, h5⟩ := ih _ (i + 1) hpos h
      have hnet : ∀ l : Str, bc + netBraces (c :: l) =
          (if c = 123 then bc + 1 else if c = 125 then bc - 1 else bc) + netBraces l := by
        intro l
        rw [netBraces_cons]
        by_cases h1 : c = 123
        · simp only [if_pos h1]; omega
        · by_cases h2 : c = 125
          · simp only [if_neg h1, if_pos h2]; omega
          · simp only [if_neg h1, if_neg h2]; omega
      refine ⟨k + 1, by rw [h1]; omega, by simp; omega, by simpa using h3, ?_, ?_⟩
      · rw [List.take_succ_cons, hnet]
        exact h4
      · intro n hn
        cases n with
        | zero => simp [netBraces, hbc]
        | succ n =>
          rw [List.take_succ_cons, hnet]
          exact h5 n (by omega)

namespace Regex

theorem searchLoop_bounds (items : List Item) : ∀ (fuel : Nat) (s : Str),
    ∀ m ∈ searchLoop items fuel s, m.1 + matchLength m.2 ≤ s.length := by
  intro fuel
  induction fuel with
  | zero => intro s m hm; simp [searchLoop] at hm
  | succ fuel ih =>
    intro s m hm
    simp only [searchLoop] at hm
    cases hr : regex_search items s with
    | none => simp [hr] at hm
    | some m0 =>
      simp only [hr, List.mem_cons] at hm
      rcases hm with hm | hm
      · subst hm
        exact regex_search_bounds items s m.1 m.2 hr
      · have h := ih _ m hm
        simp only [List.length_drop] at h
        omega

end Regex

namespace CodeParser

theorem extractFunctionBody_spec (sourceCode : Str) (startPos : Nat) :
    Balanced (extractFunctionBody sourceCode startPos) ∧
    (sourceCode.drop startPos).take (extractFunctionBody sourceCode startPos).length =
      extractFunctionBody sourceCode startPos ∧
    ((braceScan 1 startPos (sourceCode.drop startPos)).1 = 0 →
      sourceCode.get? (startPos + (extractFunctionBody sourceCode startPos).length) = some 125) := by
  by_cases hz : (braceScan 1 startPos (sourceCode.drop startPos)).1 = 0
  · obtain ⟨k, h1, h2, h3, h4, h5⟩ := braceScan_zero (sourceCode.drop startPos) 1 startPos
      (by decide) hz
    have hbody : extractFunctionBody sourceCode startPos = (sourceCode.drop startPos).take k := by
      unfold extractFunctionBody
      rw [if_neg (by simpa using hz), h1]
      congr 1
      omega
    have hlen : ((sourceCode.drop startPos).take k).length = k := by
      rw [List.length_take]
      omega
    rw [hbody, hlen]
    refine ⟨⟨?_, ?_⟩, rfl, fun _ => ?_⟩
    · intro n hn
      have hn2 : n ≤ k := by omega
      have e : ((sourceCode.drop startPos).take k).take n = (sourceCode.drop startPos).take n := by
        rw [List.take_take, Nat.min_eq_left hn2]
      rw [e]
      have := h5 n hn2
      unfold netBraces at this
      omega
    · unfold netBraces at h4
      omega
    · have e : sourceCode.get? (startPos + k) = (sourceCode.drop startPos).get? k := by
        simp [List.getElem?_drop]
      rw [e, h3]
  · have hbody : extractFunctionBody sourceCode startPos = [] := by
      unfold extractFunctionBody
      rw [if_pos hz]
    rw [hbody]
    exact ⟨by decide, by simp, fun h => absurd h hz⟩

/-- For every non-empty source text and every function that `parse` records:
the body has as many `{` as `}` and no prefix of it has more `}` than `{`;
`startPos <= endPos <= length(source)`; the text of the source from
`startPos` to `endPos` is the body; and when the brace counter of
`extractFunctionBody` has returned to zero, the character at `endPos` is a
`}`. -/
theorem parse_records_spec (P : CodeParser) (sourceCode : Str) (hne : sourceCode ≠ []) :
    ∀ func ∈ (parse P sourceCode).2.m_functions,
      Balanced func.body ∧ func.startPos ≤ func.endPos ∧ func.endPos ≤ sourceCode.length ∧
      (sourceCode.drop func.startPos).take (func.endPos - func.startPos) = func.body ∧
      ((braceScan 1 func.startPos (sourceCode.drop func.startPos)).1 = 0 →
        sourceCode.get? func.endPos = some 125) := by
  intro func hf
  have he : sourceCode.isEmpty = false := by
    cases sourceCode with
    | nil => exact absurd rfl hne
    | cons c cs => rfl
  simp only [parse, he, Bool.false_eq_true, if_false, parseStringLiterals, parseVariables,
    parseFunctions, List.nil_append, List.mem_map] at hf
  obtain ⟨m, hm, rfl⟩ := hf
  have hb := Regex.searchLoop_bounds Regex.funcPattern _ _ m hm
  obtain ⟨h1, h2, h3⟩ := extractFunctionBody_spec sourceCode (m.1 + Regex.matchLength m.2)
  have hlen : (extractFunctionBody sourceCode (m.1 + Regex.matchLength m.2)).length ≤
      sourceCode.length - (m.1 + Regex.matchLength m.2) := by
    have := congrArg List.length h2
    rw [List.length_take, List.length_drop] at this
    omega
  refine ⟨h1, ?_, ?_, ?_, h3⟩
  · show m.1 + Regex.matchLength m.2 ≤ m.1 + Regex.matchLength m.2 + _
    omega
  · show m.1 + Regex.matchLength m.2 + _ ≤ sourceCode.length
    omega
  · show (sourceCode.drop (m.1 + Regex.matchLength m.2)).take
      (m.1 + Regex.matchLength m.2 +
        (extractFunctionBody sourceCode (m.1 + Regex.matchLength m.2)).length -
        (m.1 + Regex.matchLength m.2)) = _
    rw [Nat.add_sub_cancel_left]
    exact h2

end CodeParser

namespace ControlFlowRewriter

variable {G : Type}

theorem fakeBranchLoop_one (R : StdRandom G) (hR : R.RealInUnit) (lines : List Str) :
    ∀ (result : Str) (g : G),
      (fakeBranchLoop R 1 lines result g).1 =
        result ++ (lines.map (fun line => line ++ ascii "\n" ++
          ascii "    if (0) \x7b volatile int __fake = 1; \x7d\n")).flatten := by
  induction lines with
  | nil => intro result g; simp [fakeBranchLoop]
  | cons line rest ih =>
    intro result g
    have hb := RandomGenerator.randomBool_one R hR g
    have hstep : fakeBranchLoop R 1 (line :: rest) result g =
        fakeBranchLoop R 1 rest
          (result ++ line ++ ascii "\n" ++ ascii "    if (0) \x7b volatile int __fake = 1; \x7d\n")
          (RandomGenerator.randomBool R 1 g).2 := by
      simp only [fakeBranchLoop, hb, if_true]
    rw [hstep, ih]
    simp only [List.map_cons, List.flatten_cons, List.append_assoc]

set_option maxRecDepth 100000 in
theorem addFakeBranches_sample :
    (addFakeBranches lcg (ascii "a = 1;\nb = 2;") 1 7).1 =
      ascii ("a = 1;\n    if (0) \x7b volatile int __fake = 1; \x7d\n" ++
        "b = 2;\n    if (0) \x7b volatile int __fake = 1; \x7d\n") ∧
    (addFakeBranches lcg (ascii "a = 1;\nb = 2;") 0 7).1 = ascii "a = 1;\nb = 2;\n" := by
  have h0 := fakeBranchLoop_zero lcg lcg_realInUnit (splitLines (ascii "a = 1;\nb = 2;")) [] 7
  have h1 := fakeBranchLoop_one lcg lcg_realInUnit (splitLines (ascii "a = 1;\nb = 2;")) [] 7
  refine ⟨?_, ?_⟩
  · rw [addFakeBranches, h1]
    decide
  · rw [addFakeBranches, h0]
    decide

end ControlFlowRewriter

end Aether
